import Mathlib

/-!
# OpenFrontIO map-generator: the per-map pipeline of `map-generator/main.go`

A shallow embedding of `outputMapDir`, `inputMapDir`, `processMap` and
`loadTerrainMaps`, together with executable models of the library calls they
make (`filepath.Join`, `os.Getwd`, `os.ReadFile`, `os.MkdirAll`, `os.WriteFile`,
`json.Unmarshal`, `json.MarshalIndent`).  The terrain engine `GenerateMap` lives
in another file of the repository and is a parameter throughout.

Conventions of the embedding:
* a Go `string` and a Go `[]byte` are lists of characters (the UTF-8 layer is
  not modelled);
* the file system and the record of the calls made are passed explicitly
  (`World`); a Go `error` is a `GoError`, a run-time panic is `Outcome.panic`;
  an error of a library call is carried by its kind (`LibError`), its text is
  not modelled;
* the file system maps path strings to files, directories and links (a link
  is another name of what its target names: a symbolic or a hard link); files
  and directories carry the permission bits of the process, new ones get them
  from the umask; a link is followed at the last element of a path, the
  directory elements of a path are taken as written;
* what `os.Getwd` answers is given call by call (`FS.cwdAt`), so that the
  working directory may change or get lost between two calls; nothing else
  changes the file system but the program;
* a Go `float64` decoded from JSON is carried as the text that Go's encoder
  writes for it (the shortest decimal that reads back as the same `float64`,
  computed with exact integer arithmetic);
* the `log.Printf` lines only write to the log and are left out.
-/

namespace MapGenerator

/-! ## Strings, byte slices and errors -/

/-- A Go `string`, as the list of its characters. -/
abbrev Str := List Char

/-- A Go `[]byte` (file contents), as a list of characters. -/
abbrev Bytes := List Char

/-- The failure of a library call, by its kind (the text of the error is not
modelled). -/
inductive LibError where
  | getwd
  | notExist (path : Str)
  | fileExists (path : Str)
  | notDir (path : Str)
  | isDir (path : Str)
  | permission (path : Str)
  | tooManyLinks (path : Str)
  | nameTooLong (path : Str)
  | jsonSyntax
  | jsonType
  deriving DecidableEq

/-- A Go `error`: the failure of a library call (`lib`), an error with a text
of its own, as the terrain engine may return (`base`), or an error built by
`fmt.Errorf("<added>%w", cause)` (`wrap`). -/
inductive GoError where
  | lib (e : LibError)
  | base (msg : Str)
  | wrap (added : Str) (cause : GoError)
  deriving DecidableEq

deriving instance DecidableEq for Except

/-- The text that the outermost `fmt.Errorf` put in front of its cause
(empty for an error that is not wrapped). -/
def GoError.added : GoError → Str
  | .lib _ => []
  | .base _ => []
  | .wrap added _ => added

/-! ## `path/filepath` (Unix) -/

/-- One element of the path being cleaned, applied to the stack of elements
kept so far (top first).  Mirrors the loop body of Go's `Clean`: empty and `.`
elements are dropped; `..` removes the element before it when there is one
that is not itself `..`, is dropped at the root, and is kept otherwise. -/
def cleanStep (rooted : Bool) (st : List Str) (c : Str) : List Str :=
  if c = [] ∨ c = ['.'] then st
  else if c = ['.', '.'] then
    match st with
    | [] => if rooted then [] else [c]
    | top :: rest =>
      if top = ['.', '.'] then (if rooted then st else c :: st) else rest
  else c :: st

/-- Whether the path starts with the separator. -/
def isRooted (p : Str) : Bool := p.head? = some '/'

/-- The elements that remain of a path after cleaning, first element first. -/
def cleanElems (p : Str) : List Str :=
  ((p.splitOn '/').foldl (cleanStep (isRooted p)) []).reverse

/-- The text of a cleaned path: its elements joined by the separator, after
a leading separator when rooted; `.` for the empty relative path. -/
def renderPath (rooted : Bool) (es : List Str) : Str :=
  let body := ['/'].intercalate es
  if rooted then '/' :: body
  else if body = [] then ['.'] else body

/-- Go's `filepath.Clean`: the shortest path equivalent to `p` by purely
lexical processing. -/
def filepathClean (p : Str) : Str :=
  if p = [] then ['.'] else renderPath (isRooted p) (cleanElems p)

/-- Go's `filepath.Join`: leading empty elements are skipped, the rest is
joined with the separator and cleaned; the result is empty when every element
is. -/
def filepathJoin : List Str → Str
  | [] => []
  | e :: es =>
    if e = [] then filepathJoin es else filepathClean (['/'].intercalate (e :: es))

/-- The path of the entry `f` inside the directory with the clean path `d`. -/
def childPath (d f : Str) : Str :=
  if d = ['/'] then '/' :: f
  else if d = ['.'] then f
  else d ++ '/' :: f

/-- The directory part that `os.MkdirAll` recurses on: `p` without its last
element and without the separators before it (`/` for an entry of the root,
empty when `p` has a single relative element or is the root). -/
def parentDir (p : Str) : Str :=
  let r := (p.reverse.dropWhile (· = '/')).dropWhile (· ≠ '/')
  let r2 := r.dropWhile (· = '/')
  if r2 = [] then (if r = [] then [] else ['/']) else r2.reverse

/-! ## JSON-shaped values

One type serves both as the tree of a JSON text (object members in source
order, duplicates kept) and as the Go value held in an `interface{}` (`nil`,
`bool`, `float64`, `int`, `string`, `[]interface{}`, `map[string]interface{}`).
A Go map is a list of entries with pairwise different keys; it has no order of
its own, the listing order is an artefact that `json.MarshalIndent` does not
look at. -/

mutual
/-- A JSON-shaped value. -/
inductive GoVal where
  | null
  | bool (b : Bool)
  | num (lit : Str)
  | int (n : Int)
  | str (s : Str)
  | arr (xs : GoVals)
  | obj (m : GoFields)
/-- A sequence of values. -/
inductive GoVals where
  | nil
  | cons (v : GoVal) (vs : GoVals)
/-- A sequence of key/value entries. -/
inductive GoFields where
  | nil
  | cons (k : Str) (v : GoVal) (m : GoFields)
end

/-- The keys of the entries, in listing order. -/
def GoFields.keys : GoFields → List Str
  | .nil => []
  | .cons k _ m => k :: m.keys

/-- Map lookup `m[k]`: the value of the first entry with key `k`. -/
def GoFields.get : GoFields → Str → Option GoVal
  | .nil, _ => none
  | .cons k v m, key => if key = k then some v else m.get key

/-- Map assignment `m[k] = v` on a non-nil map: the entry with key `k` is
replaced when there is one and added otherwise. -/
def GoFields.set : GoFields → Str → GoVal → GoFields
  | .nil, key, val => .cons key val .nil
  | .cons k v m, key, val =>
    if key = k then .cons k val m else .cons k v (m.set key val)

/-- Byte-wise order of strings (`strings.Compare a b < 0`). -/
def strLt : Str → Str → Bool
  | [], [] => false
  | [], _ :: _ => true
  | _ :: _, [] => false
  | a :: as, b :: bs =>
    if a.toNat < b.toNat then true
    else if a = b then strLt as bs
    else false

/-! ### Decoding (`json.Unmarshal`) -/

/-- JSON white space. -/
def isWs (c : Char) : Bool :=
  c = ' ' || c = '\t' || c = '\n' || c = '\r'

/-- Drops leading white space. -/
def skipWs (s : Str) : Str := s.dropWhile isWs

/-- Value of a hexadecimal digit. -/
def hexVal (c : Char) : Option Nat :=
  if '0' ≤ c ∧ c ≤ '9' then some (c.toNat - 48)
  else if 'a' ≤ c ∧ c ≤ 'f' then some (c.toNat - 87)
  else if 'A' ≤ c ∧ c ≤ 'F' then some (c.toNat - 55)
  else none

/-- Value of four hexadecimal digits. -/
def hex4 (a b c d : Char) : Option Nat :=
  match hexVal a, hexVal b, hexVal c, hexVal d with
  | some x, some y, some z, some w => some (((x * 16 + y) * 16 + z) * 16 + w)
  | _, _, _, _ => none

/-- The character of a one-letter escape. -/
def unescape (e : Char) : Option Char :=
  if e = '"' then some '"'
  else if e = '\\' then some '\\'
  else if e = '/' then some '/'
  else if e = 'b' then some (Char.ofNat 8)
  else if e = 'f' then some (Char.ofNat 12)
  else if e = 'n' then some '\n'
  else if e = 'r' then some '\r'
  else if e = 't' then some '\t'
  else none

/-- The body of a string literal, after its opening quote: the code units
of the string (a `\u` escape gives its 16-bit unit as written) and the input
after the closing quote. -/
def parseStringBody : Str → Option (List Nat × Str)
  | [] => none
  | c :: r =>
    if c = '"' then some ([], r)
    else if c = '\\' then
      match r with
      | [] => none
      | e :: r1 =>
        if e = 'u' then
          match r1 with
          | a :: b :: c2 :: d :: r2 =>
            match hex4 a b c2 d with
            | none => none
            | some n =>
              match parseStringBody r2 with
              | none => none
              | some (us, rest) => some (n :: us, rest)
          | _ => none
        else
          match unescape e with
          | none => none
          | some ch =>
            match parseStringBody r1 with
            | none => none
            | some (us, rest) => some (ch.toNat :: us, rest)
    else if c.toNat < 32 then none
    else
      match parseStringBody r with
      | none => none
      | some (us, rest) => some (c.toNat :: us, rest)

/-- Code units to characters: a high surrogate followed by a low one is one
character, any other surrogate becomes U+FFFD. -/
def fromUnits : List Nat → Str
  | [] => []
  | [u] => [if 0xD800 ≤ u ∧ u < 0xE000 then Char.ofNat 0xFFFD else Char.ofNat u]
  | u :: v :: us =>
    if 0xD800 ≤ u ∧ u < 0xDC00 ∧ 0xDC00 ≤ v ∧ v < 0xE000 then
      Char.ofNat ((u - 0xD800) * 0x400 + (v - 0xDC00) + 0x10000) :: fromUnits us
    else if 0xD800 ≤ u ∧ u < 0xE000 then Char.ofNat 0xFFFD :: fromUnits (v :: us)
    else Char.ofNat u :: fromUnits (v :: us)

/-- A string literal after its opening quote. -/
def parseString (s : Str) : Option (Str × Str) :=
  match parseStringBody s with
  | none => none
  | some (us, rest) => some (fromUnits us, rest)

/-- One or more decimal digits. -/
def parseDigits (s : Str) : Option (Str × Str) :=
  match s.span Char.isDigit with
  | ([], _) => none
  | (ds, rest) => some (ds, rest)

/-- The integer part of a number literal: `0` or digits. -/
def parseIntPart (s : Str) : Option (Str × Str) :=
  match s with
  | '0' :: r => some (['0'], r)
  | _ => parseDigits s

/-- The optional fraction of a number literal: a point and digits. -/
def parseFracPart (s : Str) : Option (Str × Str) :=
  match s with
  | '.' :: r =>
    match parseDigits r with
    | none => none
    | some (ds, r2) => some ('.' :: ds, r2)
  | _ => some ([], s)

/-- The optional exponent of a number literal: `e` or `E`, an optional sign,
and digits. -/
def parseExpPart (s : Str) : Option (Str × Str) :=
  match s with
  | e :: r =>
    if e = 'e' ∨ e = 'E' then
      match r with
      | '+' :: r0 =>
        match parseDigits r0 with
        | none => none
        | some (ds, r2) => some (e :: '+' :: ds, r2)
      | '-' :: r0 =>
        match parseDigits r0 with
        | none => none
        | some (ds, r2) => some (e :: '-' :: ds, r2)
      | _ =>
        match parseDigits r with
        | none => none
        | some (ds, r2) => some (e :: ds, r2)
    else some ([], s)
  | [] => some ([], s)

/-- A number literal without sign. -/
def parseUnsigned (s : Str) : Option (Str × Str) :=
  match parseIntPart s with
  | none => none
  | some (ip, s2) =>
    match parseFracPart s2 with
    | none => none
    | some (fp, s3) =>
      match parseExpPart s3 with
      | none => none
      | some (ep, s4) => some (ip ++ (fp ++ ep), s4)

/-- A number literal: `-? (0 | [1-9][0-9]*) (. [0-9]+)? ([eE] [+-]? [0-9]+)?`. -/
def parseNumber (s : Str) : Option (Str × Str) :=
  match s with
  | '-' :: r =>
    match parseUnsigned r with
    | none => none
    | some (t, r1) => some ('-' :: t, r1)
  | _ => parseUnsigned s

mutual
/-- A JSON value at the head of the input, with the input after it. -/
def parseValue : Nat → Str → Option (GoVal × Str)
  | 0, _ => none
  | fuel + 1, s =>
    match skipWs s with
    | [] => none
    | c :: r =>
      if c = '{' then
        match skipWs r with
        | '}' :: r1 => some (.obj .nil, r1)
        | r1 =>
          match parseMembers fuel r1 with
          | none => none
          | some (m, r2) => some (.obj m, r2)
      else if c = '[' then
        match skipWs r with
        | ']' :: r1 => some (.arr .nil, r1)
        | r1 =>
          match parseElems fuel r1 with
          | none => none
          | some (xs, r2) => some (.arr xs, r2)
      else if c = '"' then
        match parseString r with
        | none => none
        | some (str, r1) => some (.str str, r1)
      else if c = '-' ∨ c.isDigit then
        match parseNumber (c :: r) with
        | none => none
        | some (lit, r1) => some (.num lit, r1)
      else
        match c :: r with
        | 'n' :: 'u' :: 'l' :: 'l' :: r1 => some (.null, r1)
        | 't' :: 'r' :: 'u' :: 'e' :: r1 => some (.bool true, r1)
        | 'f' :: 'a' :: 'l' :: 's' :: 'e' :: r1 => some (.bool false, r1)
        | _ => none
/-- The elements of an array, from the start of an element to the closing
bracket. -/
def parseElems : Nat → Str → Option (GoVals × Str)
  | 0, _ => none
  | fuel + 1, s =>
    match parseValue fuel s with
    | none => none
    | some (v, r) =>
      match skipWs r with
      | ',' :: r1 =>
        match parseElems fuel r1 with
        | none => none
        | some (vs, r2) => some (.cons v vs, r2)
      | ']' :: r1 => some (.cons v .nil, r1)
      | _ => none
/-- The members of an object, from the start of a member to the closing
brace. -/
def parseMembers : Nat → Str → Option (GoFields × Str)
  | 0, _ => none
  | fuel + 1, s =>
    match skipWs s with
    | '"' :: r =>
      match parseString r with
      | none => none
      | some (key, r1) =>
        match skipWs r1 with
        | ':' :: r2 =>
          match parseValue fuel r2 with
          | none => none
          | some (v, r3) =>
            match skipWs r3 with
            | ',' :: r4 =>
              match parseMembers fuel r4 with
              | none => none
              | some (m, r5) => some (.cons key v m, r5)
            | '}' :: r4 => some (.cons key v .nil, r4)
            | _ => none
        | _ => none
    | _ => none
end

/-- The tree of a JSON text: one value, white space around it, nothing else. -/
def parseJSON (data : Bytes) : Option GoVal :=
  match parseValue (2 * data.length + 2) data with
  | none => none
  | some (v, rest) => if skipWs rest = [] then some v else none

/-- The keys of the JSON object that `data` holds, in the order in which the
text lists them (empty when `data` is not a JSON object). -/
def objectKeys (data : Bytes) : List Str :=
  match parseJSON data with
  | some (.obj m) => m.keys
  | _ => []

/-! ### Numbers: `float64` as Go reads and writes it -/

/-- Decimal digits of `n`, most significant first, in front of `acc`
(nothing for zero); `fuel` bounds the number of digits. -/
def natDigitsAux : Nat → Nat → Str → Str
  | 0, _, acc => acc
  | fuel + 1, n, acc =>
    if n = 0 then acc else natDigitsAux fuel (n / 10) (Char.ofNat (48 + n % 10) :: acc)

/-- Decimal text of a natural number. -/
def natText (n : Nat) : Str :=
  if n = 0 then ['0'] else natDigitsAux n n []

/-- The number that a string of decimal digits writes. -/
def digitsVal (ds : Str) : Nat :=
  ds.foldl (fun a c => 10 * a + (c.toNat - 48)) 0

/-- A number literal read as sign, decimal mantissa and decimal exponent:
the value is `± mant * 10 ^ exp`. -/
def readLiteral (lit : Str) : Bool × Nat × Int :=
  let (neg, s1) := match lit with
    | '-' :: r => (true, r)
    | _ => (false, lit)
  let (ip, s2) := s1.span Char.isDigit
  let (fp, s3) := match s2 with
    | '.' :: r => r.span Char.isDigit
    | _ => ([], s2)
  let e : Int := match s3 with
    | _ :: '-' :: r => - (digitsVal r : Int)
    | _ :: '+' :: r => (digitsVal r : Int)
    | _ :: r => (digitsVal r : Int)
    | [] => 0
  (neg, digitsVal (ip ++ fp), e - (fp.length : Int))

/-- The quotient `n / d` rounded to the nearest integer, a tie to the even
one. -/
def roundHalfEven (n d : Nat) : Nat :=
  let q := n / d
  let r := n % d
  if 2 * r < d then q
  else if d < 2 * r then q + 1
  else if q % 2 = 0 then q else q + 1

/-- The fraction `num / den` multiplied by `b ^ (-e)`. -/
def scaleBy (b : Nat) (num den : Nat) (e : Int) : Nat × Nat :=
  if 0 ≤ e then (num, den * b ^ e.toNat) else (num * b ^ (-e).toNat, den)

/-- The number of binary digits of `n`; `fuel` bounds it. -/
def bitLength : Nat → Nat → Nat
  | 0, _ => 0
  | fuel + 1, n => if n = 0 then 0 else bitLength fuel (n / 2) + 1

/-- The float64 nearest to the positive fraction `num / den` (round to
nearest, ties to even), as mantissa and binary exponent: the value is
`m * 2 ^ e` with `m < 2 ^ 53` and `-1074 ≤ e ≤ 971`; `none` when the
fraction is beyond the largest float64 (it would round to infinity). -/
def toFloat64 (num den : Nat) : Option (Nat × Int) :=
  let e0 : Int := (bitLength num num : Int) - (bitLength den den : Int) - 52
  let s0 := scaleBy 2 num den e0
  let e1 : Int := if s0.1 / s0.2 < 2 ^ 52 then e0 - 1 else e0
  let e2 : Int := if e1 < -1074 then -1074 else e1
  let s2 := scaleBy 2 num den e2
  let m := roundHalfEven s2.1 s2.2
  let r : Nat × Int := if m = 2 ^ 53 then (2 ^ 52, e2 + 1) else (m, e2)
  if 971 < r.2 then none else some r

/-- Whether the decimal `c * 10 ^ s` rounds to the float64 `m * 2 ^ e`. -/
def roundsTo (c : Nat) (s : Int) (m : Nat) (e : Int) : Bool :=
  let f := scaleBy 10 c 1 (-s)
  decide (c ≠ 0) && decide (toFloat64 f.1 f.2 = some (m, e))

/-- The number `k` of decimal digits in front of the point of the positive
fraction `xn / xd`: `10 ^ (k - 1) ≤ xn / xd < 10 ^ k`. -/
def decExp (xn xd : Nat) : Int :=
  let k0 : Int := ((natText xn).length : Int) - ((natText xd).length : Int)
  let s := scaleBy 10 xn xd k0
  if s.1 < s.2 then k0 else k0 + 1

/-- The decimal with `n` digits that is nearest to `xn / xd` among those that
round to the float64 `m * 2 ^ e`, as digits and decimal exponent. -/
def shortestAt (xn xd m : Nat) (e k : Int) (n : Nat) : Option (Nat × Int) :=
  let s : Int := k - n
  let f := scaleBy 10 xn xd s
  let lo := f.1 / f.2
  let r := f.1 % f.2
  let okLo := roundsTo lo s m e
  let okHi := roundsTo (lo + 1) s m e
  if r = 0 then (if okLo then some (lo, s) else none)
  else
    match okLo, okHi with
    | true, true =>
      if 2 * r < f.2 then some (lo, s)
      else if f.2 < 2 * r then some (lo + 1, s)
      else if lo % 2 = 0 then some (lo, s) else some (lo + 1, s)
    | true, false => some (lo, s)
    | false, true => some (lo + 1, s)
    | false, false => none

/-- The first `n` from `n` on, in `fuel` tries, for which `shortestAt` finds a
decimal. -/
def shortestFrom (xn xd m : Nat) (e k : Int) : Nat → Nat → Option (Nat × Int)
  | 0, _ => none
  | fuel + 1, n =>
    match shortestAt xn xd m e k n with
    | some r => some r
    | none => shortestFrom xn xd m e k fuel (n + 1)

/-- Removes the zeros at the end of the digits `c`, raising the exponent. -/
def stripZeros : Nat → Nat → Int → Nat × Int
  | 0, c, s => (c, s)
  | fuel + 1, c, s =>
    if c ≠ 0 ∧ c % 10 = 0 then stripZeros fuel (c / 10) (s + 1) else (c, s)

/-- The shortest decimal that rounds to the positive float64 `m * 2 ^ e`
(the nearest to it among the shortest), as digits without zeros at the end
and decimal exponent.  Seventeen digits always suffice. -/
def shortestDecimal (m : Nat) (e : Int) : Nat × Int :=
  let x := scaleBy 2 m 1 (-e)
  let k := decExp x.1 x.2
  match shortestFrom x.1 x.2 m e k 17 1 with
  | some (c, s) => stripZeros 20 c s
  | none => stripZeros 20 (max 1 ((scaleBy 10 x.1 x.2 (k - 17)).1 / (scaleBy 10 x.1 x.2 (k - 17)).2)) (k - 17)

/-- The text of Go's encoder for the positive float64 `m * 2 ^ e`: the
shortest decimal that reads back as the same float64, in positional form, or
with an exponent when the value is below `1e-6` or at least `1e21`. -/
def formatPos (m : Nat) (e : Int) : Str :=
  let x := scaleBy 2 m 1 (-e)
  let d := shortestDecimal m e
  let ds := natText d.1
  let k : Int := (ds.length : Int) + d.2
  let small : Bool :=
    match toFloat64 1 (10 ^ 6) with
    | some (m6, e6) =>
      let y := scaleBy 2 m6 1 (-e6)
      x.1 * y.2 < y.1 * x.2
    | none => false
  let large : Bool := 10 ^ 21 * x.2 ≤ x.1
  if small || large then
    let ex : Int := k - 1
    let frac := match ds.drop 1 with
      | [] => []
      | r => '.' :: r
    ds.take 1 ++ frac ++ 'e' :: (if ex < 0 then '-' else '+') :: natText ex.natAbs
  else if k ≤ 0 then
    '0' :: '.' :: (List.replicate (-k).toNat '0' ++ ds)
  else if k.toNat < ds.length then
    ds.take k.toNat ++ '.' :: ds.drop k.toNat
  else ds ++ List.replicate (k.toNat - ds.length) '0'

/-- The text that Go's encoder writes for the float64 that Go's decoder
stores for the number literal `lit` (`strconv.ParseFloat` followed by the
encoder's `strconv.AppendFloat`); `none` when the literal is out of the
range of float64. -/
def float64Text (lit : Str) : Option Str :=
  let (neg, mant, ex) := readLiteral lit
  let sign : Str := if neg then ['-'] else []
  let nd : Int := ((natText mant).length : Int) + ex
  if mant = 0 then some (sign ++ ['0'])
  else if 310 < nd then none
  else if nd < -330 then some (sign ++ ['0'])
  else
    let f := scaleBy 10 mant 1 (-ex)
    match toFloat64 f.1 f.2 with
    | none => none
    | some (m, e) =>
      if m = 0 then some (sign ++ ['0']) else some (sign ++ formatPos m e)

/-! ### From the tree to the Go value -/

mutual
/-- The nesting depth of a JSON tree: the number of arrays and objects that
are open at its deepest point. -/
def nestingVal : GoVal → Nat
  | .arr xs => nestingVals xs + 1
  | .obj m => nestingFields m + 1
  | _ => 0
/-- The largest nesting depth among the elements. -/
def nestingVals : GoVals → Nat
  | .nil => 0
  | .cons v vs => max (nestingVal v) (nestingVals vs)
/-- The largest nesting depth among the values of the members. -/
def nestingFields : GoFields → Nat
  | .nil => 0
  | .cons _ v m => max (nestingVal v) (nestingFields m)
end

/-- The deepest nesting that Go's scanner accepts. -/
def maxNestingDepth : Nat := 10000

mutual
/-- The Go value stored for a JSON tree: objects become maps, numbers become
`float64`; `none` when a number is out of the range of `float64`. -/
def decodeVal : GoVal → Option GoVal
  | .num lit =>
    match float64Text lit with
    | none => none
    | some t => some (.num t)
  | .arr xs =>
    match decodeVals xs with
    | none => none
    | some ys => some (.arr ys)
  | .obj m =>
    match decodeFields .nil m with
    | none => none
    | some m1 => some (.obj m1)
  | v => some v
/-- Element-wise `decodeVal`. -/
def decodeVals : GoVals → Option GoVals
  | .nil => some .nil
  | .cons v vs =>
    match decodeVal v, decodeVals vs with
    | some y, some ys => some (.cons y ys)
    | _, _ => none
/-- The members of an object stored one after the other into the map `acc`
(a later member with the same key replaces the earlier one). -/
def decodeFields (acc : GoFields) : GoFields → Option GoFields
  | .nil => some acc
  | .cons k v m =>
    match decodeVal v with
    | none => none
    | some y => decodeFields (acc.set k y) m
end

/-- Go's `json.Unmarshal(data, &manifest)` for a nil `manifest` of type
`map[string]interface{}`: a JSON object gives a map, the text `null` leaves
the nil map (`none`) without error, every other text is an error: a syntax
error for a text that is not JSON or is nested deeper than
`maxNestingDepth`, a type error for a value that is not an object or holds a
number out of the range of `float64`. -/
def jsonUnmarshal (data : Bytes) : Except GoError (Option GoFields) :=
  match parseJSON data with
  | none => .error (.lib .jsonSyntax)
  | some tree =>
    if maxNestingDepth < nestingVal tree then .error (.lib .jsonSyntax)
    else
      match tree with
      | .null => .ok none
      | .obj m =>
        match decodeFields .nil m with
        | none => .error (.lib .jsonType)
        | some m1 => .ok (some m1)
      | _ => .error (.lib .jsonType)

/-! ### Encoding (`json.MarshalIndent`) -/

/-- Puts the entry `k: v` into a list of entries kept in ascending key order;
an entry that already has the key `k` is replaced. -/
def insertField (k : Str) (v : GoVal) : GoFields → GoFields
  | .nil => .cons k v .nil
  | .cons k2 v2 m =>
    if k = k2 then .cons k v m
    else if strLt k k2 then .cons k v (.cons k2 v2 m)
    else .cons k2 v2 (insertField k v m)

mutual
/-- The value as the encoder walks it: the entries of every map in ascending
key order (Go sorts the keys of a map before writing them). -/
def canonVal : GoVal → GoVal
  | .arr xs => .arr (canonVals xs)
  | .obj m => .obj (canonFields m)
  | v => v
/-- Element-wise `canonVal`. -/
def canonVals : GoVals → GoVals
  | .nil => .nil
  | .cons v vs => .cons (canonVal v) (canonVals vs)
/-- The entries of a map sorted by key, each key once (with the value that
lookup gives). -/
def canonFields : GoFields → GoFields
  | .nil => .nil
  | .cons k v m => insertField k (canonVal v) (canonFields m)
end

/-- Lower-case hexadecimal digit. -/
def hexDigit (n : Nat) : Char :=
  if n < 10 then Char.ofNat (48 + n) else Char.ofNat (87 + n)

/-- One character inside an encoded string: quote, backslash and control
characters are escaped, and so are `<`, `>`, `&`, U+2028 and U+2029 (Go's
HTML-safe default). -/
def escapeChar (c : Char) : Str :=
  if c = '"' then ['\\', '"']
  else if c = '\\' then ['\\', '\\']
  else if c = '\n' then ['\\', 'n']
  else if c = '\r' then ['\\', 'r']
  else if c = '\t' then ['\\', 't']
  else if c = Char.ofNat 8 then ['\\', 'b']
  else if c = Char.ofNat 12 then ['\\', 'f']
  else if c.toNat < 32 ∨ c = '<' ∨ c = '>' ∨ c = '&' ∨ c.toNat = 0x2028 ∨ c.toNat = 0x2029 then
    let n := c.toNat
    ['\\', 'u', hexDigit (n / 4096 % 16), hexDigit (n / 256 % 16), hexDigit (n / 16 % 16),
      hexDigit (n % 16)]
  else [c]

/-- An encoded string with its quotes. -/
def quote (s : Str) : Str :=
  '"' :: (s.flatMap escapeChar ++ ['"'])

/-- Decimal text of a Go `int`. -/
def intText (n : Int) : Str :=
  if n < 0 then '-' :: natText n.natAbs else natText n.toNat

/-- The string `s` written `n` times. -/
def repeatStr : Nat → Str → Str
  | 0, _ => []
  | n + 1, s => s ++ repeatStr n s

/-- The line break of `json.Indent` at nesting depth `depth`: a newline, the
text `pre`, and one copy of the indent `ind` per level. -/
def newline (pre ind : Str) (depth : Nat) : Str :=
  '\n' :: (pre ++ repeatStr depth ind)

mutual
/-- The indented text of a value whose maps are already in key order: every
element of a non-empty array and every entry of a non-empty map on a line of
its own, one level deeper than the bracket that holds it. -/
def renderVal (pre ind : Str) (depth : Nat) : GoVal → Str
  | .null => "null".toList
  | .bool true => "true".toList
  | .bool false => "false".toList
  | .num lit => lit
  | .int n => intText n
  | .str s => quote s
  | .arr .nil => "[]".toList
  | .arr (.cons v vs) =>
    '[' :: (newline pre ind (depth + 1) ++ (renderVals pre ind (depth + 1) (.cons v vs)
      ++ (newline pre ind depth ++ [']'])))
  | .obj .nil => ['{', '}']
  | .obj (.cons k v m) =>
    '{' :: (newline pre ind (depth + 1) ++ (renderFields pre ind (depth + 1) (.cons k v m)
      ++ (newline pre ind depth ++ ['}'])))
/-- The elements of an array, a comma and a line break between two of them. -/
def renderVals (pre ind : Str) (depth : Nat) : GoVals → Str
  | .nil => []
  | .cons v .nil => renderVal pre ind depth v
  | .cons v (.cons v2 vs) =>
    renderVal pre ind depth v ++ ',' :: (newline pre ind depth
      ++ renderVals pre ind depth (.cons v2 vs))
/-- The entries of a map, a comma and a line break between two of them. -/
def renderFields (pre ind : Str) (depth : Nat) : GoFields → Str
  | .nil => []
  | .cons k v .nil => quote k ++ ':' :: ' ' :: renderVal pre ind depth v
  | .cons k v (.cons k2 v2 m) =>
    quote k ++ ':' :: ' ' :: (renderVal pre ind depth v ++ ',' :: (newline pre ind depth
      ++ renderFields pre ind depth (.cons k2 v2 m)))
end

/-- Go's `json.MarshalIndent(manifest, pre, ind)` for a non-nil
`map[string]interface{}` holding JSON-shaped values: the keys of every map in
ascending order, one entry per line, each line after the first starting with
`pre` and one copy of `ind` per nesting level.  No value of `GoVal` makes the
encoder fail. -/
def jsonMarshalIndent (m : GoFields) (pre ind : Str) : Except GoError Bytes :=
  .ok (renderVal pre ind 0 (canonVal (.obj m)))

/-! ## The file system (`os`) -/

/-- The permission bits of the process on a file or a directory: reading,
writing, and executing (for a directory: searching it). -/
structure Perm where
  read : Bool
  write : Bool
  exec : Bool
  deriving DecidableEq

/-- What a path names: a regular file with its content, a directory, or a
link, which is another name of what its target names. -/
inductive Node where
  | file (content : Bytes) (perm : Perm)
  | dir (perm : Perm)
  | link (target : Str)
  deriving DecidableEq

/-- The state of the file system as the process sees it: what `os.Getwd`
answers when the process has made that many calls before (`none` when the
working directory cannot be determined at that moment), what each path names,
and the permission bits that the umask clears on what the process creates. -/
structure FS where
  cwdAt : Nat → Option Str
  node : Str → Option Node
  umask : Perm

/-- The file system with path `p` naming `n`. -/
def FS.put (fs : FS) (p : Str) (n : Node) : FS :=
  { fs with node := fun q => if q = p then some n else fs.node q }

/-- The bits of a file created with mode `0644`. -/
def newFilePerm (fs : FS) : Perm :=
  { read := !fs.umask.read, write := !fs.umask.write, exec := false }

/-- The bits of a directory created with mode `0755`. -/
def newDirPerm (fs : FS) : Perm :=
  { read := !fs.umask.read, write := !fs.umask.write, exec := !fs.umask.exec }

/-- The path at which the links starting at `p` end; `none` after more than
`fuel` links. -/
def resolveAux : Nat → FS → Str → Option Str
  | 0, _, _ => none
  | fuel + 1, fs, p =>
    match fs.node p with
    | some (.link target) => resolveAux fuel fs target
    | _ => some p

/-- The path that `p` stands for once its links are followed (the system
follows at most 40 of them). -/
def resolve (fs : FS) (p : Str) : Option Str := resolveAux 41 fs p

/-- What the path names once its links are followed (the system call `stat`);
`none` when it names nothing or the links do not end. -/
def stat (fs : FS) (p : Str) : Option Node :=
  match resolve fs p with
  | none => none
  | some r => fs.node r

/-- The result of `os.ReadFile`. -/
def readFile (fs : FS) (p : Str) : Except GoError Bytes :=
  match resolve fs p with
  | none => .error (.lib (.tooManyLinks p))
  | some r =>
    match fs.node r with
    | some (.file content perm) =>
      if perm.read then .ok content else .error (.lib (.permission p))
    | some (.dir _) => .error (.lib (.isDir p))
    | _ => .error (.lib (.notExist p))

/-- Whether an entry can be created in the directory `d`: it is a directory
that the process may write and search (the empty `d` stands for the working
directory of a relative path, which is not looked at). -/
def canCreateIn (fs : FS) (d : Str) : Except LibError Unit :=
  if d = [] then .ok ()
  else
    match fs.node d with
    | some (.dir perm) => if perm.write && perm.exec then .ok () else .error (.permission d)
    | some _ => .error (.notDir d)
    | none => .error (.notExist d)

/-- The system call `mkdir`: creates the directory `p` when nothing has that
name and an entry can be created in its parent. -/
def mkdir (fs : FS) (p : Str) : Except GoError FS :=
  if p = [] then .error (.lib (.notExist p))
  else
    match fs.node p with
    | some _ => .error (.lib (.fileExists p))
    | none =>
      match canCreateIn fs (parentDir p) with
      | .error e => .error (.lib e)
      | .ok _ => .ok (fs.put p (.dir (newDirPerm fs)))

/-- Go's `os.MkdirAll`: success without change when `p` is a directory (also
through links), failure when it is a file; otherwise the parent is created
the same way and then `p` itself.  The file system that is left is returned
with the error, since the parents created before a failure stay.  `fuel`
bounds the recursion over the parents. -/
def mkdirAllAux : Nat → FS → Str → Option GoError × FS
  | 0, fs, p => (some (.lib (.nameTooLong p)), fs)
  | fuel + 1, fs, p =>
    match stat fs p with
    | some (.dir _) => (none, fs)
    | some (.file _ _) => (some (.lib (.notDir p)), fs)
    | _ =>
      match (if parentDir p = [] then (none, fs) else mkdirAllAux fuel fs (parentDir p)) with
      | (some e, fs1) => (some e, fs1)
      | (none, fs1) =>
        match mkdir fs1 p with
        | .error e => (some e, fs1)
        | .ok fs2 => (none, fs2)

/-- The result of `os.MkdirAll(p, 0755)`: the error, if any, and the file
system that is left. -/
def mkdirAll (fs : FS) (p : Str) : Option GoError × FS :=
  mkdirAllAux (p.length + 1) fs p

/-- The result of `os.WriteFile(p, data, 0644)`: the file that `p` stands for
is replaced when there is one that the process may write, and created when
there is none and its directory allows it; fails on a directory. -/
def writeFile (fs : FS) (p : Str) (data : Bytes) : Except GoError FS :=
  match resolve fs p with
  | none => .error (.lib (.tooManyLinks p))
  | some r =>
    match fs.node r with
    | some (.file _ perm) =>
      if perm.write then .ok (fs.put r (.file data perm)) else .error (.lib (.permission p))
    | some (.dir _) => .error (.lib (.isDir p))
    | some (.link _) => .error (.lib (.tooManyLinks p))
    | none =>
      if r = [] then .error (.lib (.notExist p))
      else
        match canCreateIn fs (parentDir r) with
        | .error e => .error (.lib e)
        | .ok _ => .ok (fs.put r (.file data (newFilePerm fs)))

/-! ## The terrain engine (declared in another file of the repository) -/

/-- The argument of `GenerateMap`, with the fields that `processMap` sets. -/
structure GeneratorArgs where
  ImageBuffer : Bytes
  RemoveSmall : Bool
  Name : Str
  deriving DecidableEq

/-- The result of `GenerateMap`, with the fields that `processMap` reads. -/
structure GenerationResult where
  Map : Bytes
  MiniMap : Bytes
  Thumbnail : Bytes
  MapWidth : Int
  MapHeight : Int
  MapNumLandTiles : Int
  MiniMapWidth : Int
  MiniMapHeight : Int
  MiniMapNumLandTiles : Int
  deriving DecidableEq

/-- The terrain engine as `processMap` uses it: a function of its
arguments that returns a result or an error. -/
abbrev Engine := GeneratorArgs → Except GoError GenerationResult

/-! ## The world: file system and record of calls -/

/-- A call that the program makes to a library function or to the engine,
with its arguments. -/
inductive Call where
  | getwd
  | readFile (path : Str)
  | unmarshal (data : Bytes)
  | generateMap (args : GeneratorArgs)
  | mkdirAll (path : Str)
  | writeFile (path : Str) (data : Bytes)
  | marshalIndent (manifest : GoFields) (pre ind : Str)

/-- The state threaded through the program: the file system and the calls
made so far, oldest first. -/
structure World where
  fs : FS
  calls : List Call

/-- The world after one more call. -/
def World.record (w : World) (c : Call) : World :=
  { w with calls := w.calls ++ [c] }

/-- Go's `os.Getwd()`. -/
def osGetwd (w : World) : Except GoError Str × World :=
  match w.fs.cwdAt w.calls.length with
  | some cwd => (.ok cwd, w.record .getwd)
  | none => (.error (.lib .getwd), w.record .getwd)

/-- Go's `os.ReadFile(path)`. -/
def osReadFile (path : Str) (w : World) : Except GoError Bytes × World :=
  (readFile w.fs path, w.record (.readFile path))

/-- Go's `os.MkdirAll(path, 0755)`; `none` stands for the `nil` error. -/
def osMkdirAll (path : Str) (w : World) : Option GoError × World :=
  ((mkdirAll w.fs path).1, { fs := (mkdirAll w.fs path).2, calls := w.calls ++ [.mkdirAll path] })

/-- Go's `os.WriteFile(path, data, 0644)`; `none` stands for the `nil` error. -/
def osWriteFile (path : Str) (data : Bytes) (w : World) : Option GoError × World :=
  match writeFile w.fs path data with
  | .ok fs1 => (none, { fs := fs1, calls := w.calls ++ [.writeFile path data] })
  | .error e => (some e, w.record (.writeFile path data))

/-! ## `map-generator/main.go` -/

/-- An element of the catalog `maps`. -/
structure MapItem where
  Name : Str
  IsTest : Bool
  deriving DecidableEq

/-- The catalog `maps` of the source (the entries that are not commented
out). -/
def maps : List MapItem :=
  [ { Name := "annecy".toList, IsTest := false },
    { Name := "paris".toList, IsTest := false },
    { Name := "plains".toList, IsTest := true } ]

/-- How a call of `processMap` or `loadTerrainMaps` ends: it returns `nil`,
it returns an error, or it panics. -/
inductive Outcome where
  | ok
  | err (e : GoError)
  | panic (msg : Str)
  deriving DecidableEq

/-- The function `outputMapDir` of the source. -/
def outputMapDir (isTest : Bool) (w : World) : Except GoError Str × World :=
  match osGetwd w with
  | (.error err, w1) => (.error (.wrap "failed to get working directory: ".toList err), w1)
  | (.ok cwd, w1) =>
    if isTest then
      (.ok (filepathJoin [cwd, "..".toList, "tests".toList, "testdata".toList, "maps".toList]), w1)
    else
      (.ok (filepathJoin [cwd, "..".toList, "resources".toList, "maps".toList]), w1)

/-- The function `inputMapDir` of the source. -/
def inputMapDir (isTest : Bool) (w : World) : Except GoError Str × World :=
  match osGetwd w with
  | (.error err, w1) => (.error (.wrap "failed to get working directory: ".toList err), w1)
  | (.ok cwd, w1) =>
    if isTest then
      (.ok (filepathJoin [cwd, "assets".toList, "test_maps".toList]), w1)
    else
      (.ok (filepathJoin [cwd, "assets".toList, "maps".toList]), w1)

/-- The map literal assigned to the keys `"map"` and `"mini_map"`. -/
def geometry (width height numLandTiles : Int) : GoVal :=
  .obj (.cons "width".toList (.int width)
    (.cons "height".toList (.int height)
      (.cons "num_land_tiles".toList (.int numLandTiles) .nil)))

/-- The function `processMap` of the source (the `log.Printf` lines, which
only write to the log, are left out). -/
def processMap (GenerateMap : Engine) (name : Str) (isTest : Bool) (w : World) :
    Outcome × World :=
  match outputMapDir isTest w with
  | (.error err, w1) => (.err (.wrap "failed to get map directory: ".toList err), w1)
  | (.ok outputMapBaseDir, w1) =>
  match inputMapDir isTest w1 with
  | (.error err, w2) => (.err (.wrap "failed to get input map directory: ".toList err), w2)
  | (.ok inputDir, w2) =>
  let inputPath := filepathJoin [inputDir, name, "image.png".toList]
  match osReadFile inputPath w2 with
  | (.error err, w3) =>
    (.err (.wrap ("failed to read map file ".toList ++ inputPath ++ ": ".toList) err), w3)
  | (.ok imageBuffer, w3) =>
  let manifestPath := filepathJoin [inputDir, name, "info.json".toList]
  match osReadFile manifestPath w3 with
  | (.error err, w4) =>
    (.err (.wrap ("failed to read info file ".toList ++ manifestPath ++ ": ".toList) err), w4)
  | (.ok manifestBuffer, w4) =>
  let w5 := w4.record (.unmarshal manifestBuffer)
  match jsonUnmarshal manifestBuffer with
  | .error err =>
    (.err (.wrap ("failed to parse info.json for ".toList ++ name ++ ": ".toList) err), w5)
  | .ok manifest =>
  let args : GeneratorArgs :=
    { ImageBuffer := imageBuffer, RemoveSmall := !isTest, Name := name }
  let w6 := w5.record (.generateMap args)
  match GenerateMap args with
  | .error err =>
    (.err (.wrap ("failed to generate map for ".toList ++ name ++ ": ".toList) err), w6)
  | .ok result =>
  match manifest with
  | none => (.panic "assignment to entry in nil map".toList, w6)
  | some manifest0 =>
  let manifest1 := manifest0.set "map".toList
    (geometry result.MapWidth result.MapHeight result.MapNumLandTiles)
  let manifest2 := manifest1.set "mini_map".toList
    (geometry result.MiniMapWidth result.MiniMapHeight result.MiniMapNumLandTiles)
  let mapDir := filepathJoin [outputMapBaseDir, name]
  match osMkdirAll mapDir w6 with
  | (some err, w7) =>
    (.err (.wrap ("failed to create output directory for ".toList ++ name ++ ": ".toList) err),
      w7)
  | (none, w7) =>
  match osWriteFile (filepathJoin [mapDir, "map.bin".toList]) result.Map w7 with
  | (some err, w8) =>
    (.err (.wrap ("failed to write combined binary for ".toList ++ name ++ ": ".toList) err),
      w8)
  | (none, w8) =>
  match osWriteFile (filepathJoin [mapDir, "mini_map.bin".toList]) result.MiniMap w8 with
  | (some err, w9) =>
    (.err (.wrap ("failed to write combined binary for ".toList ++ name ++ ": ".toList) err),
      w9)
  | (none, w9) =>
  match osWriteFile (filepathJoin [mapDir, "thumbnail.webp".toList]) result.Thumbnail w9 with
  | (some err, w10) =>
    (.err (.wrap ("failed to write thumbnail for ".toList ++ name ++ ": ".toList) err), w10)
  | (none, w10) =>
  let w11 := w10.record (.marshalIndent manifest2 [] [' ', ' '])
  match jsonMarshalIndent manifest2 [] [' ', ' '] with
  | .error err =>
    (.err (.wrap ("failed to serialize manifest for ".toList ++ name ++ ": ".toList) err), w11)
  | .ok updatedManifest =>
  match osWriteFile (filepathJoin [mapDir, "manifest.json".toList]) updatedManifest w11 with
  | (some err, w12) =>
    (.err (.wrap ("failed to write manifest for ".toList ++ name ++ ": ".toList) err), w12)
  | (none, w12) => (.ok, w12)

/-- The loop of `loadTerrainMaps` over a catalog: the entries are processed
one after the other, and the first one that does not return `nil` ends the
loop with its outcome. -/
def loadTerrainMapsOver (GenerateMap : Engine) : List MapItem → World → Outcome × World
  | [], w => (.ok, w)
  | mapItem :: rest, w =>
    match processMap GenerateMap mapItem.Name mapItem.IsTest w with
    | (.ok, w1) => loadTerrainMapsOver GenerateMap rest w1
    | (.err err, w1) => (.err err, w1)
    | (.panic msg, w1) => (.panic msg, w1)

/-- The function `loadTerrainMaps` of the source. -/
def loadTerrainMaps (GenerateMap : Engine) (w : World) : Outcome × World :=
  loadTerrainMapsOver GenerateMap maps w

/-! ## Names for the paths and values of a run -/

/-- The output root for a working directory (the value of `outputMapDir`). -/
def outputRoot (cwd : Str) (isTest : Bool) : Str :=
  if isTest then filepathJoin [cwd, "..".toList, "tests".toList, "testdata".toList, "maps".toList]
  else filepathJoin [cwd, "..".toList, "resources".toList, "maps".toList]

/-- The input root for a working directory (the value of `inputMapDir`). -/
def inputRoot (cwd : Str) (isTest : Bool) : Str :=
  if isTest then filepathJoin [cwd, "assets".toList, "test_maps".toList]
  else filepathJoin [cwd, "assets".toList, "maps".toList]

/-- The path from which the image of a map is read. -/
def imagePath (cwd name : Str) (isTest : Bool) : Str :=
  filepathJoin [inputRoot cwd isTest, name, "image.png".toList]

/-- The path from which the manifest of a map is read. -/
def infoPath (cwd name : Str) (isTest : Bool) : Str :=
  filepathJoin [inputRoot cwd isTest, name, "info.json".toList]

/-- The output directory of a map. -/
def mapDirOf (cwd name : Str) (isTest : Bool) : Str :=
  filepathJoin [outputRoot cwd isTest, name]

/-- The argument with which the engine is called. -/
def engineArgs (image : Bytes) (name : Str) (isTest : Bool) : GeneratorArgs :=
  { ImageBuffer := image, RemoveSmall := !isTest, Name := name }

/-- The manifest after the two assignments of `processMap`. -/
def mergeManifest (m : GoFields) (r : GenerationResult) : GoFields :=
  (m.set "map".toList (geometry r.MapWidth r.MapHeight r.MapNumLandTiles)).set
    "mini_map".toList (geometry r.MiniMapWidth r.MiniMapHeight r.MiniMapNumLandTiles)

/-- What `os.Getwd` answers to `outputMapDir` in a run of `processMap`
started in the world `w`: the answer to the next call. -/
def outputCwd (w : World) : Option Str := w.fs.cwdAt w.calls.length

/-- What `os.Getwd` answers to `inputMapDir` in a run of `processMap` started
in the world `w`: the answer to the call after the next. -/
def inputCwd (w : World) : Option Str := w.fs.cwdAt (w.calls.length + 1)

/-- The calls of a run up to and including the decoding of the manifest. -/
def loadCalls (cwd name : Str) (isTest : Bool) (info : Bytes) : List Call :=
  [.getwd, .getwd, .readFile (imagePath cwd name isTest), .readFile (infoPath cwd name isTest),
    .unmarshal info]

/-- The output phase of `processMap`, exit by exit, for the output directory
`d`, the engine result `r` and the merged manifest `m2`, started on the file
system `fs`: the outcome, the file system that is left and the calls made. -/
inductive Emit (name d : Str) (r : GenerationResult) (m2 : GoFields) (fs : FS) :
    Outcome → FS → List Call → Prop
  | mkdirFails (e : GoError) (h7 : (mkdirAll fs d).1 = some e) :
    Emit name d r m2 fs
      (.err (.wrap ("failed to create output directory for ".toList ++ name ++ ": ".toList) e))
      (mkdirAll fs d).2 [.mkdirAll d]
  | mapFails (fs7 : FS) (e : GoError) (h7 : mkdirAll fs d = (none, fs7))
      (h8 : writeFile fs7 (filepathJoin [d, "map.bin".toList]) r.Map = .error e) :
    Emit name d r m2 fs
      (.err (.wrap ("failed to write combined binary for ".toList ++ name ++ ": ".toList) e))
      fs7 [.mkdirAll d, .writeFile (filepathJoin [d, "map.bin".toList]) r.Map]
  | miniMapFails (fs7 fs8 : FS) (e : GoError) (h7 : mkdirAll fs d = (none, fs7))
      (h8 : writeFile fs7 (filepathJoin [d, "map.bin".toList]) r.Map = .ok fs8)
      (h9 : writeFile fs8 (filepathJoin [d, "mini_map.bin".toList]) r.MiniMap = .error e) :
    Emit name d r m2 fs
      (.err (.wrap ("failed to write combined binary for ".toList ++ name ++ ": ".toList) e))
      fs8
      [.mkdirAll d, .writeFile (filepathJoin [d, "map.bin".toList]) r.Map,
        .writeFile (filepathJoin [d, "mini_map.bin".toList]) r.MiniMap]
  | thumbnailFails (fs7 fs8 fs9 : FS) (e : GoError) (h7 : mkdirAll fs d = (none, fs7))
      (h8 : writeFile fs7 (filepathJoin [d, "map.bin".toList]) r.Map = .ok fs8)
      (h9 : writeFile fs8 (filepathJoin [d, "mini_map.bin".toList]) r.MiniMap = .ok fs9)
      (h10 : writeFile fs9 (filepathJoin [d, "thumbnail.webp".toList]) r.Thumbnail = .error e) :
    Emit name d r m2 fs
      (.err (.wrap ("failed to write thumbnail for ".toList ++ name ++ ": ".toList) e))
      fs9
      [.mkdirAll d, .writeFile (filepathJoin [d, "map.bin".toList]) r.Map,
        .writeFile (filepathJoin [d, "mini_map.bin".toList]) r.MiniMap,
        .writeFile (filepathJoin [d, "thumbnail.webp".toList]) r.Thumbnail]
  | manifestFails (fs7 fs8 fs9 fs10 : FS) (text : Bytes) (e : GoError)
      (h7 : mkdirAll fs d = (none, fs7))
      (h8 : writeFile fs7 (filepathJoin [d, "map.bin".toList]) r.Map = .ok fs8)
      (h9 : writeFile fs8 (filepathJoin [d, "mini_map.bin".toList]) r.MiniMap = .ok fs9)
      (h10 : writeFile fs9 (filepathJoin [d, "thumbnail.webp".toList]) r.Thumbnail = .ok fs10)
      (h11 : jsonMarshalIndent m2 [] [' ', ' '] = .ok text)
      (h12 : writeFile fs10 (filepathJoin [d, "manifest.json".toList]) text = .error e) :
    Emit name d r m2 fs
      (.err (.wrap ("failed to write manifest for ".toList ++ name ++ ": ".toList) e))
      fs10
      [.mkdirAll d, .writeFile (filepathJoin [d, "map.bin".toList]) r.Map,
        .writeFile (filepathJoin [d, "mini_map.bin".toList]) r.MiniMap,
        .writeFile (filepathJoin [d, "thumbnail.webp".toList]) r.Thumbnail,
        .marshalIndent m2 [] [' ', ' '], .writeFile (filepathJoin [d, "manifest.json".toList]) text]
  | done (fs7 fs8 fs9 fs10 fs11 : FS) (text : Bytes)
      (h7 : mkdirAll fs d = (none, fs7))
      (h8 : writeFile fs7 (filepathJoin [d, "map.bin".toList]) r.Map = .ok fs8)
      (h9 : writeFile fs8 (filepathJoin [d, "mini_map.bin".toList]) r.MiniMap = .ok fs9)
      (h10 : writeFile fs9 (filepathJoin [d, "thumbnail.webp".toList]) r.Thumbnail = .ok fs10)
      (h11 : jsonMarshalIndent m2 [] [' ', ' '] = .ok text)
      (h12 : writeFile fs10 (filepathJoin [d, "manifest.json".toList]) text = .ok fs11) :
    Emit name d r m2 fs .ok fs11
      [.mkdirAll d, .writeFile (filepathJoin [d, "map.bin".toList]) r.Map,
        .writeFile (filepathJoin [d, "mini_map.bin".toList]) r.MiniMap,
        .writeFile (filepathJoin [d, "thumbnail.webp".toList]) r.Thumbnail,
        .marshalIndent m2 [] [' ', ' '], .writeFile (filepathJoin [d, "manifest.json".toList]) text]

/-- The runs of `processMap`, exit by exit: the conditions on the file
system and the engine under which the exit is taken, the outcome, and the
world that is left. -/
inductive Run (G : Engine) (name : Str) (isTest : Bool) (w : World) : Outcome × World → Prop
  | noCwd (h0 : outputCwd w = none) :
    Run G name isTest w
      (.err (.wrap "failed to get map directory: ".toList
        (.wrap "failed to get working directory: ".toList (.lib .getwd))),
       { fs := w.fs, calls := w.calls ++ [.getwd] })
  | noInputCwd (out : Str) (h0 : outputCwd w = some out) (h0b : inputCwd w = none) :
    Run G name isTest w
      (.err (.wrap "failed to get input map directory: ".toList
        (.wrap "failed to get working directory: ".toList (.lib .getwd))),
       { fs := w.fs, calls := w.calls ++ [.getwd, .getwd] })
  | noImage (out cwd : Str) (e : GoError) (h0 : outputCwd w = some out)
      (h0b : inputCwd w = some cwd)
      (h1 : readFile w.fs (imagePath cwd name isTest) = .error e) :
    Run G name isTest w
      (.err (.wrap ("failed to read map file ".toList ++ imagePath cwd name isTest ++ ": ".toList) e),
       { fs := w.fs, calls := w.calls ++ [.getwd, .getwd, .readFile (imagePath cwd name isTest)] })
  | noInfo (out cwd : Str) (image : Bytes) (e : GoError) (h0 : outputCwd w = some out)
      (h0b : inputCwd w = some cwd)
      (h1 : readFile w.fs (imagePath cwd name isTest) = .ok image)
      (h2 : readFile w.fs (infoPath cwd name isTest) = .error e) :
    Run G name isTest w
      (.err (.wrap ("failed to read info file ".toList ++ infoPath cwd name isTest ++ ": ".toList) e),
       { fs := w.fs,
         calls := w.calls ++ [.getwd, .getwd, .readFile (imagePath cwd name isTest),
           .readFile (infoPath cwd name isTest)] })
  | badInfo (out cwd : Str) (image info : Bytes) (e : GoError) (h0 : outputCwd w = some out)
      (h0b : inputCwd w = some cwd)
      (h1 : readFile w.fs (imagePath cwd name isTest) = .ok image)
      (h2 : readFile w.fs (infoPath cwd name isTest) = .ok info)
      (h3 : jsonUnmarshal info = .error e) :
    Run G name isTest w
      (.err (.wrap ("failed to parse info.json for ".toList ++ name ++ ": ".toList) e),
       { fs := w.fs, calls := w.calls ++ loadCalls cwd name isTest info })
  | engineError (out cwd : Str) (image info : Bytes) (manifest : Option GoFields) (e : GoError)
      (h0 : outputCwd w = some out) (h0b : inputCwd w = some cwd)
      (h1 : readFile w.fs (imagePath cwd name isTest) = .ok image)
      (h2 : readFile w.fs (infoPath cwd name isTest) = .ok info)
      (h3 : jsonUnmarshal info = .ok manifest)
      (h4 : G (engineArgs image name isTest) = .error e) :
    Run G name isTest w
      (.err (.wrap ("failed to generate map for ".toList ++ name ++ ": ".toList) e),
       { fs := w.fs,
         calls := w.calls ++ (loadCalls cwd name isTest info
           ++ [.generateMap (engineArgs image name isTest)]) })
  | nilManifest (out cwd : Str) (image info : Bytes) (r : GenerationResult)
      (h0 : outputCwd w = some out) (h0b : inputCwd w = some cwd)
      (h1 : readFile w.fs (imagePath cwd name isTest) = .ok image)
      (h2 : readFile w.fs (infoPath cwd name isTest) = .ok info)
      (h3 : jsonUnmarshal info = .ok none)
      (h4 : G (engineArgs image name isTest) = .ok r) :
    Run G name isTest w
      (.panic "assignment to entry in nil map".toList,
       { fs := w.fs,
         calls := w.calls ++ (loadCalls cwd name isTest info
           ++ [.generateMap (engineArgs image name isTest)]) })
  | output (out cwd : Str) (image info : Bytes) (m : GoFields) (r : GenerationResult)
      (o : Outcome) (fs1 : FS) (cs : List Call)
      (h0 : outputCwd w = some out) (h0b : inputCwd w = some cwd)
      (h1 : readFile w.fs (imagePath cwd name isTest) = .ok image)
      (h2 : readFile w.fs (infoPath cwd name isTest) = .ok info)
      (h3 : jsonUnmarshal info = .ok (some m))
      (h4 : G (engineArgs image name isTest) = .ok r)
      (h5 : Emit name (mapDirOf out name isTest) r (mergeManifest m r) w.fs o fs1 cs) :
    Run G name isTest w
      (o,
       { fs := fs1,
         calls := w.calls ++ (loadCalls cwd name isTest info
           ++ .generateMap (engineArgs image name isTest) :: cs) })

/-! ## Notions used in the statements about paths -/

/-- A proper path element: not empty, not `.`, not `..`, without separator. -/
def Plain (f : Str) : Prop := f ≠ [] ∧ f ≠ ['.'] ∧ f ≠ ['.', '.'] ∧ '/' ∉ f

/-- The stack of `Clean` (top first): proper elements above a run of `..`,
which is empty for a rooted path. -/
def Shape (rooted : Bool) (st : List Str) : Prop :=
  ∃ k ns, st = ns ++ List.replicate k ['.', '.'] ∧ (∀ e ∈ ns, Plain e) ∧ (rooted = true → k = 0)

/-- The last element of a path: what follows its last separator. -/
def baseName (p : Str) : Str := (p.reverse.takeWhile (· ≠ '/')).reverse

/-! ## Observations on a run -/

/-- The calls made between the world `w` and the later world `w1`. -/
def callsSince (w w1 : World) : List Call := w1.calls.drop w.calls.length

/-- The arguments of the engine calls among `cs`, in order. -/
def engineCalls : List Call → List GeneratorArgs
  | [] => []
  | .generateMap args :: cs => args :: engineCalls cs
  | _ :: cs => engineCalls cs

/-- The paths read by `os.ReadFile` among `cs`, in order. -/
def readPaths : List Call → List Str
  | [] => []
  | .readFile p :: cs => p :: readPaths cs
  | _ :: cs => readPaths cs

/-- The paths written by `os.WriteFile` among `cs`, in order. -/
def writePaths : List Call → List Str
  | [] => []
  | .writeFile p _ :: cs => p :: writePaths cs
  | _ :: cs => writePaths cs

/-- The paths given to `os.MkdirAll` among `cs`, in order. -/
def mkdirPaths : List Call → List Str
  | [] => []
  | .mkdirAll p :: cs => p :: mkdirPaths cs
  | _ :: cs => mkdirPaths cs

/-- The manifests given to `json.MarshalIndent` among `cs`, in order. -/
def serialized : List Call → List GoFields
  | [] => []
  | .marshalIndent m _ _ :: cs => m :: serialized cs
  | _ :: cs => serialized cs

/-- The names of the four files of an output bundle. -/
def outputNames : List Str :=
  ["map.bin".toList, "mini_map.bin".toList, "thumbnail.webp".toList, "manifest.json".toList]

/-- The world after `processMap` has been called for each entry of the
list in turn. -/
def worldAfter (G : Engine) : List MapItem → World → World
  | [], w => w
  | item :: rest, w => worldAfter G rest (processMap G item.Name item.IsTest w).2

/-- The outcome of `processMap` for the entry at index `i` of the catalog,
called in the world that the entries before it leave. -/
def outcomeAt (G : Engine) (catalog : List MapItem) (w : World) (i : Nat) : Option Outcome :=
  (catalog.get? i).map fun item =>
    (processMap G item.Name item.IsTest (worldAfter G (catalog.take i) w)).1

/-- Whether each string is below the next one in byte-wise order. -/
def ascending : List Str → Bool
  | [] => true
  | [_] => true
  | a :: b :: rest => strLt a b && ascending (b :: rest)

mutual
/-- Whether every map inside the value lists its keys in ascending order. -/
def sortedVal : GoVal → Bool
  | .arr xs => sortedVals xs
  | .obj m => ascending m.keys && sortedFields m
  | _ => true
/-- Element-wise `sortedVal`. -/
def sortedVals : GoVals → Bool
  | .nil => true
  | .cons v vs => sortedVal v && sortedVals vs
/-- Entry-wise `sortedVal`. -/
def sortedFields : GoFields → Bool
  | .nil => true
  | .cons _ v m => sortedVal v && sortedFields m
end

/-- The content of the file that `p` stands for, links followed (empty when
`p` does not stand for a file). -/
def fileAt (fs : FS) (p : Str) : Bytes :=
  match stat fs p with
  | some (.file content _) => content
  | _ => []

/-- The path `p` is not a link, and no link leads to `p`. -/
def NoLinkTo (fs : FS) (p : Str) : Prop :=
  (∀ t, fs.node p ≠ some (.link t)) ∧ ∀ q t, fs.node q = some (.link t) → resolve fs q ≠ some p

/-- The path `p` and the directories above it, up to the root; `fuel` bounds
the way up. -/
def pathsToAux : Nat → Str → List Str
  | 0, p => [p]
  | fuel + 1, p => p :: (if parentDir p = [] then [] else pathsToAux fuel (parentDir p))

/-- The path `p` and the directories above it. -/
def pathsTo (p : Str) : List Str := pathsToAux p.length p

/-- No link gives the path `p` a second name: neither `p` nor a directory
above it is a link, and no link leads to `p` or to a directory above it. -/
def Unaliased (fs : FS) (p : Str) : Prop :=
  ∀ r ∈ pathsTo p, NoLinkTo fs r

/-- The keys other than `map` and `mini_map` of the JSON object that `data`
holds, in the order in which the text lists them. -/
def passthroughKeys (data : Bytes) : List Str :=
  (objectKeys data).filter fun k => k ≠ "map".toList ∧ k ≠ "mini_map".toList

/-- The library functions and the engine, as the kinds of call. -/
inductive Stage where
  | getwd
  | readFile
  | unmarshal
  | generateMap
  | mkdirAll
  | writeFile
  | marshalIndent
  deriving DecidableEq, Repr

/-- The kind of a call. -/
def Call.stage : Call → Stage
  | .getwd => .getwd
  | .readFile _ => .readFile
  | .unmarshal _ => .unmarshal
  | .generateMap _ => .generateMap
  | .mkdirAll _ => .mkdirAll
  | .writeFile _ _ => .writeFile
  | .marshalIndent _ _ _ => .marshalIndent

/-- The kind of the last call among `cs`: in a run that returns an error,
the call that failed. -/
def lastStage (cs : List Call) : Option Stage := cs.getLast?.map Call.stage

/-- The leading words of the text that `processMap` puts in front of an
error, by the number of calls made when it returns. -/
def stageWords : List (Nat × Str) :=
  [ (1, "failed to get map".toList), (2, "failed to get inp".toList),
    (3, "failed to read ma".toList),
    (4, "failed to read in".toList), (5, "failed to parse i".toList),
    (6, "failed to generat".toList), (7, "failed to create ".toList),
    (8, "failed to write c".toList), (9, "failed to write c".toList),
    (10, "failed to write t".toList), (12, "failed to write m".toList) ]

/-! ## Concrete worlds, for evaluating the program -/

/-- Read and write permission, as on a file of mode `0644`. -/
def permFile : Perm := { read := true, write := true, exec := false }

/-- Full permission, as on a directory of mode `0755`. -/
def permDir : Perm := { read := true, write := true, exec := true }

/-- A file system with the listed entries, in which `os.Getwd` always answers
`cwd` and the umask clears none of the owner's bits. -/
def fsOf (cwd : Option Str) (entries : List (Str × Node)) : FS :=
  { cwdAt := fun _ => cwd
    node := fun p => (entries.find? fun e => e.1 = p).map fun e => e.2
    umask := { read := false, write := false, exec := false } }

/-- An engine for the evaluations: it rejects the empty image and otherwise
answers with artifacts and geometry computed from its arguments alone. -/
def sampleEngine : Engine := fun args =>
  if args.ImageBuffer = [] then .error (.base "image: unknown format".toList)
  else
    .ok { Map := 'M' :: args.ImageBuffer
          MiniMap := 'm' :: args.Name
          Thumbnail := if args.RemoveSmall then "T1".toList else "T0".toList
          MapWidth := 4
          MapHeight := 2
          MapNumLandTiles := 5
          MiniMapWidth := 2
          MiniMapHeight := 1
          MiniMapNumLandTiles := 1 }

/-- The entries of a checkout in `/w`: the generator's directory with the
assets of the production map `annecy` and of the test map `plains`. -/
def sampleEntries (annecyInfo : Bytes) : List (Str × Node) :=
  [ ("/".toList, .dir permDir), ("/w".toList, .dir permDir),
    ("/w/map-generator".toList, .dir permDir),
    ("/w/map-generator/assets".toList, .dir permDir),
    ("/w/map-generator/assets/maps".toList, .dir permDir),
    ("/w/map-generator/assets/maps/annecy".toList, .dir permDir),
    ("/w/map-generator/assets/maps/annecy/image.png".toList, .file "PNG-annecy".toList permFile),
    ("/w/map-generator/assets/maps/annecy/info.json".toList, .file annecyInfo permFile),
    ("/w/map-generator/assets/test_maps".toList, .dir permDir),
    ("/w/map-generator/assets/test_maps/plains".toList, .dir permDir),
    ("/w/map-generator/assets/test_maps/plains/image.png".toList,
      .file "PNG-plains".toList permFile),
    ("/w/map-generator/assets/test_maps/plains/info.json".toList,
      .file "\x7b\"name\": \"Plains\"\x7d".toList permFile) ]

/-- The manifest of `annecy` in `sampleWorld`: the key `b` before the key
`a`, and a number written with a fraction. -/
def sampleInfo : Bytes :=
  "\x7b\"b\": 1.50, \"a\": \x7b\"z\": true, \"y\": null\x7d\x7d".toList

/-- A world in which the generator runs in `/w/map-generator`. -/
def sampleWorld : World :=
  { fs := fsOf (some "/w/map-generator".toList) (sampleEntries sampleInfo)
    calls := [] }

/-- The same checkout with `null` as the manifest of `annecy`. -/
def nullInfoWorld : World :=
  { fs := fsOf (some "/w/map-generator".toList) (sampleEntries "null".toList)
    calls := [] }

/-- The same checkout seen by a process whose working directory cannot be
determined. -/
def noCwdWorld : World :=
  { fs := fsOf none (sampleEntries "\x7b\x7d".toList)
    calls := [] }

/-- The same checkout seen by a process whose working directory is removed
after the first call of `os.Getwd`. -/
def lostCwdWorld : World :=
  { fs := { fsOf none (sampleEntries "\x7b\x7d".toList) with
      cwdAt := fun n => if n = 0 then some "/w/map-generator".toList else none }
    calls := [] }

/-- The output directory of `annecy`, present before the run. -/
def annecyOutputDirs : List (Str × Node) :=
  [ ("/w/resources".toList, .dir permDir), ("/w/resources/maps".toList, .dir permDir),
    ("/w/resources/maps/annecy".toList, .dir permDir) ]

/-- The checkout with the output directory of `annecy` in place and
`map.bin` in it a link to the image of `annecy`. -/
def linkWorld : World :=
  { fs := fsOf (some "/w/map-generator".toList)
      (("/w/resources/maps/annecy/map.bin".toList,
          Node.link "/w/map-generator/assets/maps/annecy/image.png".toList)
        :: (annecyOutputDirs ++ sampleEntries sampleInfo))
    calls := [] }

/-- The checkout with the output directory of `annecy` in place, seen by a
process whose umask clears the owner's write bit. -/
def readOnlyUmaskWorld : World :=
  { fs := { fsOf (some "/w/map-generator".toList)
        (annecyOutputDirs ++ sampleEntries sampleInfo) with
      umask := { read := false, write := true, exec := false } }
    calls := [] }

/-- The checkout with the output directory of `annecy` in place and a
directory where `map.bin` is to be written. -/
def mapBinDirWorld : World :=
  { fs := fsOf (some "/w/map-generator".toList)
      (("/w/resources/maps/annecy/map.bin".toList, Node.dir permDir)
        :: (annecyOutputDirs ++ sampleEntries sampleInfo))
    calls := [] }

/-- The checkout with the output directory of `annecy` in place and a
directory where `mini_map.bin` is to be written. -/
def miniMapDirWorld : World :=
  { fs := fsOf (some "/w/map-generator".toList)
      (("/w/resources/maps/annecy/mini_map.bin".toList, Node.dir permDir)
        :: (annecyOutputDirs ++ sampleEntries sampleInfo))
    calls := [] }

/-- The error with which `processMap` returns for `paris`, which has no
assets in `sampleWorld`. -/
def parisError : GoError :=
  .wrap "failed to read map file /w/map-generator/assets/maps/paris/image.png: ".toList
    (.lib (.notExist "/w/map-generator/assets/maps/paris/image.png".toList))

/-- The error with which `processMap` returns when the working directory
cannot be determined. -/
def noCwdError : GoError :=
  .wrap "failed to get map directory: ".toList
    (.wrap "failed to get working directory: ".toList (.lib .getwd))

/-- The error with which `processMap` returns when the working directory is
lost after `outputMapDir` has read it. -/
def lostCwdError : GoError :=
  .wrap "failed to get input map directory: ".toList
    (.wrap "failed to get working directory: ".toList (.lib .getwd))

/-! ## Notions used in reading back the encoder's text -/

/-- A non-empty string of decimal digits. -/
def Digits (s : Str) : Prop := s ≠ [] ∧ ∀ c ∈ s, c.isDigit = true

/-- What does not start with a digit. -/
def NoDigitAhead (x : Str) : Prop := ∀ c r, x = c :: r → c.isDigit = false

/-- What the encoder puts behind a value: nothing, a comma, or a line break. -/
def Delim (rest : Str) : Prop := ∀ c r, rest = c :: r → c = ',' ∨ c = '\n'

/-- A character that is neither a quote, nor a bracket, nor a line break, nor
a comma, nor a space. -/
def isPlainChar (c : Char) : Bool :=
  c != '"' && c != '{' && c != '[' && c != '}' && c != ']' && c != '\n' && c != ','
    && c != ' '

/-- A number as the encoder writes it: it starts with a digit or a minus sign,
the parser reads it as one number literal, up to what follows, and it has
neither quote nor bracket nor white space in it. -/
def NumTok (t : Str) : Prop :=
  (∃ c r, t = c :: r ∧ (c = '-' ∨ c.isDigit = true))
    ∧ (∀ rest, Delim rest → parseNumber (t ++ rest) = some (t, rest))
    ∧ ∀ c ∈ t, isPlainChar c = true

mutual
/-- Whether every number inside the value is written as the parser reads it. -/
def WellFormed : GoVal → Prop
  | .num t => NumTok t
  | .arr xs => WellFormedVals xs
  | .obj m => WellFormedFields m
  | _ => True
/-- Element-wise `WellFormed`. -/
def WellFormedVals : GoVals → Prop
  | .nil => True
  | .cons v vs => WellFormed v ∧ WellFormedVals vs
/-- Entry-wise `WellFormed`. -/
def WellFormedFields : GoFields → Prop
  | .nil => True
  | .cons _ v m => WellFormed v ∧ WellFormedFields m
end

mutual
/-- The JSON tree that the text of a Go value has: an `int` is a number,
written in decimal. -/
def asTree : GoVal → GoVal
  | .int n => .num (intText n)
  | .arr xs => .arr (asTrees xs)
  | .obj m => .obj (asTreeFields m)
  | v => v
/-- Element-wise `asTree`. -/
def asTrees : GoVals → GoVals
  | .nil => .nil
  | .cons v vs => .cons (asTree v) (asTrees vs)
/-- Entry-wise `asTree`. -/
def asTreeFields : GoFields → GoFields
  | .nil => .nil
  | .cons k v m => .cons k (asTree v) (asTreeFields m)
end

mutual
/-- The depth of recursion that parsing the text of the value takes. -/
def needVal : GoVal → Nat
  | .arr xs => needVals xs + 1
  | .obj m => needFields m + 1
  | _ => 1
/-- The depth of recursion that parsing the elements takes. -/
def needVals : GoVals → Nat
  | .nil => 0
  | .cons v vs => max (needVal v) (needVals vs) + 1
/-- The depth of recursion that parsing the entries takes. -/
def needFields : GoFields → Nat
  | .nil => 0
  | .cons _ v m => max (needVal v) (needFields m) + 1
end

/-- Where the scan of a JSON text is: outside a string, inside a string, or
behind a backslash inside a string. -/
inductive ScanMode where
  | outside
  | inString
  | escaped

/-- Whether the line that starts with `r` is indented as a line at nesting
depth `depth` has to be: `width` spaces per level, one level less when the
line starts with a closing bracket. -/
def lineStart (width depth : Nat) (r : Str) : Bool :=
  match r.dropWhile (· = ' ') with
  | c :: _ =>
    if c = '}' ∨ c = ']' then (r.takeWhile (· = ' ')).length = width * (depth - 1)
    else (r.takeWhile (· = ' ')).length = width * depth
  | [] => false

/-- Whether the text goes on with a line break. -/
def atLineBreak (r : Str) : Bool :=
  match r with
  | '\n' :: _ => true
  | _ => false

/-- Whether the text behind an opening bracket goes on with a line break or
with a closing bracket. -/
def afterOpen (r : Str) : Bool :=
  match r with
  | '\n' :: _ => true
  | '}' :: _ => true
  | ']' :: _ => true
  | _ => false

/-- Whether a JSON text is laid out in lines as `json.Indent` lays it out,
scanning from the given mode and nesting depth: outside the strings, a line
break follows every comma and every opening bracket that is not closed at
once, and every line break is followed by `width` spaces for each array and
object open at that point (one level less in front of a closing bracket). -/
def indentedBy (width : Nat) : ScanMode → Nat → Str → Bool
  | _, _, [] => true
  | .escaped, depth, _ :: r => indentedBy width .inString depth r
  | .inString, depth, c :: r =>
    if c = '\\' then indentedBy width .escaped depth r
    else if c = '"' then indentedBy width .outside depth r
    else indentedBy width .inString depth r
  | .outside, depth, c :: r =>
    if c = '"' then indentedBy width .inString depth r
    else if c = '{' ∨ c = '[' then afterOpen r && indentedBy width .outside (depth + 1) r
    else if c = '}' ∨ c = ']' then indentedBy width .outside (depth - 1) r
    else if c = '\n' then lineStart width depth r && indentedBy width .outside depth r
    else if c = ',' then atLineBreak r && indentedBy width .outside depth r
    else indentedBy width .outside depth r

/-! # Lemmas -/

/-! ## Path lemmas -/

theorem splitOn_append_sep (x y : Str) :
    (x ++ '/' :: y).splitOn '/' = x.splitOn '/' ++ y.splitOn '/' := by
  induction x with
  | nil => simp [List.splitOn, List.splitOnP_cons]
  | cons a x ih =>
    simp only [List.splitOn] at ih ⊢
    rw [List.cons_append, List.splitOnP_cons, List.splitOnP_cons, ih]
    by_cases h : (a == '/') = true
    · simp [h]
    · simp only [h]
      cases hx : List.splitOnP (fun c => c == '/') x with
      | nil => exact absurd hx (List.splitOnP_ne_nil _ _)
      | cons s ss => simp [List.modifyHead]

theorem splitOn_plain (f : Str) (h : '/' ∉ f) : f.splitOn '/' = [f] := by
  apply List.splitOnP_eq_single
  intro c hc hcs
  have : c = '/' := by simpa using hcs
  exact h (this ▸ hc)

theorem intercalate_nil' (s : Str) : s.intercalate ([] : List Str) = [] := by
  simp [List.intercalate]

theorem intercalate_single (s a : Str) : s.intercalate [a] = a := by
  simp [List.intercalate]

theorem intercalate_cons_cons (s a b : Str) (t : List Str) :
    s.intercalate (a :: b :: t) = a ++ s ++ s.intercalate (b :: t) := by
  simp [List.intercalate]

theorem intercalate_snoc (s f : Str) (es : List Str) (h : es ≠ []) :
    s.intercalate (es ++ [f]) = s.intercalate es ++ s ++ f := by
  induction es with
  | nil => exact absurd rfl h
  | cons a t ih =>
    cases t with
    | nil => simp [intercalate_cons_cons, intercalate_single]
    | cons b t =>
      have := ih (by simp)
      simp only [List.cons_append] at this ⊢
      rw [intercalate_cons_cons, this, intercalate_cons_cons]
      simp [List.append_assoc]

theorem splitOn_no_sep (x : Str) : ∀ e ∈ x.splitOn '/', '/' ∉ e := by
  induction x with
  | nil => simp
  | cons a x ih =>
    simp only [List.splitOn] at ih ⊢
    rw [List.splitOnP_cons]
    by_cases h : (a == '/') = true
    · simp only [h, if_true]
      intro e he
      rcases List.mem_cons.mp he with rfl | he
      · simp
      · exact ih e he
    · simp only [h]
      cases hx : List.splitOnP (fun c => c == '/') x with
      | nil => exact absurd hx (List.splitOnP_ne_nil _ _)
      | cons s ss =>
        rw [hx] at ih
        intro e he
        simp only [List.modifyHead, Bool.false_eq_true, if_false, List.mem_cons] at he
        rcases he with rfl | he
        · intro hmem
          rcases List.mem_cons.mp hmem with h1 | h1
          · exact h (by simp [← h1])
          · exact ih s (by simp) h1
        · exact ih e (by simp [he])

theorem shape_nil (r : Bool) : Shape r [] := ⟨0, [], by simp, by simp, by simp⟩

theorem cleanStep_plain (r : Bool) (st : List Str) (f : Str) (hf : Plain f) :
    cleanStep r st f = f :: st := by
  obtain ⟨h1, h2, h3, _⟩ := hf
  simp [cleanStep, h1, h2, h3]

theorem cleanStep_shape (r : Bool) (st : List Str) (c : Str) (hc : '/' ∉ c) (h : Shape r st) :
    Shape r (cleanStep r st c) := by
  obtain ⟨k, ns, rfl, hns, hk⟩ := h
  unfold cleanStep
  split
  · exact ⟨k, ns, rfl, hns, hk⟩
  · rename_i h1
    split
    · rename_i h2
      subst h2
      cases ns with
      | nil =>
        cases k with
        | zero =>
          cases r
          · exact ⟨1, [], by simp, by simp, by simp⟩
          · exact ⟨0, [], by simp, by simp, by simp⟩
        | succ k =>
          have hr : r = false := by
            cases r
            · rfl
            · exact absurd (hk rfl) (by simp)
          subst hr
          refine ⟨k + 2, [], ?_, by simp, by simp⟩
          simp [List.replicate_succ]
      | cons n ns =>
        have hn : n ≠ ['.', '.'] := (hns n (by simp)).2.2.1
        simp only [List.cons_append, hn, if_false]
        exact ⟨k, ns, rfl, fun e he => hns e (by simp [he]), hk⟩
    · rename_i h2
      refine ⟨k, c :: ns, by simp, ?_, hk⟩
      intro e he
      rcases List.mem_cons.mp he with rfl | he
      · exact ⟨fun h => h1 (Or.inl h), fun h => h1 (Or.inr h), h2, hc⟩
      · exact hns e he

theorem foldl_cleanStep_shape (r : Bool) (cs : List Str) (st : List Str)
    (hcs : ∀ c ∈ cs, '/' ∉ c) (h : Shape r st) : Shape r (cs.foldl (cleanStep r) st) := by
  induction cs generalizing st with
  | nil => exact h
  | cons c cs ih =>
    exact ih _ (fun c' hc' => hcs c' (by simp [hc'])) (cleanStep_shape r st c (hcs c (by simp)) h)

theorem foldl_cleanStep_plain (r : Bool) (ms st : List Str) (h : ∀ e ∈ ms, Plain e) :
    ms.foldl (cleanStep r) st = ms.reverse ++ st := by
  induction ms generalizing st with
  | nil => simp
  | cons m ms ih =>
    rw [List.foldl_cons, cleanStep_plain r st m (h m (by simp)), ih _ (fun e he => h e (by simp [he]))]
    simp

theorem foldl_cleanStep_dotdot (k j : Nat) :
    (List.replicate k ['.', '.']).foldl (cleanStep false) (List.replicate j ['.', '.'])
      = List.replicate (k + j) ['.', '.'] := by
  induction k generalizing j with
  | zero => simp
  | succ k ih =>
    rw [List.replicate_succ, List.foldl_cons]
    have : cleanStep false (List.replicate j ['.', '.']) ['.', '.']
        = List.replicate (j + 1) ['.', '.'] := by
      cases j with
      | zero => simp [cleanStep]
      | succ j => simp [cleanStep, List.replicate_succ]
    rw [this, ih]
    congr 1
    omega

theorem foldl_cleanStep_replay (r : Bool) (st : List Str) (h : Shape r st) :
    st.reverse.foldl (cleanStep r) [] = st := by
  obtain ⟨k, ns, rfl, hns, hk⟩ := h
  rw [List.reverse_append, List.reverse_replicate, List.foldl_append]
  have h1 : (List.replicate k ['.', '.']).foldl (cleanStep r) [] = List.replicate k ['.', '.'] := by
    cases r
    · simpa using foldl_cleanStep_dotdot k 0
    · rw [hk rfl]; simp
  rw [h1, foldl_cleanStep_plain r ns.reverse _ (fun e he => hns e (by simpa using he))]
  simp

theorem cleanElems_shape (p : Str) : Shape (isRooted p) (cleanElems p).reverse := by
  unfold cleanElems
  rw [List.reverse_reverse]
  exact foldl_cleanStep_shape _ _ _ (splitOn_no_sep p) (shape_nil _)

/-- What `Shape` says about the elements in path order. -/
theorem shape_elems (r : Bool) (es : List Str) (h : Shape r es.reverse) :
    ∀ e ∈ es, e ≠ [] ∧ e ≠ ['.'] ∧ '/' ∉ e := by
  obtain ⟨k, ns, hst, hns, _⟩ := h
  intro e he
  have he2 : e ∈ ns ++ List.replicate k ['.', '.'] := by
    rw [← hst]; simpa using he
  rcases List.mem_append.mp he2 with h1 | h1
  · exact ⟨(hns e h1).1, (hns e h1).2.1, (hns e h1).2.2.2⟩
  · have : e = ['.', '.'] := (List.mem_replicate.mp h1).2
    subst this
    refine ⟨by simp, by simp, by simp⟩

theorem intercalate_eq_nil (es : List Str) (h : ∀ e ∈ es, e ≠ [])
    (hb : ['/'].intercalate es = []) : es = [] := by
  cases es with
  | nil => rfl
  | cons a t =>
    cases t with
    | nil =>
      rw [intercalate_single] at hb
      exact absurd hb (h a (by simp))
    | cons b t =>
      rw [intercalate_cons_cons] at hb
      simp at hb

theorem intercalate_head (es : List Str) (h : ∀ e ∈ es, e ≠ [] ∧ '/' ∉ e) :
    (['/'].intercalate es).head? ≠ some '/' := by
  cases es with
  | nil => simp [intercalate_nil']
  | cons a t =>
    have ha := h a (by simp)
    have : (['/'].intercalate (a :: t)).head? = a.head? := by
      cases t with
      | nil => rw [intercalate_single]
      | cons b t =>
        rw [intercalate_cons_cons]
        cases a with
        | nil => exact absurd rfl ha.1
        | cons c a => simp
    rw [this]
    cases a with
    | nil => exact absurd rfl ha.1
    | cons c a =>
      simp only [List.head?_cons, ne_eq, Option.some.injEq]
      intro hc
      exact ha.2 (by simp [hc])

theorem renderPath_ne_nil (r : Bool) (es : List Str) : renderPath r es ≠ [] := by
  unfold renderPath
  cases r <;> simp
  split <;> simp [*]

theorem filepathClean_ne_nil (p : Str) : filepathClean p ≠ [] := by
  unfold filepathClean
  split
  · simp
  · exact renderPath_ne_nil _ _

theorem isRooted_renderPath (r : Bool) (es : List Str) (h : Shape r es.reverse) :
    isRooted (renderPath r es) = r := by
  have hel := shape_elems r es h
  cases r with
  | true => simp [renderPath, isRooted]
  | false =>
    simp only [renderPath, Bool.false_eq_true, if_false]
    split
    · simp [isRooted]
    · have := intercalate_head es (fun e he => ⟨(hel e he).1, (hel e he).2.2⟩)
      simpa [isRooted] using this

theorem cleanElems_renderPath (r : Bool) (es : List Str) (h : Shape r es.reverse) :
    cleanElems (renderPath r es) = es := by
  have hel := shape_elems r es h
  have hroot := isRooted_renderPath r es h
  unfold cleanElems
  rw [hroot]
  have hreplay : (es.foldl (cleanStep r) []).reverse = es := by
    have := foldl_cleanStep_replay r es.reverse h
    rw [List.reverse_reverse] at this
    rw [this, List.reverse_reverse]
  have hsplit : es ≠ [] → (['/'].intercalate es).splitOn '/' = es := fun hne =>
    List.splitOn_intercalate es '/' (fun l hl => (hel l hl).2.2) hne
  cases r with
  | true =>
    simp only [renderPath, if_true]
    have : ('/' :: ['/'].intercalate es).splitOn '/' = [] :: (['/'].intercalate es).splitOn '/' := by
      have := splitOn_append_sep [] (['/'].intercalate es)
      simpa using this
    rw [this, List.foldl_cons]
    have hs : cleanStep true [] [] = [] := by simp [cleanStep]
    rw [hs]
    by_cases hne : es = []
    · subst hne
      simp [intercalate_nil', cleanStep]
    · rw [hsplit hne]; exact hreplay
  | false =>
    simp only [renderPath, Bool.false_eq_true, if_false]
    split
    · rename_i hb
      have := intercalate_eq_nil es (fun e he => (hel e he).1) hb
      subst this
      decide
    · rename_i hb
      have hne : es ≠ [] := by
        intro h0; subst h0; exact hb (intercalate_nil' _)
      rw [hsplit hne]; exact hreplay

theorem filepathClean_eq (p : Str) (hp : p ≠ []) :
    filepathClean p = renderPath (isRooted p) (cleanElems p) := by
  simp [filepathClean, hp]

/-- Cleaning a clean path changes nothing. -/
theorem filepathClean_idem (p : Str) : filepathClean (filepathClean p) = filepathClean p := by
  by_cases hp : p = []
  · subst hp; decide
  · have hs := cleanElems_shape p
    rw [filepathClean_eq p hp, filepathClean_eq _ (renderPath_ne_nil _ _),
      isRooted_renderPath _ _ hs, cleanElems_renderPath _ _ hs]

theorem isRooted_append (z y : Str) (hz : z ≠ []) : isRooted (z ++ y) = isRooted z := by
  cases z with
  | nil => exact absurd rfl hz
  | cons c z => simp [isRooted]

theorem cleanElems_append_plain (z f : Str) (hz : z ≠ []) (hf : Plain f) :
    cleanElems (z ++ '/' :: f) = cleanElems z ++ [f] := by
  unfold cleanElems
  rw [isRooted_append z _ hz, splitOn_append_sep, splitOn_plain f hf.2.2.2, List.foldl_append]
  simp [cleanStep_plain _ _ f hf]

theorem renderPath_snoc (r : Bool) (es : List Str) (f : Str) (h : Shape r es.reverse)
    (hf : Plain f) : renderPath r (es ++ [f]) = childPath (renderPath r es) f := by
  have hel := shape_elems r es h
  by_cases hne : es = []
  · subst hne
    cases r <;> simp [renderPath, childPath, intercalate_nil', intercalate_single, hf.1]
  · have hb : ['/'].intercalate es ≠ [] := fun hb =>
      hne (intercalate_eq_nil es (fun e he => (hel e he).1) hb)
    have hhead := intercalate_head es (fun e he => ⟨(hel e he).1, (hel e he).2.2⟩)
    have hsn : ['/'].intercalate (es ++ [f]) ≠ [] := by
      rw [intercalate_snoc _ _ _ hne]; simp
    cases r with
    | true =>
      simp only [renderPath, if_true, intercalate_snoc _ _ _ hne, childPath]
      have h1 : ('/' :: ['/'].intercalate es) ≠ ['/'] := by simpa using hb
      have h2 : ('/' :: ['/'].intercalate es) ≠ ['.'] := by simp
      simp [h1, h2]
    | false =>
      simp only [renderPath, Bool.false_eq_true, if_false, hb, hsn, childPath]
      have h1 : ['/'].intercalate es ≠ ['/'] := by
        intro h0; rw [h0] at hhead; simp at hhead
      have h2 : ['/'].intercalate es ≠ ['.'] := by
        intro h0
        cases es with
        | nil => exact hne rfl
        | cons a t =>
          cases t with
          | nil =>
            rw [intercalate_single] at h0
            exact (hel a (by simp)).2.1 h0
          | cons b t =>
            rw [intercalate_cons_cons] at h0
            have hl := congrArg List.length h0
            have ha : a ≠ [] := (hel a (by simp)).1
            have : 0 < a.length := List.length_pos.mpr ha
            simp at hl
            omega
      simp [h1, h2, intercalate_snoc _ _ _ hne]

/-- Appending a proper element to a path: the result of cleaning is the clean
path followed by that element. -/
theorem filepathClean_append_plain (z f : Str) (hz : z ≠ []) (hf : Plain f) :
    filepathClean (z ++ '/' :: f) = childPath (filepathClean z) f := by
  rw [filepathClean_eq _ (by simp), filepathClean_eq z hz, isRooted_append z _ hz,
    cleanElems_append_plain z f hz hf, renderPath_snoc _ _ _ (cleanElems_shape z) hf]

theorem filepathJoin_pair (a b : Str) (ha : a ≠ []) :
    filepathJoin [a, b] = filepathClean (a ++ '/' :: b) := by
  simp [filepathJoin, ha, intercalate_cons_cons, intercalate_single]

theorem filepathJoin_triple (a b c : Str) (ha : a ≠ []) :
    filepathJoin [a, b, c] = filepathClean (a ++ '/' :: (b ++ '/' :: c)) := by
  simp [filepathJoin, ha, intercalate_cons_cons, intercalate_single]

theorem filepathJoin_ne_nil (a : Str) (es : List Str) (ha : a ≠ []) :
    filepathJoin (a :: es) ≠ [] := by
  simp only [filepathJoin, ha, if_false]
  exact filepathClean_ne_nil _

/-- Joining a clean directory path with a proper element. -/
theorem filepathJoin_clean_plain (y f : Str) (hf : Plain f) :
    filepathJoin [filepathClean y, f] = childPath (filepathClean y) f := by
  rw [filepathJoin_pair _ _ (filepathClean_ne_nil y),
    filepathClean_append_plain _ _ (filepathClean_ne_nil y) hf, filepathClean_idem]

/-- A file joined below `a/b` is the child of the directory `Join a b`. -/
theorem filepathJoin_triple_plain (a b f : Str) (ha : a ≠ []) (hf : Plain f) :
    filepathJoin [a, b, f] = childPath (filepathJoin [a, b]) f := by
  rw [filepathJoin_triple a b f ha, filepathJoin_pair a b ha]
  have : a ++ '/' :: (b ++ '/' :: f) = (a ++ '/' :: b) ++ '/' :: f := by simp
  rw [this, filepathClean_append_plain _ _ (by simp) hf]

theorem takeWhile_append_sep (f rest : Str) (hf : '/' ∉ f) :
    (f ++ '/' :: rest).takeWhile (· ≠ '/') = f := by
  induction f with
  | nil => simp
  | cons c f ih =>
    have hc : c ≠ '/' := fun h => hf (by simp [h])
    have hf2 : '/' ∉ f := fun h => hf (by simp [h])
    have h1 := ih hf2
    rw [List.cons_append, List.takeWhile_cons]
    have h2 : decide (c ≠ '/') = true := by simpa using hc
    rw [h2, if_pos rfl, h1]

theorem takeWhile_no_sep (f : Str) (hf : '/' ∉ f) : f.takeWhile (· ≠ '/') = f := by
  induction f with
  | nil => simp
  | cons c f ih =>
    have hc : c ≠ '/' := fun h => hf (by simp [h])
    have hf2 : '/' ∉ f := fun h => hf (by simp [h])
    have h1 := ih hf2
    rw [List.takeWhile_cons]
    have h2 : decide (c ≠ '/') = true := by simpa using hc
    rw [h2, if_pos rfl, h1]

theorem baseName_childPath (d f : Str) (hf : '/' ∉ f) : baseName (childPath d f) = f := by
  have hr : '/' ∉ f.reverse := by simpa using hf
  unfold childPath baseName
  split
  · have : ('/' :: f).reverse = f.reverse ++ '/' :: [] := by simp
    rw [this, takeWhile_append_sep _ _ hr, List.reverse_reverse]
  · split
    · rw [takeWhile_no_sep _ hr, List.reverse_reverse]
    · have : (d ++ '/' :: f).reverse = f.reverse ++ '/' :: d.reverse := by simp
      rw [this, takeWhile_append_sep _ _ hr, List.reverse_reverse]

/-- Children with different names are different paths, whatever their
directories. -/
theorem childPath_ne (d d2 f g : Str) (hf : '/' ∉ f) (hg : '/' ∉ g) (hfg : f ≠ g) :
    childPath d f ≠ childPath d2 g := by
  intro h
  have := congrArg baseName h
  rw [baseName_childPath d f hf, baseName_childPath d2 g hg] at this
  exact hfg this

theorem dropWhile_ne_sep (g rest : Str) (hg : '/' ∉ g) :
    (g ++ '/' :: rest).dropWhile (· ≠ '/') = '/' :: rest := by
  induction g with
  | nil => simp
  | cons c g ih =>
    have hc : c ≠ '/' := fun h => hg (by simp [h])
    have hg2 : '/' ∉ g := fun h => hg (by simp [h])
    have h1 := ih hg2
    rw [List.cons_append, List.dropWhile_cons]
    have h2 : decide (c ≠ '/') = true := by simpa using hc
    rw [h2, if_pos rfl, h1]

theorem dropWhile_ne_sep_all (g : Str) (hg : '/' ∉ g) : g.dropWhile (· ≠ '/') = [] := by
  induction g with
  | nil => simp
  | cons c g ih =>
    have hc : c ≠ '/' := fun h => hg (by simp [h])
    have hg2 : '/' ∉ g := fun h => hg (by simp [h])
    have h1 := ih hg2
    rw [List.dropWhile_cons]
    have h2 : decide (c ≠ '/') = true := by simpa using hc
    rw [h2, if_pos rfl, h1]

theorem dropWhile_sep_head (g : Str) (hg : g.head? ≠ some '/') :
    g.dropWhile (· = '/') = g := by
  cases g with
  | nil => simp
  | cons c g =>
    have hc : c ≠ '/' := by simpa using hg
    rw [List.dropWhile_cons]
    have h2 : decide (c = '/') = false := by simpa using hc
    rw [h2]
    simp

theorem plain_reverse_head (f : Str) (hf : '/' ∉ f) : f.reverse.head? ≠ some '/' := by
  intro h
  have : '/' ∈ f.reverse := List.mem_of_mem_head? h
  exact hf (by simpa using this)

theorem parentDir_plain (f : Str) (hf : '/' ∉ f) : parentDir f = [] := by
  have hr : '/' ∉ f.reverse := by simpa using hf
  unfold parentDir
  rw [dropWhile_sep_head _ (plain_reverse_head f hf), dropWhile_ne_sep_all _ hr]
  simp

theorem parentDir_root_child (f : Str) (hf : Plain f) : parentDir ('/' :: f) = ['/'] := by
  have hr : '/' ∉ f.reverse := by simpa using hf.2.2.2
  have hne : f.reverse ≠ [] := by simpa using hf.1
  unfold parentDir
  have h1 : ('/' :: f).reverse = f.reverse ++ '/' :: [] := by simp
  have hh : (f.reverse ++ '/' :: []).head? ≠ some '/' := by
    cases hfr : f.reverse with
    | nil => exact absurd hfr hne
    | cons c t =>
      have := plain_reverse_head f hf.2.2.2
      rw [hfr] at this
      simpa using this
  rw [h1, dropWhile_sep_head _ hh, dropWhile_ne_sep _ _ hr]
  simp

theorem parentDir_child (d f : Str) (hf : Plain f) (hd : d ≠ [])
    (hlast : d.reverse.head? ≠ some '/') : parentDir (d ++ '/' :: f) = d := by
  have hr : '/' ∉ f.reverse := by simpa using hf.2.2.2
  have hne : f.reverse ≠ [] := by simpa using hf.1
  unfold parentDir
  have h1 : (d ++ '/' :: f).reverse = f.reverse ++ '/' :: d.reverse := by simp
  have hh : (f.reverse ++ '/' :: d.reverse).head? ≠ some '/' := by
    cases hfr : f.reverse with
    | nil => exact absurd hfr hne
    | cons c t =>
      have := plain_reverse_head f hf.2.2.2
      rw [hfr] at this
      simpa using this
  rw [h1, dropWhile_sep_head _ hh, dropWhile_ne_sep _ _ hr]
  have h3 : ('/' :: d.reverse).dropWhile (· = '/') = d.reverse := by
    rw [List.dropWhile_cons]
    simp only [decide_True, if_true]
    exact dropWhile_sep_head _ hlast
  simp only [h3]
  have : d.reverse ≠ [] := by simpa using hd
  simp [this]

theorem intercalate_last (es : List Str) (hne : es ≠ [])
    (h : ∀ e ∈ es, e ≠ [] ∧ '/' ∉ e) : (['/'].intercalate es).reverse.head? ≠ some '/' := by
  obtain ⟨es2, e, hes⟩ := (List.eq_nil_or_concat es).resolve_left hne
  rw [List.concat_eq_append] at hes
  subst hes
  have he := h e (by simp)
  have hrev : e.reverse ≠ [] := by simpa using he.1
  have key : ∀ pre : Str, (pre ++ e).reverse.head? ≠ some '/' := by
    intro pre
    rw [List.reverse_append]
    cases hfr : e.reverse with
    | nil => exact absurd hfr hrev
    | cons c t =>
      have := plain_reverse_head e he.2
      rw [hfr] at this
      simpa using this
  by_cases h2 : es2 = []
  · subst h2
    simpa [intercalate_single] using key []
  · rw [intercalate_snoc _ _ _ h2]
    exact key _

theorem renderPath_last (r : Bool) (es : List Str) (h : Shape r es.reverse)
    (hroot : renderPath r es ≠ ['/']) : (renderPath r es).reverse.head? ≠ some '/' := by
  have hel := shape_elems r es h
  have hel2 : ∀ e ∈ es, e ≠ [] ∧ '/' ∉ e := fun e he => ⟨(hel e he).1, (hel e he).2.2⟩
  by_cases hne : es = []
  · subst hne
    cases r
    · simp [renderPath, intercalate_nil']
    · exact absurd (by simp [renderPath, intercalate_nil']) hroot
  · have hl := intercalate_last es hne hel2
    have hb : ['/'].intercalate es ≠ [] := fun hb =>
      hne (intercalate_eq_nil es (fun e he => (hel e he).1) hb)
    cases r with
    | true =>
      simp only [renderPath, if_true, List.reverse_cons]
      have hb2 : (['/'].intercalate es).reverse ≠ [] := by simpa using hb
      cases hrv : (['/'].intercalate es).reverse with
      | nil => exact absurd hrv hb2
      | cons c t =>
        rw [hrv] at hl
        simpa using hl
    | false =>
      simp only [renderPath, Bool.false_eq_true, if_false, hb]
      exact hl

/-- The parent of an entry of a clean directory path is that directory
(none for an entry of the relative directory `.`). -/
theorem parentDir_childPath (y f : Str) (hf : Plain f) :
    parentDir (childPath (filepathClean y) f)
      = if filepathClean y = ['.'] then [] else filepathClean y := by
  unfold childPath
  by_cases h1 : filepathClean y = ['/']
  · rw [if_pos h1, h1, parentDir_root_child f hf]; simp
  · rw [if_neg h1]
    by_cases h2 : filepathClean y = ['.']
    · rw [if_pos h2, if_pos h2, parentDir_plain f hf.2.2.2]
    · rw [if_neg h2, if_neg h2]
      apply parentDir_child _ _ hf (filepathClean_ne_nil y)
      by_cases hy : y = []
      · subst hy; exact absurd (by decide) h2
      · rw [filepathClean_eq y hy] at h1 ⊢
        exact renderPath_last _ _ (cleanElems_shape y) h1

/-! ## The paths of a run -/

theorem plain_mapBin : Plain "map.bin".toList := by unfold Plain; decide

theorem plain_miniMapBin : Plain "mini_map.bin".toList := by unfold Plain; decide

theorem plain_thumbnail : Plain "thumbnail.webp".toList := by unfold Plain; decide

theorem plain_manifest : Plain "manifest.json".toList := by unfold Plain; decide

theorem plain_image : Plain "image.png".toList := by unfold Plain; decide

theorem plain_info : Plain "info.json".toList := by unfold Plain; decide

theorem filepathJoin_skip (es : List Str) : filepathJoin ([] :: es) = filepathJoin es := by
  simp [filepathJoin]

theorem outputRoot_ne_nil (cwd : Str) (isTest : Bool) : outputRoot cwd isTest ≠ [] := by
  unfold outputRoot
  by_cases h : cwd = []
  · subst h
    cases isTest
    · rw [if_neg (by decide), filepathJoin_skip]
      exact filepathJoin_ne_nil "..".toList _ (by decide)
    · rw [if_pos rfl, filepathJoin_skip]
      exact filepathJoin_ne_nil "..".toList _ (by decide)
  · cases isTest
    · exact filepathJoin_ne_nil _ _ h
    · exact filepathJoin_ne_nil _ _ h

theorem inputRoot_ne_nil (cwd : Str) (isTest : Bool) : inputRoot cwd isTest ≠ [] := by
  unfold inputRoot
  by_cases h : cwd = []
  · subst h
    cases isTest
    · rw [if_neg (by decide), filepathJoin_skip]
      exact filepathJoin_ne_nil "assets".toList _ (by decide)
    · rw [if_pos rfl, filepathJoin_skip]
      exact filepathJoin_ne_nil "assets".toList _ (by decide)
  · cases isTest
    · exact filepathJoin_ne_nil _ _ h
    · exact filepathJoin_ne_nil _ _ h

theorem mapDirOf_clean (cwd name : Str) (isTest : Bool) :
    mapDirOf cwd name isTest = filepathClean (outputRoot cwd isTest ++ '/' :: name) := by
  unfold mapDirOf
  exact filepathJoin_pair _ _ (outputRoot_ne_nil cwd isTest)

theorem imagePath_child (cwd name : Str) (isTest : Bool) :
    imagePath cwd name isTest
      = childPath (filepathJoin [inputRoot cwd isTest, name]) "image.png".toList := by
  unfold imagePath
  exact filepathJoin_triple_plain _ _ _ (inputRoot_ne_nil cwd isTest) plain_image

theorem infoPath_child (cwd name : Str) (isTest : Bool) :
    infoPath cwd name isTest
      = childPath (filepathJoin [inputRoot cwd isTest, name]) "info.json".toList := by
  unfold infoPath
  exact filepathJoin_triple_plain _ _ _ (inputRoot_ne_nil cwd isTest) plain_info

theorem outputNames_no_sep : ∀ f ∈ outputNames, Plain f := by
  intro f hf
  simp only [outputNames, List.mem_cons, List.mem_singleton, List.not_mem_nil, or_false] at hf
  rcases hf with rfl | rfl | rfl | rfl
  · exact plain_mapBin
  · exact plain_miniMapBin
  · exact plain_thumbnail
  · exact plain_manifest

theorem imagePath_not_output (cwd name : Str) (isTest : Bool) (d : Str) :
    ∀ f ∈ outputNames, imagePath cwd name isTest ≠ childPath d f := by
  intro f hf
  rw [imagePath_child]
  apply childPath_ne _ _ _ _ plain_image.2.2.2 (outputNames_no_sep f hf).2.2.2
  simp only [outputNames, List.mem_cons, List.mem_singleton, List.not_mem_nil, or_false] at hf
  rcases hf with rfl | rfl | rfl | rfl <;> decide

theorem infoPath_not_output (cwd name : Str) (isTest : Bool) (d : Str) :
    ∀ f ∈ outputNames, infoPath cwd name isTest ≠ childPath d f := by
  intro f hf
  rw [infoPath_child]
  apply childPath_ne _ _ _ _ plain_info.2.2.2 (outputNames_no_sep f hf).2.2.2
  simp only [outputNames, List.mem_cons, List.mem_singleton, List.not_mem_nil, or_false] at hf
  rcases hf with rfl | rfl | rfl | rfl <;> decide

theorem childPath_ne_nil (d f : Str) (hf : f ≠ []) : childPath d f ≠ [] := by
  unfold childPath
  split
  · simp
  · split
    · exact hf
    · simp

theorem filepathJoin_cons (e : Str) (es : List Str) (h : e ≠ []) :
    filepathJoin (e :: es) = filepathClean (['/'].intercalate (e :: es)) := by
  simp [filepathJoin, h]

theorem inputRoot_false (cwd : Str) (h : cwd ≠ []) :
    inputRoot cwd false = filepathClean (cwd ++ "/assets/maps".toList) := by
  unfold inputRoot
  rw [if_neg (by decide), filepathJoin_cons _ _ h]
  simp only [intercalate_cons_cons, intercalate_single, List.append_assoc]
  rfl

theorem inputRoot_true (cwd : Str) (h : cwd ≠ []) :
    inputRoot cwd true = filepathClean (cwd ++ "/assets/test_maps".toList) := by
  unfold inputRoot
  rw [if_pos rfl, filepathJoin_cons _ _ h]
  simp only [intercalate_cons_cons, intercalate_single, List.append_assoc]
  rfl

theorem outputRoot_false (cwd : Str) (h : cwd ≠ []) :
    outputRoot cwd false = filepathClean (cwd ++ "/../resources/maps".toList) := by
  unfold outputRoot
  rw [if_neg (by decide), filepathJoin_cons _ _ h]
  simp only [intercalate_cons_cons, intercalate_single, List.append_assoc]
  rfl

theorem outputRoot_true (cwd : Str) (h : cwd ≠ []) :
    outputRoot cwd true = filepathClean (cwd ++ "/../tests/testdata/maps".toList) := by
  unfold outputRoot
  rw [if_pos rfl, filepathJoin_cons _ _ h]
  simp only [intercalate_cons_cons, intercalate_single, List.append_assoc]
  rfl

theorem imagePath_clean (cwd name : Str) (isTest : Bool) :
    imagePath cwd name isTest
      = filepathClean (inputRoot cwd isTest ++ '/' :: (name ++ "/image.png".toList)) := by
  unfold imagePath
  rw [filepathJoin_triple _ _ _ (inputRoot_ne_nil cwd isTest)]
  rfl

theorem infoPath_clean (cwd name : Str) (isTest : Bool) :
    infoPath cwd name isTest
      = filepathClean (inputRoot cwd isTest ++ '/' :: (name ++ "/info.json".toList)) := by
  unfold infoPath
  rw [filepathJoin_triple _ _ _ (inputRoot_ne_nil cwd isTest)]
  rfl

theorem outputFile_child (cwd name : Str) (isTest : Bool) (f : Str) (hf : Plain f) :
    filepathJoin [mapDirOf cwd name isTest, f]
      = childPath (filepathClean (outputRoot cwd isTest ++ '/' :: name)) f := by
  rw [mapDirOf_clean, filepathJoin_clean_plain _ _ hf]

theorem childPath_suffix (d f : Str) : f <:+ childPath d f := by
  unfold childPath
  split
  · exact ⟨['/'], rfl⟩
  · split
    · exact ⟨[], rfl⟩
    · exact ⟨d ++ ['/'], by simp⟩

/-- A proper element stays visible in the path of a file below it. -/
theorem childPath_plain_infix (d0 name g : Str) (h : Plain name) :
    name <:+: childPath (childPath d0 name) g := by
  obtain ⟨pre, hpre⟩ := childPath_suffix d0 name
  have hlen : name.length ≤ (childPath d0 name).length := by
    rw [← hpre]; simp
  have hpos : 0 < name.length := List.length_pos.mpr h.1
  have h1 : childPath d0 name ≠ ['/'] := by
    intro h0
    rw [h0] at hpre hlen
    have hl : name.length = 1 := by
      simp at hlen; omega
    have hp : pre = [] := by
      have := congrArg List.length hpre
      simp [hl] at this
      exact this
    subst hp
    simp at hpre
    exact h.2.2.2 (by simp [hpre])
  have h2 : childPath d0 name ≠ ['.'] := by
    intro h0
    rw [h0] at hpre hlen
    have hl : name.length = 1 := by
      simp at hlen; omega
    have hp : pre = [] := by
      have := congrArg List.length hpre
      simp [hl] at this
      exact this
    subst hp
    simp at hpre
    exact h.2.1 hpre
  have : childPath (childPath d0 name) g = childPath d0 name ++ '/' :: g := by
    rw [childPath, if_neg h1, if_neg h2]
  rw [this, ← hpre]
  exact ⟨pre, '/' :: g, by simp⟩

theorem name_infix_imagePath (cwd name : Str) (isTest : Bool) (h : Plain name) :
    name <:+: imagePath cwd name isTest := by
  rw [imagePath_child, filepathJoin_pair _ _ (inputRoot_ne_nil cwd isTest),
    filepathClean_append_plain _ _ (inputRoot_ne_nil cwd isTest) h]
  exact childPath_plain_infix _ _ _ h

theorem name_infix_infoPath (cwd name : Str) (isTest : Bool) (h : Plain name) :
    name <:+: infoPath cwd name isTest := by
  rw [infoPath_child, filepathJoin_pair _ _ (inputRoot_ne_nil cwd isTest),
    filepathClean_append_plain _ _ (inputRoot_ne_nil cwd isTest) h]
  exact childPath_plain_infix _ _ _ h

theorem infix_wrap (a x p b : Str) (h : x <:+: p) : x <:+: a ++ p ++ b := by
  obtain ⟨s, t, rfl⟩ := h
  exact ⟨a ++ s, t ++ b, by simp⟩

/-! ## File-system lemmas -/

theorem put_node_same (fs : FS) (p : Str) (n : Node) : (fs.put p n).node p = some n := by
  simp [FS.put]

theorem put_node_other (fs : FS) (p q : Str) (n : Node) (h : q ≠ p) :
    (fs.put p n).node q = fs.node q := by
  simp [FS.put, h]

theorem put_cwdAt (fs : FS) (p : Str) (n : Node) : (fs.put p n).cwdAt = fs.cwdAt := rfl

theorem put_umask (fs : FS) (p : Str) (n : Node) : (fs.put p n).umask = fs.umask := rfl

/-- Writing what a path already holds leaves the file system as it is. -/
theorem put_same (fs : FS) (p : Str) (n : Node) (h : fs.node p = some n) : fs.put p n = fs := by
  cases fs with
  | mk cwdAt node umask =>
    simp only [FS.put, FS.mk.injEq, true_and, and_true]
    funext q
    by_cases hq : q = p
    · subst hq; simp [← h]
    · simp [hq]

/-- A path that is not a link stands for itself. -/
theorem resolve_self (fs : FS) (p : Str) (h : ∀ t, fs.node p ≠ some (.link t)) :
    resolve fs p = some p := by
  unfold resolve resolveAux
  split
  · rename_i t ht; exact absurd ht (h t)
  · rfl

/-- What a successful write to a path that is not a link does: it replaces
the content of the file there, which the process may write, or creates the
file with the permissions left by the umask. -/
theorem writeFile_ok (fs fs1 : FS) (p : Str) (data : Bytes)
    (hl : ∀ t, fs.node p ≠ some (.link t)) (h : writeFile fs p data = .ok fs1) :
    ∃ perm, fs1 = fs.put p (.file data perm)
      ∧ ((∃ old, fs.node p = some (.file old perm) ∧ perm.write = true)
        ∨ (fs.node p = none ∧ perm = newFilePerm fs)) := by
  unfold writeFile at h
  rw [resolve_self fs p hl] at h
  simp only at h
  split at h
  · rename_i old perm hn
    split at h
    · rename_i hw
      cases h
      exact ⟨perm, rfl, Or.inl ⟨old, hn, hw⟩⟩
    · cases h
  · cases h
  · cases h
  · rename_i hn
    split at h
    · cases h
    · split at h
      · cases h
      · cases h
        exact ⟨newFilePerm fs, rfl, Or.inr ⟨hn, rfl⟩⟩

/-- Writing again the content of a file that the process may write. -/
theorem writeFile_same (fs : FS) (p : Str) (data : Bytes) (perm : Perm)
    (hn : fs.node p = some (.file data perm)) (hw : perm.write = true) :
    writeFile fs p data = .ok fs := by
  unfold writeFile
  rw [resolve_self fs p (by intro t ht; rw [hn] at ht; cases ht)]
  simp only [hn, hw, if_true]
  rw [put_same _ _ _ hn]

theorem mkdir_ok (fs fs1 : FS) (p : Str) (h : mkdir fs p = .ok fs1) :
    fs1 = fs.put p (.dir (newDirPerm fs)) ∧ fs.node p = none := by
  unfold mkdir at h
  split at h
  · cases h
  · split at h
    · cases h
    · rename_i hn
      split at h
      · cases h
      · cases h
        exact ⟨rfl, hn⟩

/-- What `MkdirAll` changes, whether it succeeds or not: nothing but paths
that named nothing and now name directories. -/
theorem mkdirAllAux_changes (fuel : Nat) (fs : FS) (p : Str) :
    (mkdirAllAux fuel fs p).2.cwdAt = fs.cwdAt ∧ (mkdirAllAux fuel fs p).2.umask = fs.umask
      ∧ ∀ q, (mkdirAllAux fuel fs p).2.node q = fs.node q
          ∨ (fs.node q = none ∧ ∃ perm, (mkdirAllAux fuel fs p).2.node q = some (.dir perm)) := by
  induction fuel generalizing fs p with
  | zero => exact ⟨rfl, rfl, fun q => Or.inl rfl⟩
  | succ fuel ih =>
    unfold mkdirAllAux
    split
    · exact ⟨rfl, rfl, fun q => Or.inl rfl⟩
    · exact ⟨rfl, rfl, fun q => Or.inl rfl⟩
    · have hpar : ∀ x : Option GoError × FS,
          x = (if parentDir p = [] then (none, fs) else mkdirAllAux fuel fs (parentDir p)) →
          x.2.cwdAt = fs.cwdAt ∧ x.2.umask = fs.umask
            ∧ ∀ q, x.2.node q = fs.node q
                ∨ (fs.node q = none ∧ ∃ perm, x.2.node q = some (.dir perm)) := by
        intro x hx
        split at hx
        · subst hx; exact ⟨rfl, rfl, fun q => Or.inl rfl⟩
        · subst hx; exact ih fs (parentDir p)
      split
      · rename_i e fs1 heq
        exact hpar (some e, fs1) heq.symm
      · rename_i fs1 heq
        have hmid := hpar (none, fs1) heq.symm
        split
        · exact hmid
        · rename_i fs2 hmk
          obtain ⟨rfl, hn2⟩ := mkdir_ok _ _ _ hmk
          refine ⟨hmid.1, hmid.2.1, ?_⟩
          intro q
          by_cases hq : q = p
          · subst hq
            rcases hmid.2.2 q with h1 | ⟨h1, perm, h2⟩
            · right
              exact ⟨by rw [← h1]; exact hn2, _, put_node_same _ _ _⟩
            · right
              exact ⟨h1, _, put_node_same _ _ _⟩
          · simp only [put_node_other _ _ _ _ hq]
            exact hmid.2.2 q

theorem mkdirAll_changes (fs : FS) (p : Str) :
    (mkdirAll fs p).2.cwdAt = fs.cwdAt ∧ (mkdirAll fs p).2.umask = fs.umask
      ∧ ∀ q, (mkdirAll fs p).2.node q = fs.node q
          ∨ (fs.node q = none ∧ ∃ perm, (mkdirAll fs p).2.node q = some (.dir perm)) :=
  mkdirAllAux_changes _ fs p

/-- After a successful `MkdirAll` the path stands for a directory. -/
theorem mkdirAllAux_ok (fuel : Nat) (fs fs1 : FS) (p : Str)
    (h : mkdirAllAux fuel fs p = (none, fs1)) :
    ∃ perm, stat fs1 p = some (.dir perm) := by
  cases fuel with
  | zero => simp [mkdirAllAux] at h
  | succ fuel =>
    unfold mkdirAllAux at h
    split at h
    · rename_i perm hd
      cases h
      exact ⟨perm, hd⟩
    · cases h
    · split at h
      · cases h
      · rename_i fs2 hpar
        split at h
        · cases h
        · rename_i fs3 hmk
          cases h
          obtain ⟨rfl, hn2⟩ := mkdir_ok _ _ _ hmk
          refine ⟨newDirPerm fs2, ?_⟩
          unfold stat
          rw [resolve_self _ _ (by intro t ht; rw [put_node_same] at ht; cases ht)]
          exact put_node_same _ _ _

theorem mkdirAll_ok (fs fs1 : FS) (p : Str) (h : mkdirAll fs p = (none, fs1)) :
    (∃ perm, stat fs1 p = some (.dir perm)) ∧ fs1.cwdAt = fs.cwdAt ∧ fs1.umask = fs.umask
      ∧ ∀ q, fs1.node q = fs.node q ∨ (fs.node q = none ∧ ∃ perm, fs1.node q = some (.dir perm)) := by
  have := mkdirAll_changes fs p
  rw [h] at this
  exact ⟨mkdirAllAux_ok _ fs fs1 p h, this⟩

/-- `MkdirAll` on what stands for a directory succeeds and changes nothing. -/
theorem mkdirAll_dir (fs : FS) (p : Str) (perm : Perm) (h : stat fs p = some (.dir perm)) :
    mkdirAll fs p = (none, fs) := by
  unfold mkdirAll mkdirAllAux
  simp [h]

theorem dropWhile_length_le (q : Char → Bool) (l : Str) : (l.dropWhile q).length ≤ l.length := by
  induction l with
  | nil => simp
  | cons c l ih =>
    rw [List.dropWhile_cons]
    split
    · simp only [List.length_cons]; omega
    · exact Nat.le_refl _

/-- The parent of a non-empty path is shorter than the path. -/
theorem parentDir_length (p : Str) (hp : p ≠ []) : (parentDir p).length < p.length := by
  have hpos : 0 < p.length := List.length_pos.mpr hp
  have hr : ((p.reverse.dropWhile (· = '/')).dropWhile (· ≠ '/')).length < p.length := by
    cases hrev : p.reverse with
    | nil => simp at hrev; exact absurd hrev hp
    | cons c t =>
      have hlen : p.length = t.length + 1 := by
        have := congrArg List.length hrev
        simpa using this
      by_cases hc : c = '/'
      · subst hc
        rw [List.dropWhile_cons]
        simp only [decide_True, if_true]
        have h1 := dropWhile_length_le (· = '/') t
        have h2 := dropWhile_length_le (· ≠ '/') (t.dropWhile (· = '/'))
        omega
      · rw [List.dropWhile_cons]
        have hd : decide (c = '/') = false := by simpa using hc
        rw [hd]
        simp only [Bool.false_eq_true, if_false]
        rw [List.dropWhile_cons]
        have hd2 : decide (c ≠ '/') = true := by simpa using hc
        rw [hd2, if_pos rfl]
        have h2 := dropWhile_length_le (· ≠ '/') t
        omega
  unfold parentDir
  simp only []
  split
  · split
    · simpa using hpos
    · rename_i h1 h2
      have : 0 < ((p.reverse.dropWhile (· = '/')).dropWhile (· ≠ '/')).length :=
        List.length_pos.mpr h2
      simp only [List.length_singleton]
      omega
  · have h3 := dropWhile_length_le (· = '/')
      ((p.reverse.dropWhile (· = '/')).dropWhile (· ≠ '/'))
    rw [List.length_reverse]
    omega

/-- The bound on the recursion of `MkdirAll` is never reached: any fuel
above the length of the path gives the same result. -/
theorem mkdirAllAux_fuel (n : Nat) : ∀ (fuel1 fuel2 : Nat) (fs : FS) (p : Str),
    p.length ≤ n → p.length < fuel1 → p.length < fuel2 →
    mkdirAllAux fuel1 fs p = mkdirAllAux fuel2 fs p := by
  induction n with
  | zero =>
    intro fuel1 fuel2 fs p hn h1 h2
    have hp : p = [] := List.length_eq_zero.mp (Nat.le_zero.mp hn)
    subst hp
    cases fuel1 with
    | zero => exact absurd h1 (Nat.lt_irrefl _)
    | succ f1 =>
      cases fuel2 with
      | zero => exact absurd h2 (Nat.lt_irrefl _)
      | succ f2 =>
        have hpar : parentDir ([] : Str) = [] := by decide
        simp only [mkdirAllAux, hpar, if_true]
  | succ n ih =>
    intro fuel1 fuel2 fs p hn h1 h2
    cases fuel1 with
    | zero => exact absurd h1 (Nat.not_lt_zero _)
    | succ f1 =>
      cases fuel2 with
      | zero => exact absurd h2 (Nat.not_lt_zero _)
      | succ f2 =>
        by_cases hp : p = []
        · subst hp
          have hpar : parentDir ([] : Str) = [] := by decide
          simp only [mkdirAllAux, hpar, if_true]
        · have hlt := parentDir_length p hp
          have := ih f1 f2 fs (parentDir p) (by omega) (by omega) (by omega)
          simp only [mkdirAllAux, this]

theorem outputMapDir_eq (isTest : Bool) (w : World) (cwd : Str) (h0 : outputCwd w = some cwd) :
    outputMapDir isTest w
      = (.ok (outputRoot cwd isTest), { fs := w.fs, calls := w.calls ++ [.getwd] }) := by
  unfold outputCwd at h0
  unfold outputMapDir osGetwd outputRoot World.record
  rw [h0]
  cases isTest <;> rfl

theorem inputMapDir_eq (isTest : Bool) (w : World) (cwd : Str) (h0 : outputCwd w = some cwd) :
    inputMapDir isTest w
      = (.ok (inputRoot cwd isTest), { fs := w.fs, calls := w.calls ++ [.getwd] }) := by
  unfold outputCwd at h0
  unfold inputMapDir osGetwd inputRoot World.record
  rw [h0]
  cases isTest <;> rfl

theorem outputCwd_record (w : World) :
    outputCwd { fs := w.fs, calls := w.calls ++ [.getwd] } = inputCwd w := by
  simp [outputCwd, inputCwd]

/-- Every call of `processMap` is one of the runs of `Run`. -/
theorem processMap_run (G : Engine) (name : Str) (isTest : Bool) (w : World) :
    Run G name isTest w (processMap G name isTest w) := by
  cases h0 : outputCwd w with
  | none =>
    have h0c : w.fs.cwdAt w.calls.length = none := h0
    simp only [processMap, outputMapDir, osGetwd, h0c, World.record]
    exact .noCwd h0
  | some out =>
  cases h0b : inputCwd w with
  | none =>
    have h0c : w.fs.cwdAt (w.calls.length + 1) = none := h0b
    simp only [processMap, outputMapDir_eq isTest w out h0, inputMapDir, osGetwd, World.record,
      List.length_append, List.length_singleton, h0c, List.append_assoc, List.cons_append,
      List.nil_append]
    exact .noInputCwd out h0 h0b
  | some cwd =>
  have hin : inputMapDir isTest { fs := w.fs, calls := w.calls ++ [.getwd] }
      = (.ok (inputRoot cwd isTest), { fs := w.fs, calls := w.calls ++ [.getwd] ++ [.getwd] }) :=
    inputMapDir_eq isTest _ cwd ((outputCwd_record w).trans h0b)
  cases h1 : readFile w.fs (imagePath cwd name isTest) with
  | error e =>
    have := Run.noImage (G := G) out cwd e h0 h0b h1
    unfold imagePath at h1 this
    simp only [processMap, outputMapDir_eq isTest w out h0, hin, osReadFile, World.record, h1,
      List.append_assoc, List.cons_append, List.nil_append]
    exact this
  | ok image =>
  cases h2 : readFile w.fs (infoPath cwd name isTest) with
  | error e =>
    have := Run.noInfo (G := G) out cwd image e h0 h0b h1 h2
    unfold imagePath at h1 this
    unfold infoPath at h2 this
    simp only [processMap, outputMapDir_eq isTest w out h0, hin, osReadFile, World.record, h1, h2,
      List.append_assoc, List.cons_append, List.nil_append]
    exact this
  | ok info =>
  cases h3 : jsonUnmarshal info with
  | error e =>
    have := Run.badInfo (G := G) out cwd image info e h0 h0b h1 h2 h3
    unfold loadCalls at this
    unfold imagePath at h1 this
    unfold infoPath at h2 this
    simp only [processMap, outputMapDir_eq isTest w out h0, hin, osReadFile, World.record, h1, h2,
      h3, List.append_assoc, List.cons_append, List.nil_append]
    exact this
  | ok manifest =>
  cases h4 : G (engineArgs image name isTest) with
  | error e =>
    have := Run.engineError (G := G) out cwd image info manifest e h0 h0b h1 h2 h3 h4
    unfold loadCalls at this
    unfold imagePath at h1 this
    unfold infoPath at h2 this
    unfold engineArgs at h4 this
    simp only [processMap, outputMapDir_eq isTest w out h0, hin, osReadFile, World.record, h1, h2,
      h3, h4, List.append_assoc, List.cons_append, List.nil_append]
    exact this
  | ok r =>
  cases manifest with
  | none =>
    have := Run.nilManifest (G := G) out cwd image info r h0 h0b h1 h2 h3 h4
    unfold loadCalls at this
    unfold imagePath at h1 this
    unfold infoPath at h2 this
    unfold engineArgs at h4 this
    simp only [processMap, outputMapDir_eq isTest w out h0, hin, osReadFile, World.record, h1, h2,
      h3, h4, List.append_assoc, List.cons_append, List.nil_append]
    exact this
  | some m =>
  cases h7a : (mkdirAll w.fs (mapDirOf out name isTest)).1 with
  | some e =>
    have := Run.output (G := G) out cwd image info m r _ _ _ h0 h0b h1 h2 h3 h4 (.mkdirFails e h7a)
    unfold loadCalls at this
    unfold imagePath at h1 this
    unfold infoPath at h2 this
    unfold engineArgs at h4 this
    unfold mapDirOf at h7a this
    try simp only [mergeManifest] at this
    simp only [processMap, outputMapDir_eq isTest w out h0, hin, osReadFile, osMkdirAll,
      osWriteFile, jsonMarshalIndent, World.record, h1, h2, h3, h4, h7a,
      List.append_assoc, List.cons_append, List.nil_append]
    exact this
  | none =>
  obtain ⟨fs7, h7⟩ : ∃ fs7, mkdirAll w.fs (mapDirOf out name isTest) = (none, fs7) :=
    ⟨_, Prod.ext h7a rfl⟩
  clear h7a
  cases h8 : writeFile fs7 (filepathJoin [mapDirOf out name isTest, "map.bin".toList]) r.Map with
  | error e =>
    have := Run.output (G := G) out cwd image info m r _ _ _ h0 h0b h1 h2 h3 h4 (.mapFails fs7 e h7 h8)
    unfold loadCalls at this
    unfold imagePath at h1 this
    unfold infoPath at h2 this
    unfold engineArgs at h4 this
    unfold mapDirOf at h7 h8 this
    try simp only [mergeManifest] at this
    simp only [processMap, outputMapDir_eq isTest w out h0, hin, osReadFile, osMkdirAll,
      osWriteFile, jsonMarshalIndent, World.record, h1, h2, h3, h4, h7, h8,
      List.append_assoc, List.cons_append, List.nil_append]
    exact this
  | ok fs8 =>
  cases h9 : writeFile fs8 (filepathJoin [mapDirOf out name isTest, "mini_map.bin".toList])
      r.MiniMap with
  | error e =>
    have := Run.output (G := G) out cwd image info m r _ _ _ h0 h0b h1 h2 h3 h4 (.miniMapFails fs7 fs8 e h7 h8 h9)
    unfold loadCalls at this
    unfold imagePath at h1 this
    unfold infoPath at h2 this
    unfold engineArgs at h4 this
    unfold mapDirOf at h7 h8 h9 this
    try simp only [mergeManifest] at this
    simp only [processMap, outputMapDir_eq isTest w out h0, hin, osReadFile, osMkdirAll,
      osWriteFile, jsonMarshalIndent, World.record, h1, h2, h3, h4, h7, h8, h9,
      List.append_assoc, List.cons_append, List.nil_append]
    exact this
  | ok fs9 =>
  cases h10 : writeFile fs9 (filepathJoin [mapDirOf out name isTest, "thumbnail.webp".toList])
      r.Thumbnail with
  | error e =>
    have := Run.output (G := G) out cwd image info m r _ _ _ h0 h0b h1 h2 h3 h4 (.thumbnailFails fs7 fs8 fs9 e h7 h8 h9 h10)
    unfold loadCalls at this
    unfold imagePath at h1 this
    unfold infoPath at h2 this
    unfold engineArgs at h4 this
    unfold mapDirOf at h7 h8 h9 h10 this
    try simp only [mergeManifest] at this
    simp only [processMap, outputMapDir_eq isTest w out h0, hin, osReadFile, osMkdirAll,
      osWriteFile, jsonMarshalIndent, World.record, h1, h2, h3, h4, h7, h8, h9, h10,
      List.append_assoc, List.cons_append, List.nil_append]
    exact this
  | ok fs10 =>
  cases h12 : writeFile fs10 (filepathJoin [mapDirOf out name isTest, "manifest.json".toList])
      (renderVal [] [' ', ' '] 0 (canonVal (.obj (mergeManifest m r)))) with
  | error e =>
    have := Run.output (G := G) out cwd image info m r _ _ _ h0 h0b h1 h2 h3 h4 (.manifestFails fs7 fs8 fs9 fs10 _ e h7 h8 h9 h10 rfl h12)
    unfold loadCalls at this
    unfold imagePath at h1 this
    unfold infoPath at h2 this
    unfold engineArgs at h4 this
    unfold mapDirOf at h7 h8 h9 h10 h12 this
    simp only [mergeManifest] at h12
    try simp only [mergeManifest] at this
    simp only [processMap, outputMapDir_eq isTest w out h0, hin, osReadFile, osMkdirAll,
      osWriteFile, jsonMarshalIndent, World.record, h1, h2, h3, h4, h7, h8, h9, h10, h12,
      List.append_assoc, List.cons_append, List.nil_append]
    exact this
  | ok fs11 =>
    have := Run.output (G := G) out cwd image info m r _ _ _ h0 h0b h1 h2 h3 h4 (.done fs7 fs8 fs9 fs10 fs11 _ h7 h8 h9 h10 rfl h12)
    unfold loadCalls at this
    unfold imagePath at h1 this
    unfold infoPath at h2 this
    unfold engineArgs at h4 this
    unfold mapDirOf at h7 h8 h9 h10 h12 this
    simp only [mergeManifest] at h12
    try simp only [mergeManifest] at this
    simp only [processMap, outputMapDir_eq isTest w out h0, hin, osReadFile, osMkdirAll,
      osWriteFile, jsonMarshalIndent, World.record, h1, h2, h3, h4, h7, h8, h9, h10, h12,
      List.append_assoc, List.cons_append, List.nil_append]
    exact this

theorem callsSince_append (w : World) (fs : FS) (cs : List Call) :
    callsSince w { fs := fs, calls := w.calls ++ cs } = cs := by
  simp [callsSince]

/-! ## The output bundle -/

/-- Following links gives the same in two file systems that differ only at
paths that are links in neither. -/
theorem resolveAux_congr (fs fs1 : FS)
    (h : ∀ q, fs1.node q = fs.node q
      ∨ ((∀ t, fs.node q ≠ some (.link t)) ∧ ∀ t, fs1.node q ≠ some (.link t))) :
    ∀ (fuel : Nat) (x : Str), resolveAux fuel fs1 x = resolveAux fuel fs x := by
  intro fuel
  induction fuel with
  | zero => intro x; rfl
  | succ fuel ih =>
    intro x
    rcases h x with hx | ⟨h0, h1⟩
    · simp only [resolveAux, hx, ih]
    · have a : resolveAux (fuel + 1) fs x = some x := by
        unfold resolveAux
        split
        · rename_i t ht; exact absurd ht (h0 t)
        · rfl
      have b : resolveAux (fuel + 1) fs1 x = some x := by
        unfold resolveAux
        split
        · rename_i t ht; exact absurd ht (h1 t)
        · rfl
      rw [a, b]

theorem resolve_congr (fs fs1 : FS)
    (h : ∀ q, fs1.node q = fs.node q
      ∨ ((∀ t, fs.node q ≠ some (.link t)) ∧ ∀ t, fs1.node q ≠ some (.link t)))
    (x : Str) : resolve fs1 x = resolve fs x :=
  resolveAux_congr fs fs1 h 41 x

/-- What following links ends at is not a link. -/
theorem resolveAux_not_link (fs : FS) : ∀ (fuel : Nat) (x r : Str),
    resolveAux fuel fs x = some r → ∀ t, fs.node r ≠ some (.link t) := by
  intro fuel
  induction fuel with
  | zero => intro x r h; cases h
  | succ fuel ih =>
    intro x r h
    unfold resolveAux at h
    split at h
    · exact ih _ _ h
    · rename_i hx
      cases h
      intro t ht
      exact hx t ht

/-- A path that is not a link stands for itself; a link stands for what its
chain of links ends at. -/
theorem resolve_of_not_link (fs : FS) (x r : Str) (hx : ∀ t, fs.node x ≠ some (.link t))
    (h : resolve fs x = some r) : r = x := by
  rw [resolve_self fs x hx] at h
  cases h
  rfl

/-- Four successful writes to four different paths that are not links. -/
theorem write_four (fs7 fs8 fs9 fs10 fs11 : FS) (p1 p2 p3 p4 : Str) (d1 d2 d3 d4 : Bytes)
    (n12 : p1 ≠ p2) (n13 : p1 ≠ p3) (n14 : p1 ≠ p4) (n23 : p2 ≠ p3) (n24 : p2 ≠ p4)
    (n34 : p3 ≠ p4)
    (l1 : ∀ t, fs7.node p1 ≠ some (.link t)) (l2 : ∀ t, fs7.node p2 ≠ some (.link t))
    (l3 : ∀ t, fs7.node p3 ≠ some (.link t)) (l4 : ∀ t, fs7.node p4 ≠ some (.link t))
    (h8 : writeFile fs7 p1 d1 = .ok fs8) (h9 : writeFile fs8 p2 d2 = .ok fs9)
    (h10 : writeFile fs9 p3 d3 = .ok fs10) (h12 : writeFile fs10 p4 d4 = .ok fs11) :
    fs11.cwdAt = fs7.cwdAt ∧ fs11.umask = fs7.umask
      ∧ (∃ perm, fs11.node p1 = some (.file d1 perm)
          ∧ ((∃ old, fs7.node p1 = some (.file old perm) ∧ perm.write = true)
            ∨ (fs7.node p1 = none ∧ perm = newFilePerm fs7)))
      ∧ (∃ perm, fs11.node p2 = some (.file d2 perm)
          ∧ ((∃ old, fs7.node p2 = some (.file old perm) ∧ perm.write = true)
            ∨ (fs7.node p2 = none ∧ perm = newFilePerm fs7)))
      ∧ (∃ perm, fs11.node p3 = some (.file d3 perm)
          ∧ ((∃ old, fs7.node p3 = some (.file old perm) ∧ perm.write = true)
            ∨ (fs7.node p3 = none ∧ perm = newFilePerm fs7)))
      ∧ (∃ perm, fs11.node p4 = some (.file d4 perm)
          ∧ ((∃ old, fs7.node p4 = some (.file old perm) ∧ perm.write = true)
            ∨ (fs7.node p4 = none ∧ perm = newFilePerm fs7)))
      ∧ ∀ q, q ≠ p1 → q ≠ p2 → q ≠ p3 → q ≠ p4 → fs11.node q = fs7.node q := by
  obtain ⟨q1, rfl, k1⟩ := writeFile_ok _ _ _ _ l1 h8
  have l2b : ∀ t, (fs7.put p1 (.file d1 q1)).node p2 ≠ some (.link t) := by
    intro t; rw [put_node_other _ _ _ _ n12.symm]; exact l2 t
  obtain ⟨q2, rfl, k2⟩ := writeFile_ok _ _ _ _ l2b h9
  have l3b : ∀ t, ((fs7.put p1 (.file d1 q1)).put p2 (.file d2 q2)).node p3
      ≠ some (.link t) := by
    intro t
    rw [put_node_other _ _ _ _ n23.symm, put_node_other _ _ _ _ n13.symm]; exact l3 t
  obtain ⟨q3, rfl, k3⟩ := writeFile_ok _ _ _ _ l3b h10
  have l4b : ∀ t, (((fs7.put p1 (.file d1 q1)).put p2 (.file d2 q2)).put p3
      (.file d3 q3)).node p4 ≠ some (.link t) := by
    intro t
    rw [put_node_other _ _ _ _ n34.symm, put_node_other _ _ _ _ n24.symm,
      put_node_other _ _ _ _ n14.symm]
    exact l4 t
  obtain ⟨q4, rfl, k4⟩ := writeFile_ok _ _ _ _ l4b h12
  simp only [put_node_other _ _ _ _ n12.symm] at k2
  simp only [put_node_other _ _ _ _ n23.symm, put_node_other _ _ _ _ n13.symm] at k3
  simp only [put_node_other _ _ _ _ n34.symm, put_node_other _ _ _ _ n24.symm,
    put_node_other _ _ _ _ n14.symm] at k4
  refine ⟨rfl, rfl, ⟨q1, ?_, k1⟩, ⟨q2, ?_, k2⟩, ⟨q3, ?_, k3⟩, ⟨q4, ?_, k4⟩, ?_⟩
  · rw [put_node_other _ _ _ _ n14, put_node_other _ _ _ _ n13, put_node_other _ _ _ _ n12,
      put_node_same]
  · rw [put_node_other _ _ _ _ n24, put_node_other _ _ _ _ n23, put_node_same]
  · rw [put_node_other _ _ _ _ n34, put_node_same]
  · rw [put_node_same]
  · intro q e1 e2 e3 e4
    rw [put_node_other _ _ _ _ e4, put_node_other _ _ _ _ e3, put_node_other _ _ _ _ e2,
      put_node_other _ _ _ _ e1]

theorem outputNames_distinct (d : Str) :
    childPath d "map.bin".toList ≠ childPath d "mini_map.bin".toList
    ∧ childPath d "map.bin".toList ≠ childPath d "thumbnail.webp".toList
    ∧ childPath d "map.bin".toList ≠ childPath d "manifest.json".toList
    ∧ childPath d "mini_map.bin".toList ≠ childPath d "thumbnail.webp".toList
    ∧ childPath d "mini_map.bin".toList ≠ childPath d "manifest.json".toList
    ∧ childPath d "thumbnail.webp".toList ≠ childPath d "manifest.json".toList :=
  ⟨childPath_ne _ _ _ _ plain_mapBin.2.2.2 plain_miniMapBin.2.2.2 (by decide),
   childPath_ne _ _ _ _ plain_mapBin.2.2.2 plain_thumbnail.2.2.2 (by decide),
   childPath_ne _ _ _ _ plain_mapBin.2.2.2 plain_manifest.2.2.2 (by decide),
   childPath_ne _ _ _ _ plain_miniMapBin.2.2.2 plain_thumbnail.2.2.2 (by decide),
   childPath_ne _ _ _ _ plain_miniMapBin.2.2.2 plain_manifest.2.2.2 (by decide),
   childPath_ne _ _ _ _ plain_thumbnail.2.2.2 plain_manifest.2.2.2 (by decide)⟩

/-- The facts about the file system left by an output phase that succeeds,
for a clean output directory and output paths that are not links. -/
theorem emit_done_fs (y : Str) (r : GenerationResult) (fs fs7 fs8 fs9 fs10 fs11 : FS)
    (text : Bytes)
    (hl : ∀ f ∈ outputNames, ∀ t, fs.node (childPath (filepathClean y) f) ≠ some (.link t))
    (h7 : mkdirAll fs (filepathClean y) = (none, fs7))
    (h8 : writeFile fs7 (filepathJoin [filepathClean y, "map.bin".toList]) r.Map = .ok fs8)
    (h9 : writeFile fs8 (filepathJoin [filepathClean y, "mini_map.bin".toList]) r.MiniMap
      = .ok fs9)
    (h10 : writeFile fs9 (filepathJoin [filepathClean y, "thumbnail.webp".toList]) r.Thumbnail
      = .ok fs10)
    (h12 : writeFile fs10 (filepathJoin [filepathClean y, "manifest.json".toList]) text
      = .ok fs11) :
    fs11.cwdAt = fs.cwdAt ∧ fs11.umask = fs.umask
      ∧ (∃ perm, stat fs11 (filepathClean y) = some (.dir perm))
      ∧ (∃ perm, fs11.node (childPath (filepathClean y) "map.bin".toList)
            = some (.file r.Map perm)
          ∧ (perm.write = true ∨ perm = newFilePerm fs))
      ∧ (∃ perm, fs11.node (childPath (filepathClean y) "mini_map.bin".toList)
            = some (.file r.MiniMap perm)
          ∧ (perm.write = true ∨ perm = newFilePerm fs))
      ∧ (∃ perm, fs11.node (childPath (filepathClean y) "thumbnail.webp".toList)
            = some (.file r.Thumbnail perm)
          ∧ (perm.write = true ∨ perm = newFilePerm fs))
      ∧ (∃ perm, fs11.node (childPath (filepathClean y) "manifest.json".toList)
            = some (.file text perm)
          ∧ (perm.write = true ∨ perm = newFilePerm fs))
      ∧ (∀ p, (∀ f ∈ outputNames, p ≠ childPath (filepathClean y) f) →
          fs11.node p = fs.node p
            ∨ (fs.node p = none ∧ ∃ perm, fs11.node p = some (.dir perm))) := by
  rw [filepathJoin_clean_plain y _ plain_mapBin] at h8
  rw [filepathJoin_clean_plain y _ plain_miniMapBin] at h9
  rw [filepathJoin_clean_plain y _ plain_thumbnail] at h10
  rw [filepathJoin_clean_plain y _ plain_manifest] at h12
  obtain ⟨⟨permd, hd7⟩, hc7, hu7, hn7⟩ := mkdirAll_ok _ _ _ h7
  obtain ⟨n12, n13, n14, n23, n24, n34⟩ := outputNames_distinct (filepathClean y)
  have l7 : ∀ f ∈ outputNames, ∀ t,
      fs7.node (childPath (filepathClean y) f) ≠ some (.link t) := by
    intro f hf t ht
    rcases hn7 (childPath (filepathClean y) f) with h | ⟨_, perm, h⟩
    · rw [h] at ht; exact hl f hf t ht
    · rw [h] at ht; cases ht
  obtain ⟨hc, hu, ⟨q1, f1, k1⟩, ⟨q2, f2, k2⟩, ⟨q3, f3, k3⟩, ⟨q4, f4, k4⟩, hrest⟩ :=
    write_four fs7 fs8 fs9 fs10 fs11 _ _ _ _ _ _ _ _ n12 n13 n14 n23 n24 n34
      (l7 _ (by simp [outputNames])) (l7 _ (by simp [outputNames]))
      (l7 _ (by simp [outputNames])) (l7 _ (by simp [outputNames])) h8 h9 h10 h12
  have hperm : ∀ (p : Str) (perm : Perm),
      ((∃ old, fs7.node p = some (.file old perm) ∧ perm.write = true)
        ∨ (fs7.node p = none ∧ perm = newFilePerm fs7)) →
      (perm.write = true ∨ perm = newFilePerm fs) := by
    intro p perm h
    rcases h with ⟨_, _, hw⟩ | ⟨_, hp⟩
    · exact Or.inl hw
    · right; rw [hp]; unfold newFilePerm; rw [hu7]
  have hfile : ∀ (p : Str) (perm : Perm),
      ((∃ old, fs7.node p = some (.file old perm) ∧ perm.write = true)
        ∨ (fs7.node p = none ∧ perm = newFilePerm fs7)) →
      ∀ pd, fs7.node p ≠ some (.dir pd) := by
    intro p perm h pd hp
    rcases h with ⟨_, h1, _⟩ | ⟨h1, _⟩ <;> rw [h1] at hp <;> cases hp
  refine ⟨hc.trans hc7, hu.trans hu7, ?_, ⟨q1, f1, hperm _ _ k1⟩, ⟨q2, f2, hperm _ _ k2⟩,
    ⟨q3, f3, hperm _ _ k3⟩, ⟨q4, f4, hperm _ _ k4⟩, ?_⟩
  · have hsame : ∀ q, fs11.node q = fs7.node q
        ∨ ((∀ t, fs7.node q ≠ some (.link t)) ∧ ∀ t, fs11.node q ≠ some (.link t)) := by
      intro q
      by_cases e1 : q = childPath (filepathClean y) "map.bin".toList
      · subst e1
        exact Or.inr ⟨l7 _ (by simp [outputNames]), by intro t ht; rw [f1] at ht; cases ht⟩
      by_cases e2 : q = childPath (filepathClean y) "mini_map.bin".toList
      · subst e2
        exact Or.inr ⟨l7 _ (by simp [outputNames]), by intro t ht; rw [f2] at ht; cases ht⟩
      by_cases e3 : q = childPath (filepathClean y) "thumbnail.webp".toList
      · subst e3
        exact Or.inr ⟨l7 _ (by simp [outputNames]), by intro t ht; rw [f3] at ht; cases ht⟩
      by_cases e4 : q = childPath (filepathClean y) "manifest.json".toList
      · subst e4
        exact Or.inr ⟨l7 _ (by simp [outputNames]), by intro t ht; rw [f4] at ht; cases ht⟩
      exact Or.inl (hrest q e1 e2 e3 e4)
    unfold stat at hd7 ⊢
    rw [resolve_congr fs7 fs11 hsame]
    cases hr : resolve fs7 (filepathClean y) with
    | none => rw [hr] at hd7; cases hd7
    | some r0 =>
      rw [hr] at hd7
      simp only at hd7 ⊢
      refine ⟨permd, ?_⟩
      rw [hrest r0 (by intro h; subst h; exact hfile _ _ k1 _ hd7)
        (by intro h; subst h; exact hfile _ _ k2 _ hd7)
        (by intro h; subst h; exact hfile _ _ k3 _ hd7)
        (by intro h; subst h; exact hfile _ _ k4 _ hd7)]
      exact hd7
  · intro p hp
    have e1 := hp "map.bin".toList (by simp [outputNames])
    have e2 := hp "mini_map.bin".toList (by simp [outputNames])
    have e3 := hp "thumbnail.webp".toList (by simp [outputNames])
    have e4 := hp "manifest.json".toList (by simp [outputNames])
    rw [hrest p e1 e2 e3 e4]
    exact hn7 p

theorem mem_pathsTo_self (p : Str) : p ∈ pathsTo p := by
  unfold pathsTo
  cases p.length <;> simp [pathsToAux]

/-- A path without a second name is not a link, and no link leads to it. -/
theorem unaliased_noLinkTo (fs : FS) (p : Str) (h : Unaliased fs p) : NoLinkTo fs p :=
  h p (mem_pathsTo_self p)

/-- The run in which every stage succeeds. -/
theorem processMap_done (G : Engine) (name : Str) (isTest : Bool) (w : World) (out cwd : Str)
    (image info : Bytes) (m : GoFields) (r : GenerationResult) (fs7 fs8 fs9 fs10 fs11 : FS)
    (h0 : outputCwd w = some out) (h0b : inputCwd w = some cwd)
    (h1 : readFile w.fs (imagePath cwd name isTest) = .ok image)
    (h2 : readFile w.fs (infoPath cwd name isTest) = .ok info)
    (h3 : jsonUnmarshal info = .ok (some m))
    (h4 : G (engineArgs image name isTest) = .ok r)
    (h7 : mkdirAll w.fs (mapDirOf out name isTest) = (none, fs7))
    (h8 : writeFile fs7 (filepathJoin [mapDirOf out name isTest, "map.bin".toList]) r.Map
      = .ok fs8)
    (h9 : writeFile fs8 (filepathJoin [mapDirOf out name isTest, "mini_map.bin".toList])
      r.MiniMap = .ok fs9)
    (h10 : writeFile fs9 (filepathJoin [mapDirOf out name isTest, "thumbnail.webp".toList])
      r.Thumbnail = .ok fs10)
    (h12 : writeFile fs10 (filepathJoin [mapDirOf out name isTest, "manifest.json".toList])
      (renderVal [] [' ', ' '] 0 (canonVal (.obj (mergeManifest m r)))) = .ok fs11) :
    (processMap G name isTest w).1 = .ok ∧ (processMap G name isTest w).2.fs = fs11 := by
  have hin : inputMapDir isTest { fs := w.fs, calls := w.calls ++ [.getwd] }
      = (.ok (inputRoot cwd isTest), { fs := w.fs, calls := w.calls ++ [.getwd] ++ [.getwd] }) :=
    inputMapDir_eq isTest _ cwd ((outputCwd_record w).trans h0b)
  unfold imagePath at h1
  unfold infoPath at h2
  unfold engineArgs at h4
  unfold mapDirOf at h7 h8 h9 h10 h12
  simp only [mergeManifest] at h12
  simp only [processMap, outputMapDir_eq isTest w out h0, hin, osReadFile, osMkdirAll,
    osWriteFile, jsonMarshalIndent, World.record, h1, h2, h3, h4, h7, h8, h9, h10, h12,
    List.append_assoc, List.cons_append, List.nil_append, and_self]

/-- What the output phase leaves of the paths other than the four output
paths, when these are not aliased: what such a path stands for. -/
theorem stat_unchanged (fs fs1 : FS) (d : Str)
    (hu : ∀ f ∈ outputNames, NoLinkTo fs (childPath d f))
    (hout : ∀ f ∈ outputNames, ∀ t, fs1.node (childPath d f) ≠ some (.link t))
    (hrest : ∀ p, (∀ f ∈ outputNames, p ≠ childPath d f) →
      fs1.node p = fs.node p ∨ (fs.node p = none ∧ ∃ perm, fs1.node p = some (.dir perm)))
    (p : Str) (hp : ∀ f ∈ outputNames, p ≠ childPath d f) :
    resolve fs1 p = resolve fs p
      ∧ ∀ r, resolve fs p = some r →
          fs1.node r = fs.node r ∨ (fs.node r = none ∧ ∃ perm, fs1.node r = some (.dir perm)) := by
  have hsame : ∀ q, fs1.node q = fs.node q
      ∨ ((∀ t, fs.node q ≠ some (.link t)) ∧ ∀ t, fs1.node q ≠ some (.link t)) := by
    intro q
    by_cases hq : ∀ f ∈ outputNames, q ≠ childPath d f
    · rcases hrest q hq with h | ⟨h0, perm, h1⟩
      · exact Or.inl h
      · exact Or.inr ⟨(by intro t ht; rw [h0] at ht; cases ht),
          (by intro t ht; rw [h1] at ht; cases ht)⟩
    · push_neg at hq
      obtain ⟨f, hf, rfl⟩ := hq
      exact Or.inr ⟨(hu f hf).1, hout f hf⟩
  refine ⟨resolve_congr fs fs1 hsame p, ?_⟩
  intro r hr
  apply hrest r
  intro f hf hrf
  subst hrf
  by_cases hlp : ∀ t, fs.node p ≠ some (.link t)
  · exact hp f hf (resolve_of_not_link fs p _ hlp hr).symm
  · push_neg at hlp
    obtain ⟨t, ht⟩ := hlp
    exact (hu f hf).2 p t ht hr

/-- A read that succeeded gives the same after the output phase. -/
theorem readFile_unchanged (fs fs1 : FS) (d : Str)
    (hu : ∀ f ∈ outputNames, NoLinkTo fs (childPath d f))
    (hout : ∀ f ∈ outputNames, ∀ t, fs1.node (childPath d f) ≠ some (.link t))
    (hrest : ∀ p, (∀ f ∈ outputNames, p ≠ childPath d f) →
      fs1.node p = fs.node p ∨ (fs.node p = none ∧ ∃ perm, fs1.node p = some (.dir perm)))
    (p : Str) (hp : ∀ f ∈ outputNames, p ≠ childPath d f) (data : Bytes)
    (h : readFile fs p = .ok data) : readFile fs1 p = .ok data := by
  obtain ⟨hres, hnode⟩ := stat_unchanged fs fs1 d hu hout hrest p hp
  unfold readFile at h ⊢
  rw [hres]
  cases hr : resolve fs p with
  | none => rw [hr] at h; cases h
  | some r =>
    rw [hr] at h
    simp only at h ⊢
    rcases hnode r hr with h1 | ⟨h0, _, _⟩
    · rw [h1]; exact h
    · rw [h0] at h; cases h

/-- What a path other than the four output paths stands for is a file after
the output phase iff it was one before, the same one. -/
theorem stat_file_unchanged (fs fs1 : FS) (d : Str)
    (hu : ∀ f ∈ outputNames, NoLinkTo fs (childPath d f))
    (hout : ∀ f ∈ outputNames, ∀ t, fs1.node (childPath d f) ≠ some (.link t))
    (hrest : ∀ p, (∀ f ∈ outputNames, p ≠ childPath d f) →
      fs1.node p = fs.node p ∨ (fs.node p = none ∧ ∃ perm, fs1.node p = some (.dir perm)))
    (p : Str) (hp : ∀ f ∈ outputNames, p ≠ childPath d f) (data : Bytes) (perm : Perm) :
    stat fs1 p = some (.file data perm) ↔ stat fs p = some (.file data perm) := by
  obtain ⟨hres, hnode⟩ := stat_unchanged fs fs1 d hu hout hrest p hp
  unfold stat
  rw [hres]
  cases hr : resolve fs p with
  | none => simp
  | some r =>
    simp only
    rcases hnode r hr with h1 | ⟨h0, pd, h1⟩
    · rw [h1]
    · rw [h0, h1]
      constructor <;> intro hh <;> cases hh

theorem readFile_ok_node (fs : FS) (p : Str) (data : Bytes) (h : readFile fs p = .ok data) :
    fs.node p ≠ none := by
  intro hn
  unfold readFile at h
  rw [resolve_self fs p (by intro t ht; rw [hn] at ht; cases ht)] at h
  simp only [hn] at h
  cases h

theorem newFilePerm_write (fs : FS) (perm : Perm) (hu : fs.umask.write = false)
    (h : perm.write = true ∨ perm = newFilePerm fs) : perm.write = true := by
  rcases h with h | h
  · exact h
  · rw [h]; simp [newFilePerm, hu]

/-- Writing again what an output file already holds. -/
theorem writeFile_again (fs1 : FS) (y f : Str) (data : Bytes) (perm : Perm) (hf : Plain f)
    (hnode : fs1.node (childPath (filepathClean y) f) = some (.file data perm))
    (hw : perm.write = true) :
    writeFile fs1 (filepathJoin [filepathClean y, f]) data = .ok fs1 := by
  rw [filepathJoin_clean_plain y f hf]
  exact writeFile_same fs1 _ data perm hnode hw

theorem get_set : ∀ (m : GoFields) (k : Str) (v : GoVal) (key : Str),
    (m.set k v).get key = if key = k then some v else m.get key
  | .nil, k, v, key => by simp [GoFields.set, GoFields.get]
  | .cons k2 v2 m, k, v, key => by
    have ih := get_set m k v key
    unfold GoFields.set
    by_cases h : k = k2
    · subst h
      by_cases h2 : key = k <;> simp [GoFields.get, h2]
    · rw [if_neg h]
      by_cases h2 : key = k2
      · subst h2
        have : key ≠ k := fun h3 => h h3.symm
        simp [GoFields.get, this]
      · simp [GoFields.get, h2, ih]

theorem get_mergeManifest (m : GoFields) (r : GenerationResult) (key : Str) :
    (mergeManifest m r).get key
      = if key = "map".toList then
          some (geometry r.MapWidth r.MapHeight r.MapNumLandTiles)
        else if key = "mini_map".toList then
          some (geometry r.MiniMapWidth r.MiniMapHeight r.MiniMapNumLandTiles)
        else m.get key := by
  unfold mergeManifest
  rw [get_set, get_set]
  by_cases h1 : key = "mini_map".toList
  · subst h1
    have : ¬ ("mini_map".toList = "map".toList) := by decide
    rw [if_pos rfl, if_neg this, if_pos rfl]
  · rw [if_neg h1, if_neg h1]

theorem stageWords_inj : ∀ a ∈ stageWords, ∀ b ∈ stageWords, a.2 = b.2 →
    a.1 = b.1 ∨ ((a.1 = 8 ∨ a.1 = 9) ∧ (b.1 = 8 ∨ b.1 = 9)) := by
  decide

theorem infix_mid (a name b : Str) : name <:+: a ++ name ++ b :=
  ⟨a, b, rfl⟩

theorem osGetwd_error (w : World) (h : w.fs.cwdAt w.calls.length = none) :
    (osGetwd w).1 = .error (.lib .getwd) := by
  unfold osGetwd
  rw [h]

theorem osGetwd_second_error (w : World) (h : inputCwd w = none) :
    (osGetwd (osGetwd w).2).1 = .error (.lib .getwd) := by
  apply osGetwd_error
  unfold inputCwd at h
  unfold osGetwd World.record
  cases w.fs.cwdAt w.calls.length <;> simpa using h

/-- The error that `processMap` returns, exit by exit: the number of calls
made, the error of the call that failed, and the text put in front of it. -/
theorem processMap_error_cases (G : Engine) (name : Str) (isTest : Bool) (w : World)
    (e : GoError) (h : (processMap G name isTest w).1 = .err e) :
    ((callsSince w (processMap G name isTest w).2).length, e.added.take 17) ∈ stageWords
    ∧ (((callsSince w (processMap G name isTest w).2).length = 1
          ∧ ∃ c, (osGetwd w).1 = .error c
            ∧ e = .wrap "failed to get map directory: ".toList
                (.wrap "failed to get working directory: ".toList c))
      ∨ ((callsSince w (processMap G name isTest w).2).length = 2
          ∧ ∃ c, (osGetwd (osGetwd w).2).1 = .error c
            ∧ e = .wrap "failed to get input map directory: ".toList
                (.wrap "failed to get working directory: ".toList c))
      ∨ ((callsSince w (processMap G name isTest w).2).length = 3
          ∧ ∃ cwd c, inputCwd w = some cwd
            ∧ readFile w.fs (filepathJoin [inputRoot cwd isTest, name, "image.png".toList])
                = .error c
            ∧ e = .wrap ("failed to read map file ".toList
                ++ filepathJoin [inputRoot cwd isTest, name, "image.png".toList] ++ ": ".toList) c)
      ∨ ((callsSince w (processMap G name isTest w).2).length = 4
          ∧ ∃ cwd c, inputCwd w = some cwd
            ∧ readFile w.fs (filepathJoin [inputRoot cwd isTest, name, "info.json".toList])
                = .error c
            ∧ e = .wrap ("failed to read info file ".toList
                ++ filepathJoin [inputRoot cwd isTest, name, "info.json".toList] ++ ": ".toList) c)
      ∨ ((callsSince w (processMap G name isTest w).2).length = 5
          ∧ ∃ cwd info c, inputCwd w = some cwd
            ∧ readFile w.fs (filepathJoin [inputRoot cwd isTest, name, "info.json".toList])
                = .ok info
            ∧ jsonUnmarshal info = .error c
            ∧ e = .wrap ("failed to parse info.json for ".toList ++ name ++ ": ".toList) c)
      ∨ ((callsSince w (processMap G name isTest w).2).length = 6
          ∧ ∃ cwd image c, inputCwd w = some cwd
            ∧ readFile w.fs (filepathJoin [inputRoot cwd isTest, name, "image.png".toList])
                = .ok image
            ∧ G { ImageBuffer := image, RemoveSmall := !isTest, Name := name } = .error c
            ∧ e = .wrap ("failed to generate map for ".toList ++ name ++ ": ".toList) c)
      ∨ ((callsSince w (processMap G name isTest w).2).length = 7
          ∧ ∃ out c, outputCwd w = some out
            ∧ (mkdirAll w.fs (filepathJoin [outputRoot out isTest, name])).1 = some c
            ∧ e = .wrap ("failed to create output directory for ".toList ++ name
                ++ ": ".toList) c)
      ∨ ((callsSince w (processMap G name isTest w).2).length = 8
          ∧ ∃ out data c, outputCwd w = some out
            ∧ (callsSince w (processMap G name isTest w).2).getLast?
                = some (.writeFile (filepathJoin [filepathJoin [outputRoot out isTest, name],
                    "map.bin".toList]) data)
            ∧ writeFile (processMap G name isTest w).2.fs
                (filepathJoin [filepathJoin [outputRoot out isTest, name], "map.bin".toList]) data
                = .error c
            ∧ e = .wrap ("failed to write combined binary for ".toList ++ name ++ ": ".toList) c)
      ∨ ((callsSince w (processMap G name isTest w).2).length = 9
          ∧ ∃ out data c, outputCwd w = some out
            ∧ (callsSince w (processMap G name isTest w).2).getLast?
                = some (.writeFile (filepathJoin [filepathJoin [outputRoot out isTest, name],
                    "mini_map.bin".toList]) data)
            ∧ writeFile (processMap G name isTest w).2.fs
                (filepathJoin [filepathJoin [outputRoot out isTest, name], "mini_map.bin".toList]) data
                = .error c
            ∧ e = .wrap ("failed to write combined binary for ".toList ++ name ++ ": ".toList) c)
      ∨ ((callsSince w (processMap G name isTest w).2).length = 10
          ∧ ∃ out data c, outputCwd w = some out
            ∧ (callsSince w (processMap G name isTest w).2).getLast?
                = some (.writeFile (filepathJoin [filepathJoin [outputRoot out isTest, name],
                    "thumbnail.webp".toList]) data)
            ∧ writeFile (processMap G name isTest w).2.fs
                (filepathJoin [filepathJoin [outputRoot out isTest, name], "thumbnail.webp".toList]) data
                = .error c
            ∧ e = .wrap ("failed to write thumbnail for ".toList ++ name ++ ": ".toList) c)
      ∨ ((callsSince w (processMap G name isTest w).2).length = 12
          ∧ ∃ out data c, outputCwd w = some out
            ∧ (callsSince w (processMap G name isTest w).2).getLast?
                = some (.writeFile (filepathJoin [filepathJoin [outputRoot out isTest, name],
                    "manifest.json".toList]) data)
            ∧ writeFile (processMap G name isTest w).2.fs
                (filepathJoin [filepathJoin [outputRoot out isTest, name], "manifest.json".toList]) data
                = .error c
            ∧ e = .wrap ("failed to write manifest for ".toList ++ name ++ ": ".toList) c)) := by
  have hrun := processMap_run G name isTest w
  generalize processMap G name isTest w = out at hrun h ⊢
  cases hrun with
  | noCwd h0 =>
    cases h
    exact ⟨by simp [callsSince_append, GoError.added, stageWords],
      Or.inl ⟨by simp [callsSince_append], _, osGetwd_error w h0, rfl⟩⟩
  | noInputCwd out h0 h0b =>
    cases h
    exact ⟨by simp [callsSince_append, GoError.added, stageWords],
      Or.inr (Or.inl ⟨by simp [callsSince_append], _, osGetwd_second_error w h0b, rfl⟩)⟩
  | noImage out cwd e2 h0 h0b h1 =>
    cases h
    exact ⟨by simp [callsSince_append, GoError.added, stageWords],
      Or.inr (Or.inr (Or.inl ⟨by simp [callsSince_append], cwd, e2, h0b, h1, rfl⟩))⟩
  | noInfo out cwd image e2 h0 h0b h1 h2 =>
    cases h
    exact ⟨by simp [callsSince_append, GoError.added, stageWords],
      Or.inr (Or.inr (Or.inr (Or.inl ⟨by simp [callsSince_append], cwd, e2, h0b, h2, rfl⟩)))⟩
  | badInfo out cwd image info e2 h0 h0b h1 h2 h3 =>
    cases h
    exact ⟨by simp [callsSince_append, GoError.added, stageWords, loadCalls],
      Or.inr (Or.inr (Or.inr (Or.inr (Or.inl
        ⟨by simp [callsSince_append, loadCalls], cwd, info, e2, h0b, h2, h3, rfl⟩))))⟩
  | engineError out cwd image info manifest e2 h0 h0b h1 h2 h3 h4 =>
    cases h
    exact ⟨by simp [callsSince_append, GoError.added, stageWords, loadCalls],
      Or.inr (Or.inr (Or.inr (Or.inr (Or.inr (Or.inl
        ⟨by simp [callsSince_append, loadCalls], cwd, image, e2, h0b, h1, h4, rfl⟩)))))⟩
  | nilManifest out cwd image info r h0 h0b h1 h2 h3 h4 => cases h
  | output out cwd image info m r o fs1 cs h0 h0b h1 h2 h3 h4 h5 =>
    cases h5 with
    | mkdirFails e2 h7 =>
      cases h
      exact ⟨by simp [callsSince_append, GoError.added, stageWords, loadCalls],
        Or.inr (Or.inr (Or.inr (Or.inr (Or.inr (Or.inr (Or.inl
          ⟨by simp [callsSince_append, loadCalls], out, e2, h0, h7, rfl⟩))))))⟩
    | mapFails fs7 e2 h7 h8 =>
      cases h
      exact ⟨by simp [callsSince_append, GoError.added, stageWords, loadCalls],
        Or.inr (Or.inr (Or.inr (Or.inr (Or.inr (Or.inr (Or.inr (Or.inl
          ⟨by simp [callsSince_append, loadCalls], out, _, e2, h0,
            by simp [callsSince_append, loadCalls, mapDirOf], h8, rfl⟩)))))))⟩
    | miniMapFails fs7 fs8 e2 h7 h8 h9 =>
      cases h
      exact ⟨by simp [callsSince_append, GoError.added, stageWords, loadCalls],
        Or.inr (Or.inr (Or.inr (Or.inr (Or.inr (Or.inr (Or.inr (Or.inr (Or.inl
          ⟨by simp [callsSince_append, loadCalls], out, _, e2, h0,
            by simp [callsSince_append, loadCalls, mapDirOf], h9, rfl⟩))))))))⟩
    | thumbnailFails fs7 fs8 fs9 e2 h7 h8 h9 h10 =>
      cases h
      exact ⟨by simp [callsSince_append, GoError.added, stageWords, loadCalls],
        Or.inr (Or.inr (Or.inr (Or.inr (Or.inr (Or.inr (Or.inr (Or.inr (Or.inr (Or.inl
          ⟨by simp [callsSince_append, loadCalls], out, _, e2, h0,
            by simp [callsSince_append, loadCalls, mapDirOf], h10, rfl⟩)))))))))⟩
    | manifestFails fs7 fs8 fs9 fs10 text e2 h7 h8 h9 h10 h11 h12 =>
      cases h
      exact ⟨by simp [callsSince_append, GoError.added, stageWords, loadCalls],
        Or.inr (Or.inr (Or.inr (Or.inr (Or.inr (Or.inr (Or.inr (Or.inr (Or.inr (Or.inr
          ⟨by simp [callsSince_append, loadCalls], out, _, e2, h0,
            by simp [callsSince_append, loadCalls, mapDirOf], h12, rfl⟩)))))))))⟩
    | done fs7 fs8 fs9 fs10 fs11 text h7 h8 h9 h10 h11 h12 => cases h

theorem outcomeAt_zero (G : Engine) (item : MapItem) (rest : List MapItem) (w : World) :
    outcomeAt G (item :: rest) w 0 = some (processMap G item.Name item.IsTest w).1 := by
  simp [outcomeAt, worldAfter]

theorem outcomeAt_succ (G : Engine) (item : MapItem) (rest : List MapItem) (w : World)
    (i : Nat) :
    outcomeAt G (item :: rest) w (i + 1)
      = outcomeAt G rest (processMap G item.Name item.IsTest w).2 i := by
  simp [outcomeAt, worldAfter]

theorem loadTerrainMapsOver_stop (G : Engine) (catalog : List MapItem) :
    ∀ (w : World) (i : Nat) (o : Outcome),
      (∀ j < i, outcomeAt G catalog w j = some .ok) → outcomeAt G catalog w i = some o →
      o ≠ .ok → loadTerrainMapsOver G catalog w = (o, worldAfter G (catalog.take (i + 1)) w) := by
  induction catalog with
  | nil => intro w i o _ h; simp [outcomeAt] at h
  | cons item rest ih =>
    intro w i o hbefore hat hne
    cases i with
    | zero =>
      rw [outcomeAt_zero] at hat
      have hat2 : (processMap G item.Name item.IsTest w).1 = o := by simpa using hat
      unfold loadTerrainMapsOver
      cases hp : processMap G item.Name item.IsTest w with
      | mk o2 w1 =>
        rw [hp] at hat2
        simp only at hat2
        subst hat2
        cases o2 with
        | ok => exact absurd rfl hne
        | err e => simp [worldAfter, hp]
        | panic msg => simp [worldAfter, hp]
    | succ i =>
      have h0 := hbefore 0 (Nat.succ_pos i)
      rw [outcomeAt_zero] at h0
      have h02 : (processMap G item.Name item.IsTest w).1 = .ok := by simpa using h0
      rw [outcomeAt_succ] at hat
      have hb2 : ∀ j < i, outcomeAt G rest (processMap G item.Name item.IsTest w).2 j = some .ok := by
        intro j hj
        have := hbefore (j + 1) (Nat.succ_lt_succ hj)
        rwa [outcomeAt_succ] at this
      have := ih _ i o hb2 hat hne
      unfold loadTerrainMapsOver
      cases hp : processMap G item.Name item.IsTest w with
      | mk o2 w1 =>
        rw [hp] at h02 this
        simp only at h02 this
        subst h02
        simp [worldAfter, hp, this]

theorem loadTerrainMapsOver_ok (G : Engine) (catalog : List MapItem) :
    ∀ (w : World), (loadTerrainMapsOver G catalog w).1 = .ok
      ↔ ∀ i < catalog.length, outcomeAt G catalog w i = some .ok := by
  induction catalog with
  | nil => intro w; simp [loadTerrainMapsOver]
  | cons item rest ih =>
    intro w
    unfold loadTerrainMapsOver
    cases hp : processMap G item.Name item.IsTest w with
    | mk o2 w1 =>
      have hw1 : (processMap G item.Name item.IsTest w).2 = w1 := by rw [hp]
      have ho2 : (processMap G item.Name item.IsTest w).1 = o2 := by rw [hp]
      cases o2 with
      | ok =>
        simp only
        rw [ih w1]
        constructor
        · intro h i hi
          cases i with
          | zero => rw [outcomeAt_zero, ho2]
          | succ i =>
            rw [outcomeAt_succ, hw1]
            exact h i (by simpa using hi)
        · intro h i hi
          have := h (i + 1) (by simpa using hi)
          rwa [outcomeAt_succ, hw1] at this
      | err e =>
        simp only
        constructor
        · intro h; cases h
        · intro h
          have := h 0 (by simp)
          rw [outcomeAt_zero, ho2] at this
          cases this
      | panic msg =>
        simp only
        constructor
        · intro h; cases h
        · intro h
          have := h 0 (by simp)
          rw [outcomeAt_zero, ho2] at this
          cases this

theorem inputMapDir_error_iff (isTest : Bool) (w : World) :
    (∃ e, (inputMapDir isTest w).1 = .error e) ↔ w.fs.cwdAt w.calls.length = none := by
  cases h0 : w.fs.cwdAt w.calls.length with
  | none => simp [inputMapDir, osGetwd, h0]
  | some cwd => simp [inputMapDir_eq isTest w cwd h0]

theorem outputMapDir_error_iff (isTest : Bool) (w : World) :
    (∃ e, (outputMapDir isTest w).1 = .error e) ↔ w.fs.cwdAt w.calls.length = none := by
  cases h0 : w.fs.cwdAt w.calls.length with
  | none => simp [outputMapDir, osGetwd, h0]
  | some cwd => simp [outputMapDir_eq isTest w cwd h0]

theorem inputMapDir_ok (isTest : Bool) (w : World) (cwd : Str)
    (h0 : w.fs.cwdAt w.calls.length = some cwd) :
    (inputMapDir isTest w).1 = .ok (inputRoot cwd isTest) := by
  rw [inputMapDir_eq isTest w cwd h0]

theorem outputMapDir_ok (isTest : Bool) (w : World) (cwd : Str)
    (h0 : w.fs.cwdAt w.calls.length = some cwd) :
    (outputMapDir isTest w).1 = .ok (outputRoot cwd isTest) := by
  rw [outputMapDir_eq isTest w cwd h0]

/-- The world in which `processMap` calls `inputMapDir`. -/
theorem outputMapDir_world (isTest : Bool) (w : World) :
    (outputMapDir isTest w).2 = { fs := w.fs, calls := w.calls ++ [.getwd] } := by
  unfold outputMapDir osGetwd World.record
  cases w.fs.cwdAt w.calls.length with
  | none => rfl
  | some cwd => cases isTest <;> rfl

theorem inputMapDir_second (isTest : Bool) (w : World) (cwd : Str) (h0b : inputCwd w = some cwd) :
    (inputMapDir isTest (outputMapDir isTest w).2).1 = .ok (inputRoot cwd isTest) := by
  rw [outputMapDir_world, inputMapDir_eq isTest _ cwd ((outputCwd_record w).trans h0b)]

/-- The paths that a run reads, creates and writes. -/
theorem processMap_paths (G : Engine) (name : Str) (isTest : Bool) (w : World) :
    (∀ p ∈ readPaths (callsSince w (processMap G name isTest w).2),
        ∃ cwd, inputCwd w = some cwd
          ∧ (p = imagePath cwd name isTest ∨ p = infoPath cwd name isTest))
    ∧ (∀ p ∈ writePaths (callsSince w (processMap G name isTest w).2),
        ∃ cwd, outputCwd w = some cwd
          ∧ ∃ f ∈ outputNames, p = filepathJoin [mapDirOf cwd name isTest, f])
    ∧ (∀ p ∈ mkdirPaths (callsSince w (processMap G name isTest w).2),
        ∃ cwd, outputCwd w = some cwd ∧ p = mapDirOf cwd name isTest) := by
  have hrun := processMap_run G name isTest w
  generalize processMap G name isTest w = out at hrun ⊢
  cases hrun with
  | noCwd h0 => simp [callsSince_append, readPaths, writePaths, mkdirPaths]
  | noInputCwd out h0 h0b => simp [callsSince_append, readPaths, writePaths, mkdirPaths]
  | noImage out cwd e h0 h0b h1 =>
    simp [callsSince_append, readPaths, writePaths, mkdirPaths, h0, h0b]
  | noInfo out cwd image e h0 h0b h1 h2 =>
    simp [callsSince_append, readPaths, writePaths, mkdirPaths, h0, h0b]
  | badInfo out cwd image info e h0 h0b h1 h2 h3 =>
    simp [callsSince_append, readPaths, writePaths, mkdirPaths, loadCalls, h0, h0b]
  | engineError out cwd image info manifest e h0 h0b h1 h2 h3 h4 =>
    simp [callsSince_append, readPaths, writePaths, mkdirPaths, loadCalls, h0, h0b]
  | nilManifest out cwd image info r h0 h0b h1 h2 h3 h4 =>
    simp [callsSince_append, readPaths, writePaths, mkdirPaths, loadCalls, h0, h0b]
  | output out cwd image info m r o fs1 cs h0 h0b h1 h2 h3 h4 h5 =>
    cases h5 <;>
      simp [callsSince_append, readPaths, writePaths, mkdirPaths, loadCalls, h0, h0b, outputNames]

/-! ## Reading back what the encoder writes: strings -/

theorem hexVal_hexDigit (k : Nat) (hk : k < 16) : hexVal (hexDigit k) = some k := by
  interval_cases k <;> decide

theorem hex4_hexDigit (n : Nat) (hn : n < 65536) :
    hex4 (hexDigit (n / 4096 % 16)) (hexDigit (n / 256 % 16)) (hexDigit (n / 16 % 16))
      (hexDigit (n % 16)) = some n := by
  unfold hex4
  rw [hexVal_hexDigit _ (Nat.mod_lt _ (by decide)), hexVal_hexDigit _ (Nat.mod_lt _ (by decide)),
    hexVal_hexDigit _ (Nat.mod_lt _ (by decide)), hexVal_hexDigit _ (Nat.mod_lt _ (by decide))]
  simp only [Option.some.injEq]
  omega

theorem char_ne_of_toNat (c d : Char) (h : c.toNat ≠ d.toNat) : c ≠ d := by
  intro hc; exact h (by rw [hc])

/-- One encoded character reads back as its code unit. -/
theorem parseStringBody_step (c : Char) (x rest : Str) (us : List Nat)
    (hx : parseStringBody x = some (us, rest)) :
    parseStringBody (escapeChar c ++ x) = some (c.toNat :: us, rest) := by
  by_cases h1 : c = '"'
  · subst h1
    have : escapeChar '"' = ['\\', '"'] := by decide
    rw [this, List.cons_append, List.cons_append, List.nil_append]
    unfold parseStringBody
    simp [unescape, hx]
  by_cases h2 : c = '\\'
  · subst h2
    have : escapeChar '\\' = ['\\', '\\'] := by decide
    rw [this, List.cons_append, List.cons_append, List.nil_append]
    unfold parseStringBody
    simp [unescape, hx]
  by_cases h3 : c = '\n'
  · subst h3
    have : escapeChar '\n' = ['\\', 'n'] := by decide
    rw [this, List.cons_append, List.cons_append, List.nil_append]
    unfold parseStringBody
    simp [unescape, hx]
  by_cases h4 : c = '\r'
  · subst h4
    have : escapeChar '\r' = ['\\', 'r'] := by decide
    rw [this, List.cons_append, List.cons_append, List.nil_append]
    unfold parseStringBody
    simp [unescape, hx]
  by_cases h5 : c = '\t'
  · subst h5
    have : escapeChar '\t' = ['\\', 't'] := by decide
    rw [this, List.cons_append, List.cons_append, List.nil_append]
    unfold parseStringBody
    simp [unescape, hx]
  by_cases h6 : c = Char.ofNat 8
  · subst h6
    have : escapeChar (Char.ofNat 8) = ['\\', 'b'] := by decide
    rw [this, List.cons_append, List.cons_append, List.nil_append]
    unfold parseStringBody
    simp [unescape, hx]
  by_cases h7 : c = Char.ofNat 12
  · subst h7
    have : escapeChar (Char.ofNat 12) = ['\\', 'f'] := by decide
    rw [this, List.cons_append, List.cons_append, List.nil_append]
    unfold parseStringBody
    simp [unescape, hx]
  by_cases h8 : c.toNat < 32 ∨ c = '<' ∨ c = '>' ∨ c = '&' ∨ c.toNat = 0x2028 ∨ c.toNat = 0x2029
  · have hn : c.toNat < 65536 := by
      rcases h8 with h | h | h | h | h | h
      · omega
      · subst h; decide
      · subst h; decide
      · subst h; decide
      · omega
      · omega
    have : escapeChar c = ['\\', 'u', hexDigit (c.toNat / 4096 % 16),
        hexDigit (c.toNat / 256 % 16), hexDigit (c.toNat / 16 % 16), hexDigit (c.toNat % 16)] := by
      unfold escapeChar
      simp only [h1, h2, h3, h4, h5, h6, h7, if_false, h8, if_true]
    rw [this]
    simp only [List.cons_append, List.nil_append]
    unfold parseStringBody
    simp [hex4_hexDigit _ hn, hx]
  · have : escapeChar c = [c] := by
      unfold escapeChar
      simp only [h1, h2, h3, h4, h5, h6, h7, if_false, h8]
    rw [this]
    push_neg at h8
    simp only [List.cons_append, List.nil_append]
    unfold parseStringBody
    simp only [h1, h2, if_false]
    rw [if_neg (by omega), hx]

/-- The body of an encoded string reads back as the code units of the string. -/
theorem parseStringBody_escape (s : Str) (rest : Str) :
    parseStringBody (s.flatMap escapeChar ++ '"' :: rest) = some (s.map Char.toNat, rest) := by
  induction s with
  | nil =>
    simp only [List.flatMap_nil, List.nil_append, List.map_nil]
    unfold parseStringBody
    simp
  | cons c s ih =>
    simp only [List.flatMap_cons, List.append_assoc, List.map_cons]
    exact parseStringBody_step c _ rest _ ih

theorem fromUnits_toNat (s : Str) : fromUnits (s.map Char.toNat) = s := by
  have key : ∀ c : Char, ¬ (0xD800 ≤ c.toNat ∧ c.toNat < 0xE000) := by
    intro c h
    have hv := c.valid
    have : c.toNat < 0xd800 ∨ (0xdfff < c.toNat ∧ c.toNat < 0x110000) := hv
    omega
  induction s with
  | nil => rfl
  | cons c s ih =>
    cases s with
    | nil =>
      simp only [List.map_cons, List.map_nil, fromUnits, key c, if_false, Char.ofNat_toNat]
    | cons c2 s2 =>
      simp only [List.map_cons] at ih ⊢
      unfold fromUnits
      have k := key c
      rw [if_neg (by intro h; exact k ⟨h.1, by omega⟩), if_neg k, ih, Char.ofNat_toNat]

/-- An encoded string reads back as the string. -/
theorem parseString_quote (s : Str) (rest : Str) :
    parseString (s.flatMap escapeChar ++ '"' :: rest) = some (s, rest) := by
  unfold parseString
  rw [parseStringBody_escape]
  simp only [fromUnits_toNat]

/-! ## Reading back what the encoder writes: numbers -/

theorem digit_char (k : Nat) (hk : k < 10) :
    (Char.ofNat (48 + k)).isDigit = true ∧ (k ≠ 0 → Char.ofNat (48 + k) ≠ '0') := by
  interval_cases k <;> decide

theorem natDigitsAux_zero (fuel : Nat) (acc : Str) : natDigitsAux fuel 0 acc = acc := by
  cases fuel <;> simp [natDigitsAux]

/-- The digits are put in front of `acc`, and they are decimal digits. -/
theorem natDigitsAux_digits : ∀ (fuel n : Nat) (acc : Str),
    ∃ ds, natDigitsAux fuel n acc = ds ++ acc ∧ ∀ c ∈ ds, c.isDigit = true := by
  intro fuel
  induction fuel with
  | zero => intro n acc; exact ⟨[], rfl, by simp⟩
  | succ fuel ih =>
    intro n acc
    unfold natDigitsAux
    by_cases hn : n = 0
    · rw [if_pos hn]; exact ⟨[], rfl, by simp⟩
    · rw [if_neg hn]
      obtain ⟨ds, h1, h2⟩ := ih (n / 10) (Char.ofNat (48 + n % 10) :: acc)
      refine ⟨ds ++ [Char.ofNat (48 + n % 10)], by rw [h1]; simp, ?_⟩
      intro c hc
      rw [List.mem_append] at hc
      rcases hc with hc | hc
      · exact h2 c hc
      · simp only [List.mem_singleton] at hc
        subst hc
        exact (digit_char _ (Nat.mod_lt _ (by decide))).1

/-- With enough fuel the first digit of a positive number is not `0`. -/
theorem natDigitsAux_head : ∀ (fuel n : Nat) (acc : Str), n ≠ 0 → n ≤ fuel →
    ∃ c rest, natDigitsAux fuel n acc = c :: rest ∧ c ≠ '0' := by
  intro fuel
  induction fuel with
  | zero => intro n acc hn hle; omega
  | succ fuel ih =>
    intro n acc hn hle
    unfold natDigitsAux
    rw [if_neg hn]
    by_cases h10 : n / 10 = 0
    · rw [h10, natDigitsAux_zero]
      have hlt : n < 10 := by omega
      have hmod : n % 10 = n := Nat.mod_eq_of_lt hlt
      rw [hmod]
      exact ⟨_, _, rfl, (digit_char n hlt).2 hn⟩
    · exact ih (n / 10) _ h10 (by omega)

theorem natText_digits (n : Nat) : Digits (natText n) := by
  unfold natText
  by_cases hn : n = 0
  · rw [if_pos hn]
    exact ⟨by simp, by intro c hc; simp at hc; subst hc; decide⟩
  · rw [if_neg hn]
    obtain ⟨c, rest, h1, _⟩ := natDigitsAux_head n n [] hn (Nat.le_refl _)
    obtain ⟨ds, h2, h3⟩ := natDigitsAux_digits n n []
    refine ⟨by rw [h1]; simp, ?_⟩
    intro x hx
    rw [h2, List.append_nil] at hx
    exact h3 x hx

theorem natText_head (n : Nat) (hn : n ≠ 0) : ∃ c rest, natText n = c :: rest ∧ c ≠ '0' := by
  unfold natText
  rw [if_neg hn]
  exact natDigitsAux_head n n [] hn (Nat.le_refl _)

theorem span_digits (ds x : Str) (hds : ∀ c ∈ ds, c.isDigit = true) (hx : NoDigitAhead x) :
    (ds ++ x).span Char.isDigit = (ds, x) := by
  rw [List.span_eq_take_drop]
  induction ds with
  | nil =>
    cases x with
    | nil => rfl
    | cons c r =>
      have := hx c r rfl
      simp [List.takeWhile_cons, List.dropWhile_cons, this]
  | cons d ds ih =>
    have hd := hds d (List.mem_cons_self _ _)
    have := ih (fun c hc => hds c (List.mem_cons_of_mem _ hc))
    simp only [List.cons_append, List.takeWhile_cons, List.dropWhile_cons, hd, if_true]
    simp only [Prod.mk.injEq] at this ⊢
    exact ⟨by rw [this.1], this.2⟩

theorem parseDigits_append (ds x : Str) (hds : Digits ds) (hx : NoDigitAhead x) :
    parseDigits (ds ++ x) = some (ds, x) := by
  unfold parseDigits
  rw [span_digits ds x hds.2 hx]
  cases ds with
  | nil => exact absurd rfl hds.1
  | cons d ds => rfl

theorem delim_noDigit (rest : Str) (h : Delim rest) : NoDigitAhead rest := by
  intro c r hc
  rcases h c r hc with rfl | rfl <;> decide

theorem parseIntPart_ok (ip x : Str)
    (hip : ip = ['0'] ∨ (Digits ip ∧ ∀ c r, ip = c :: r → c ≠ '0')) (hx : NoDigitAhead x) :
    parseIntPart (ip ++ x) = some (ip, x) := by
  rcases hip with rfl | ⟨hd, hh⟩
  · rfl
  · cases ip with
    | nil => exact absurd rfl hd.1
    | cons c r =>
      have hc := hh c r rfl
      unfold parseIntPart
      split
      · rename_i r0 heq
        simp only [List.cons_append, List.cons.injEq] at heq
        exact absurd heq.1 hc
      · exact parseDigits_append _ _ hd hx

theorem parseFracPart_none (x : Str) (hx : ∀ r, x ≠ '.' :: r) :
    parseFracPart x = some ([], x) := by
  unfold parseFracPart
  split
  · rename_i r; exact absurd rfl (hx r)
  · rfl

theorem parseFracPart_ok (ds x : Str) (hds : Digits ds) (hx : NoDigitAhead x) :
    parseFracPart ('.' :: (ds ++ x)) = some ('.' :: ds, x) := by
  unfold parseFracPart
  simp only [parseDigits_append ds x hds hx]

theorem parseExpPart_none (rest : Str) (h : Delim rest) : parseExpPart rest = some ([], rest) := by
  unfold parseExpPart
  cases rest with
  | nil => rfl
  | cons c r =>
    simp only
    rcases h c r rfl with rfl | rfl
    · rw [if_neg (by decide)]
    · rw [if_neg (by decide)]

theorem parseExpPart_ok (sg : Char) (ds rest : Str) (hsg : sg = '+' ∨ sg = '-')
    (hds : Digits ds) (h : Delim rest) :
    parseExpPart ('e' :: sg :: (ds ++ rest)) = some ('e' :: sg :: ds, rest) := by
  unfold parseExpPart
  simp only [true_or, if_true]
  rcases hsg with rfl | rfl
  · simp only [parseDigits_append ds rest hds (delim_noDigit rest h)]
  · simp only [parseDigits_append ds rest hds (delim_noDigit rest h)]

/-- The shape of a number literal without sign, as the encoder writes it. -/
theorem parseUnsigned_ok (ip fp ep rest : Str)
    (hip : ip = ['0'] ∨ (Digits ip ∧ ∀ c r, ip = c :: r → c ≠ '0'))
    (hfp : fp = [] ∨ ∃ ds, Digits ds ∧ fp = '.' :: ds)
    (hep : ep = [] ∨ ∃ sg ds, (sg = '+' ∨ sg = '-') ∧ Digits ds ∧ ep = 'e' :: sg :: ds)
    (h : Delim rest) :
    parseUnsigned (ip ++ (fp ++ ep) ++ rest) = some (ip ++ (fp ++ ep), rest) := by
  have hep2 : parseExpPart (ep ++ rest) = some (ep, rest) := by
    rcases hep with rfl | ⟨sg, ds, hsg, hds, rfl⟩
    · exact parseExpPart_none rest h
    · exact parseExpPart_ok sg ds rest hsg hds h
  have hepd : NoDigitAhead (ep ++ rest) := by
    rcases hep with rfl | ⟨sg, ds, hsg, hds, rfl⟩
    · exact delim_noDigit rest h
    · intro c r hc
      simp only [List.cons_append, List.cons.injEq] at hc
      rw [← hc.1]; decide
  have hepp : ∀ r, ep ++ rest ≠ '.' :: r := by
    rcases hep with rfl | ⟨sg, ds, hsg, hds, rfl⟩
    · intro r hr
      rcases h _ _ hr with h1 | h1 <;> exact absurd h1 (by decide)
    · intro r hr
      simp only [List.cons_append, List.cons.injEq] at hr
      exact absurd hr.1 (by decide)
  have hfp2 : parseFracPart (fp ++ (ep ++ rest)) = some (fp, ep ++ rest) := by
    rcases hfp with rfl | ⟨ds, hds, rfl⟩
    · exact parseFracPart_none _ hepp
    · rw [List.cons_append]
      exact parseFracPart_ok ds _ hds hepd
  have hfpd : NoDigitAhead (fp ++ (ep ++ rest)) := by
    rcases hfp with rfl | ⟨ds, hds, rfl⟩
    · exact hepd
    · intro c r hc
      simp only [List.cons_append, List.cons.injEq] at hc
      rw [← hc.1]; decide
  unfold parseUnsigned
  rw [List.append_assoc, List.append_assoc, parseIntPart_ok ip _ hip hfpd]
  simp only [hfp2, hep2]

/-- The shape of a number literal as the encoder writes it: an optional
minus sign, `0` or digits that do not start with `0`, an optional fraction,
an optional exponent with sign. -/
theorem numTok_build (neg : Bool) (ip fp ep : Str)
    (hip : ip = ['0'] ∨ (Digits ip ∧ ∀ c r, ip = c :: r → c ≠ '0'))
    (hfp : fp = [] ∨ ∃ ds, Digits ds ∧ fp = '.' :: ds)
    (hep : ep = [] ∨ ∃ sg ds, (sg = '+' ∨ sg = '-') ∧ Digits ds ∧ ep = 'e' :: sg :: ds) :
    NumTok ((if neg then ['-'] else []) ++ (ip ++ (fp ++ ep))) := by
  have hhead : ∃ c r, ip = c :: r ∧ c.isDigit = true ∧ c ≠ '-' := by
    rcases hip with rfl | ⟨hd, _⟩
    · exact ⟨'0', [], rfl, by decide, by decide⟩
    · cases ip with
      | nil => exact absurd rfl hd.1
      | cons c r =>
        have := hd.2 c (List.mem_cons_self _ _)
        exact ⟨c, r, rfl, this, by intro hc; subst hc; exact absurd this (by decide)⟩
  obtain ⟨c, r, hc, hcd, hcm⟩ := hhead
  have hdig : ∀ x : Char, x.isDigit = true → isPlainChar x = true := by
    intro x hx
    unfold isPlainChar
    simp only [Bool.and_eq_true, bne_iff_ne, ne_eq]
    refine ⟨⟨⟨⟨⟨⟨⟨?_, ?_⟩, ?_⟩, ?_⟩, ?_⟩, ?_⟩, ?_⟩, ?_⟩ <;>
      (intro hh; subst hh; exact absurd hx (by decide))
  have hplain : ∀ x ∈ (if neg then ['-'] else []) ++ (ip ++ (fp ++ ep)), isPlainChar x = true := by
    intro x hx
    simp only [List.mem_append] at hx
    rcases hx with hx | hx | hx | hx
    · cases neg with
      | true => simp at hx; subst hx; decide
      | false => simp at hx
    · rcases hip with rfl | ⟨hd, _⟩
      · simp at hx; subst hx; decide
      · exact hdig x (hd.2 x hx)
    · rcases hfp with rfl | ⟨ds, hds, rfl⟩
      · simp at hx
      · simp only [List.mem_cons] at hx
        rcases hx with rfl | hx
        · decide
        · exact hdig x (hds.2 x hx)
    · rcases hep with rfl | ⟨sg, ds, hsg, hds, rfl⟩
      · simp at hx
      · simp only [List.mem_cons] at hx
        rcases hx with rfl | rfl | hx
        · decide
        · rcases hsg with rfl | rfl <;> decide
        · exact hdig x (hds.2 x hx)
  cases neg with
  | true =>
    refine ⟨⟨'-', _, rfl, Or.inl rfl⟩, ?_, hplain⟩
    intro rest hrest
    simp only [if_true, List.cons_append, List.nil_append]
    unfold parseNumber
    simp only [parseUnsigned_ok ip fp ep rest hip hfp hep hrest]
  | false =>
    refine ⟨⟨c, r ++ (fp ++ ep), by simp [hc], Or.inr hcd⟩, ?_, hplain⟩
    intro rest hrest
    simp only [Bool.false_eq_true, if_false, List.nil_append]
    have := parseUnsigned_ok ip fp ep rest hip hfp hep hrest
    unfold parseNumber
    split
    · rename_i r0 heq
      rw [hc] at heq
      simp only [List.cons_append, List.cons.injEq] at heq
      exact absurd heq.1 hcm
    · exact this

/-! ## The text of a number is a number literal -/

theorem natText_shape (n : Nat) :
    natText n = ['0'] ∨ (Digits (natText n) ∧ ∀ c r, natText n = c :: r → c ≠ '0') := by
  by_cases hn : n = 0
  · left; subst hn; rfl
  · right
    refine ⟨natText_digits n, ?_⟩
    intro c r hc
    obtain ⟨c2, r2, h2, hne⟩ := natText_head n hn
    rw [h2] at hc
    cases hc
    exact hne

theorem numTok_natText (neg : Bool) (n : Nat) :
    NumTok ((if neg then ['-'] else []) ++ natText n) := by
  have := numTok_build neg (natText n) [] [] (natText_shape n) (Or.inl rfl) (Or.inl rfl)
  simpa using this

theorem numTok_intText (n : Int) : NumTok (intText n) := by
  unfold intText
  by_cases h : n < 0
  · rw [if_pos h]
    exact numTok_natText true n.natAbs
  · rw [if_neg h]
    exact numTok_natText false n.toNat

theorem shortestAt_pos (xn xd m : Nat) (e k : Int) (n c : Nat) (s : Int)
    (h : shortestAt xn xd m e k n = some (c, s)) : c ≠ 0 := by
  unfold shortestAt at h
  simp only at h
  have hlo : ∀ lo : Nat, roundsTo lo (k - n) m e = true → lo ≠ 0 := by
    intro lo hr
    unfold roundsTo at hr
    simp only [Bool.and_eq_true, decide_eq_true_eq] at hr
    exact hr.1
  split at h
  · split at h
    · rename_i hok
      cases h
      exact hlo _ hok
    · cases h
  · split at h
    · rename_i hok _
      split at h
      · cases h; exact hlo _ hok
      · split at h
        · cases h; exact Nat.succ_ne_zero _
        · split at h
          · cases h; exact hlo _ hok
          · cases h; exact Nat.succ_ne_zero _
    · rename_i hok _
      cases h; exact hlo _ hok
    · cases h; exact Nat.succ_ne_zero _
    · cases h

theorem shortestFrom_pos (xn xd m : Nat) (e k : Int) : ∀ (fuel n c : Nat) (s : Int),
    shortestFrom xn xd m e k fuel n = some (c, s) → c ≠ 0 := by
  intro fuel
  induction fuel with
  | zero => intro n c s h; cases h
  | succ fuel ih =>
    intro n c s h
    unfold shortestFrom at h
    split at h
    · rename_i r hr
      cases h
      exact shortestAt_pos _ _ _ _ _ _ _ _ hr
    · exact ih _ _ _ h

theorem stripZeros_pos : ∀ (fuel c : Nat) (s : Int), c ≠ 0 → (stripZeros fuel c s).1 ≠ 0 := by
  intro fuel
  induction fuel with
  | zero => intro c s hc; exact hc
  | succ fuel ih =>
    intro c s hc
    unfold stripZeros
    split
    · rename_i h
      apply ih
      omega
    · exact hc

theorem shortestDecimal_pos (m : Nat) (e : Int) : (shortestDecimal m e).1 ≠ 0 := by
  unfold shortestDecimal
  simp only
  split
  · rename_i c s h
    exact stripZeros_pos _ _ _ (shortestFrom_pos _ _ _ _ _ _ _ _ _ h)
  · apply stripZeros_pos
    omega

theorem digits_replicate_zero (n : Nat) : ∀ c ∈ List.replicate n '0', c.isDigit = true := by
  intro c hc
  rw [List.mem_replicate] at hc
  rw [hc.2]; decide

/-- The text of a positive float64 has the shape of a number literal. -/
theorem formatPos_shape (m : Nat) (e : Int) :
    ∃ ip fp ep, formatPos m e = ip ++ (fp ++ ep)
      ∧ (ip = ['0'] ∨ (Digits ip ∧ ∀ c r, ip = c :: r → c ≠ '0'))
      ∧ (fp = [] ∨ ∃ ds, Digits ds ∧ fp = '.' :: ds)
      ∧ (ep = [] ∨ ∃ sg ds, (sg = '+' ∨ sg = '-') ∧ Digits ds ∧ ep = 'e' :: sg :: ds) := by
  have hpos := shortestDecimal_pos m e
  obtain ⟨c0, r0, hds, hc0⟩ := natText_head _ hpos
  have hdig := natText_digits (shortestDecimal m e).1
  have hr0 : ∀ c ∈ r0, c.isDigit = true := by
    intro c hc
    exact hdig.2 c (by rw [hds]; exact List.mem_cons_of_mem _ hc)
  have hc0d : c0.isDigit = true := hdig.2 c0 (by rw [hds]; exact List.mem_cons_self _ _)
  unfold formatPos
  simp only
  rw [hds]
  split
  · -- exponent form
    refine ⟨[c0], (match r0 with | [] => [] | r => '.' :: r),
      'e' :: (if ((c0 :: r0).length : Int) + (shortestDecimal m e).2 - 1 < 0 then '-' else '+')
        :: natText (((c0 :: r0).length : Int) + (shortestDecimal m e).2 - 1).natAbs, ?_, ?_, ?_, ?_⟩
    · cases r0 <;> simp
    · right
      exact ⟨⟨by simp, by intro c hc; simp at hc; subst hc; exact hc0d⟩,
        by intro c r hc; cases hc; exact hc0⟩
    · cases r0 with
      | nil => left; rfl
      | cons d r =>
        right
        exact ⟨d :: r, ⟨by simp, hr0⟩, rfl⟩
    · right
      refine ⟨_, _, ?_, natText_digits _, rfl⟩
      split
      · right; rfl
      · left; rfl
  · split
    · -- 0.000ddd
      refine ⟨['0'], '.' :: (List.replicate
          (-(((c0 :: r0).length : Int) + (shortestDecimal m e).2)).toNat '0' ++ (c0 :: r0)), [],
        by simp, Or.inl rfl, ?_, Or.inl rfl⟩
      right
      refine ⟨_, ⟨by simp, ?_⟩, rfl⟩
      intro c hc
      rw [List.mem_append] at hc
      rcases hc with hc | hc
      · exact digits_replicate_zero _ c hc
      · rw [← hds] at hc; exact hdig.2 c hc
    · split
      · -- ddd.ddd
        rename_i hk1 hk2 hlt
        have hkpos : 0 < (((c0 :: r0).length : Int) + (shortestDecimal m e).2).toNat := by
          omega
        obtain ⟨j, hj⟩ : ∃ j, (((c0 :: r0).length : Int) + (shortestDecimal m e).2).toNat = j + 1 :=
          ⟨_, (Nat.succ_pred_eq_of_pos hkpos).symm⟩
        rw [hj] at hlt ⊢
        refine ⟨(c0 :: r0).take (j + 1), '.' :: (c0 :: r0).drop (j + 1), [], by simp, ?_, ?_,
          Or.inl rfl⟩
        · right
          refine ⟨⟨by simp, ?_⟩, ?_⟩
          · intro c hc
            have := List.mem_of_mem_take hc
            rw [← hds] at this; exact hdig.2 c this
          · intro c r hc
            simp only [List.take_succ_cons, List.cons.injEq] at hc
            rw [← hc.1]; exact hc0
        · right
          refine ⟨_, ⟨?_, ?_⟩, rfl⟩
          · intro hnil
            have := congrArg List.length hnil
            simp only [List.length_drop, List.length_nil] at this
            omega
          · intro c hc
            have := List.mem_of_mem_drop hc
            rw [← hds] at this; exact hdig.2 c this
      · -- ddd000
        refine ⟨(c0 :: r0) ++ List.replicate
            ((((c0 :: r0).length : Int) + (shortestDecimal m e).2).toNat - (c0 :: r0).length) '0',
          [], [], by simp, ?_, Or.inl rfl, Or.inl rfl⟩
        right
        refine ⟨⟨by simp, ?_⟩, ?_⟩
        · intro c hc
          rw [List.mem_append] at hc
          rcases hc with hc | hc
          · rw [← hds] at hc; exact hdig.2 c hc
          · exact digits_replicate_zero _ c hc
        · intro c r hc
          simp only [List.cons_append, List.cons.injEq] at hc
          rw [← hc.1]; exact hc0

/-- What the decoder stores for a number is a number as the parser reads it. -/
theorem numTok_float64Text (lit t : Str) (h : float64Text lit = some t) : NumTok t := by
  unfold float64Text at h
  generalize readLiteral lit = tr at h
  obtain ⟨neg, mant, ex⟩ := tr
  simp only at h
  have hzero : NumTok ((if neg = true then ['-'] else []) ++ ['0']) := by
    have := numTok_build neg ['0'] [] [] (Or.inl rfl) (Or.inl rfl) (Or.inl rfl)
    simpa using this
  split at h
  · cases h; exact hzero
  · split at h
    · cases h
    · split at h
      · cases h; exact hzero
      · split at h
        · cases h
        · rename_i m e _
          split at h
          · cases h; exact hzero
          · cases h
            obtain ⟨ip, fp, ep, hf, hip, hfp, hep⟩ := formatPos_shape m e
            rw [hf]
            exact numTok_build neg ip fp ep hip hfp hep

/-! ## Reading back what the encoder writes: values -/

theorem skipWs_keep (c : Char) (r : Str) (h : isWs c = false) : skipWs (c :: r) = c :: r := by
  unfold skipWs
  rw [List.dropWhile_cons, h]
  rfl

theorem skipWs_drop (c : Char) (r : Str) (h : isWs c = true) : skipWs (c :: r) = skipWs r := by
  unfold skipWs
  rw [List.dropWhile_cons, h]
  rfl

theorem skipWs_append (a x : Str) (h : ∀ c ∈ a, isWs c = true) : skipWs (a ++ x) = skipWs x := by
  induction a with
  | nil => rfl
  | cons c a ih =>
    rw [List.cons_append, skipWs_drop _ _ (h c (List.mem_cons_self _ _)),
      ih (fun d hd => h d (List.mem_cons_of_mem _ hd))]

theorem skipWs_idem (s : Str) : skipWs (skipWs s) = skipWs s := by
  induction s with
  | nil => rfl
  | cons c s ih =>
    by_cases h : isWs c = true
    · rw [skipWs_drop _ _ h, ih]
    · have h2 : isWs c = false := by simpa using h
      rw [skipWs_keep _ _ h2, skipWs_keep _ _ h2]

theorem repeatStr_ws (ind : Str) (h : ∀ c ∈ ind, isWs c = true) :
    ∀ n, ∀ c ∈ repeatStr n ind, isWs c = true := by
  intro n
  induction n with
  | zero => intro c hc; simp [repeatStr] at hc
  | succ n ih =>
    intro c hc
    simp only [repeatStr, List.mem_append] at hc
    rcases hc with hc | hc
    · exact h c hc
    · exact ih c hc

/-- A line break of the encoder is white space. -/
theorem skipWs_newline (pre ind : Str) (hpre : ∀ c ∈ pre, isWs c = true)
    (hind : ∀ c ∈ ind, isWs c = true) (d : Nat) (x : Str) :
    skipWs (newline pre ind d ++ x) = skipWs x := by
  apply skipWs_append
  intro c hc
  simp only [newline, List.mem_cons, List.mem_append] at hc
  rcases hc with rfl | hc | hc
  · decide
  · exact hpre c hc
  · exact repeatStr_ws ind hind d c hc

theorem parseValue_skip (fuel : Nat) (s : Str) :
    parseValue fuel (skipWs s) = parseValue fuel s := by
  cases fuel with
  | zero => simp [parseValue]
  | succ fuel =>
    rw [parseValue, parseValue, skipWs_idem]

theorem parseMembers_skip (fuel : Nat) (s : Str) :
    parseMembers fuel (skipWs s) = parseMembers fuel s := by
  cases fuel with
  | zero => simp [parseMembers]
  | succ fuel =>
    rw [parseMembers, parseMembers, skipWs_idem]

theorem parseElems_skip (fuel : Nat) (s : Str) :
    parseElems fuel (skipWs s) = parseElems fuel s := by
  cases fuel with
  | zero => simp [parseElems]
  | succ fuel =>
    rw [parseElems, parseElems, parseValue_skip]

theorem parseValue_null (fuel : Nat) (rest : Str) :
    parseValue (fuel + 1) ('n' :: 'u' :: 'l' :: 'l' :: rest) = some (.null, rest) := by
  rw [parseValue, skipWs_keep _ _ (by decide)]
  simp only [show ('n' : Char) ≠ '{' by decide, show ('n' : Char) ≠ '[' by decide,
    show ('n' : Char) ≠ '"' by decide, show ¬ (('n' : Char) = '-' ∨ ('n' : Char).isDigit = true) by decide,
    if_false]

theorem parseValue_true (fuel : Nat) (rest : Str) :
    parseValue (fuel + 1) ('t' :: 'r' :: 'u' :: 'e' :: rest) = some (.bool true, rest) := by
  rw [parseValue, skipWs_keep _ _ (by decide)]
  simp only [show ('t' : Char) ≠ '{' by decide, show ('t' : Char) ≠ '[' by decide,
    show ('t' : Char) ≠ '"' by decide, show ¬ (('t' : Char) = '-' ∨ ('t' : Char).isDigit = true) by decide,
    if_false]

theorem parseValue_false (fuel : Nat) (rest : Str) :
    parseValue (fuel + 1) ('f' :: 'a' :: 'l' :: 's' :: 'e' :: rest) = some (.bool false, rest) := by
  rw [parseValue, skipWs_keep _ _ (by decide)]
  simp only [show ('f' : Char) ≠ '{' by decide, show ('f' : Char) ≠ '[' by decide,
    show ('f' : Char) ≠ '"' by decide, show ¬ (('f' : Char) = '-' ∨ ('f' : Char).isDigit = true) by decide,
    if_false]

theorem parseValue_string (fuel : Nat) (s rest : Str) :
    parseValue (fuel + 1) (quote s ++ rest) = some (.str s, rest) := by
  unfold quote
  rw [List.cons_append, List.append_assoc, List.singleton_append, parseValue,
    skipWs_keep _ _ (by decide)]
  simp only [show ('"' : Char) ≠ '{' by decide, show ('"' : Char) ≠ '[' by decide, if_false,
    if_true, parseString_quote]

theorem numTok_head (t : Str) (h : NumTok t) :
    ∃ c r, t = c :: r ∧ (c = '-' ∨ c.isDigit = true) ∧ isWs c = false ∧ c ≠ '{' ∧ c ≠ '['
      ∧ c ≠ '"' ∧ c ≠ ']' ∧ c ≠ '}' := by
  obtain ⟨⟨c, r, ht, hc⟩, _, _⟩ := h
  refine ⟨c, r, ht, hc, ?_⟩
  rcases hc with rfl | hd
  · decide
  · refine ⟨?_, ?_, ?_, ?_, ?_, ?_⟩
    · cases hw : isWs c
      · rfl
      · exfalso
        simp only [isWs, Bool.or_eq_true, decide_eq_true_eq] at hw
        rcases hw with ((rfl | rfl) | rfl) | rfl <;> exact absurd hd (by decide)
    all_goals (intro hc; subst hc; exact absurd hd (by decide))

theorem parseValue_number (fuel : Nat) (t rest : Str) (h : NumTok t) (hrest : Delim rest) :
    parseValue (fuel + 1) (t ++ rest) = some (.num t, rest) := by
  obtain ⟨c, r, ht, hc, hw, h1, h2, h3, _, _⟩ := numTok_head t h
  have hp := h.2.1 rest hrest
  rw [ht] at hp ⊢
  rw [List.cons_append] at hp ⊢
  rw [parseValue, skipWs_keep _ _ hw]
  simp only [h1, h2, h3, if_false, hc, if_true, hp]

theorem parseValue_emptyArr (fuel : Nat) (rest : Str) :
    parseValue (fuel + 1) ('[' :: ']' :: rest) = some (.arr .nil, rest) := by
  rw [parseValue, skipWs_keep _ _ (by decide)]
  simp only [show ('[' : Char) ≠ '{' by decide, if_false, if_true,
    skipWs_keep ']' rest (by decide)]

theorem parseValue_emptyObj (fuel : Nat) (rest : Str) :
    parseValue (fuel + 1) ('{' :: '}' :: rest) = some (.obj .nil, rest) := by
  rw [parseValue, skipWs_keep _ _ (by decide)]
  simp only [if_true, skipWs_keep '}' rest (by decide)]

theorem parseValue_arr (fuel : Nat) (r : Str) (c : Char) (x : Str) (h : skipWs r = c :: x)
    (hc : c ≠ ']') :
    parseValue (fuel + 1) ('[' :: r)
      = match parseElems fuel (c :: x) with
        | none => none
        | some (xs, r2) => some (.arr xs, r2) := by
  rw [parseValue, skipWs_keep _ _ (by decide)]
  simp only [show ('[' : Char) ≠ '{' by decide, if_false, if_true, h]
  split
  · rename_i r1 heq
    simp only [List.cons.injEq] at heq
    exact absurd heq.1 hc
  · rfl

theorem parseValue_obj (fuel : Nat) (r : Str) (c : Char) (x : Str) (h : skipWs r = c :: x)
    (hc : c ≠ '}') :
    parseValue (fuel + 1) ('{' :: r)
      = match parseMembers fuel (c :: x) with
        | none => none
        | some (m, r2) => some (.obj m, r2) := by
  rw [parseValue, skipWs_keep _ _ (by decide)]
  simp only [if_true, h]
  split
  · rename_i r1 heq
    simp only [List.cons.injEq] at heq
    exact absurd heq.1 hc
  · rfl

theorem parseMembers_entry (fuel : Nat) (k y : Str) :
    parseMembers (fuel + 1) (quote k ++ ':' :: ' ' :: y)
      = match parseValue fuel y with
        | none => none
        | some (v, r3) =>
          match skipWs r3 with
          | ',' :: r4 =>
            match parseMembers fuel r4 with
            | none => none
            | some (m, r5) => some (.cons k v m, r5)
          | '}' :: r4 => some (.cons k v .nil, r4)
          | _ => none := by
  unfold quote
  rw [List.cons_append, List.append_assoc, List.singleton_append, parseMembers,
    skipWs_keep _ _ (by decide)]
  simp only [parseString_quote, skipWs_keep ':' _ (by decide)]
  rw [← parseValue_skip fuel (' ' :: y), skipWs_drop ' ' y (by decide), parseValue_skip]

theorem parseElems_step (fuel : Nat) (s : Str) :
    parseElems (fuel + 1) s
      = match parseValue fuel s with
        | none => none
        | some (v, r) =>
          match skipWs r with
          | ',' :: r1 =>
            match parseElems fuel r1 with
            | none => none
            | some (vs, r2) => some (.cons v vs, r2)
          | ']' :: r1 => some (.cons v .nil, r1)
          | _ => none := by
  rw [parseElems]

theorem renderVal_head (pre ind : Str) (d : Nat) : ∀ (v : GoVal), WellFormed v →
    ∃ c x, renderVal pre ind d v = c :: x ∧ isWs c = false ∧ c ≠ ']' ∧ c ≠ '}'
  | .null, _ => ⟨'n', _, rfl, by decide, by decide, by decide⟩
  | .bool true, _ => ⟨'t', _, rfl, by decide, by decide, by decide⟩
  | .bool false, _ => ⟨'f', _, rfl, by decide, by decide, by decide⟩
  | .num t, h => by
    obtain ⟨c, r, ht, _, hw, _, _, _, h1, h2⟩ := numTok_head t h
    exact ⟨c, r, by simp [renderVal, ht], hw, h1, h2⟩
  | .int n, _ => by
    obtain ⟨c, r, ht, _, hw, _, _, _, h1, h2⟩ := numTok_head _ (numTok_intText n)
    exact ⟨c, r, by simp [renderVal, ht], hw, h1, h2⟩
  | .str s, _ => ⟨'"', _, rfl, by decide, by decide, by decide⟩
  | .arr .nil, _ => ⟨'[', _, rfl, by decide, by decide, by decide⟩
  | .arr (.cons _ _), _ => ⟨'[', _, rfl, by decide, by decide, by decide⟩
  | .obj .nil, _ => ⟨'{', _, rfl, by decide, by decide, by decide⟩
  | .obj (.cons _ _ _), _ => ⟨'{', _, rfl, by decide, by decide, by decide⟩

theorem renderVals_head (pre ind : Str) (d : Nat) (v : GoVal) (vs : GoVals)
    (h : WellFormed v) :
    ∃ c x, renderVals pre ind d (.cons v vs) = c :: x ∧ isWs c = false ∧ c ≠ ']' := by
  obtain ⟨c, x, hx, hw, h1, _⟩ := renderVal_head pre ind d v h
  cases vs with
  | nil => exact ⟨c, x, by simp [renderVals, hx], hw, h1⟩
  | cons v2 vs =>
    exact ⟨c, x ++ ',' :: (newline pre ind d ++ renderVals pre ind d (.cons v2 vs)),
      by simp [renderVals, hx], hw, h1⟩

theorem renderFields_head (pre ind : Str) (d : Nat) (k : Str) (v : GoVal) (m : GoFields) :
    ∃ x, renderFields pre ind d (.cons k v m) = '"' :: x := by
  cases m with
  | nil =>
    exact ⟨k.flatMap escapeChar ++ '"' :: ':' :: ' ' :: renderVal pre ind d v,
      by simp [renderFields, quote]⟩
  | cons k2 v2 m =>
    exact ⟨k.flatMap escapeChar ++ '"' :: ':' :: ' ' :: (renderVal pre ind d v
        ++ ',' :: (newline pre ind d ++ renderFields pre ind d (.cons k2 v2 m))),
      by simp [renderFields, quote]⟩

theorem delim_comma (x : Str) : Delim (',' :: x) := by
  intro c r h; cases h; exact Or.inl rfl

theorem delim_newline (pre ind : Str) (d : Nat) (x : Str) : Delim (newline pre ind d ++ x) := by
  intro c r h
  simp only [newline, List.cons_append, List.cons.injEq] at h
  exact Or.inr h.1.symm

mutual
/-- The parser reads the text of a value back as the tree of the value. -/
theorem parse_renderVal (pre ind : Str)
    (hnl : ∀ d x, skipWs (newline pre ind d ++ x) = skipWs x) :
    ∀ (v : GoVal) (d fuel : Nat) (rest : Str), WellFormed v → needVal v ≤ fuel → Delim rest →
      parseValue fuel (renderVal pre ind d v ++ rest) = some (asTree v, rest)
  | .null, d, fuel, rest, _, hf, _ => by
    obtain ⟨f, rfl⟩ : ∃ f, fuel = f + 1 := ⟨fuel - 1, by simp only [needVal] at hf; omega⟩
    exact parseValue_null f rest
  | .bool true, d, fuel, rest, _, hf, _ => by
    obtain ⟨f, rfl⟩ : ∃ f, fuel = f + 1 := ⟨fuel - 1, by simp only [needVal] at hf; omega⟩
    exact parseValue_true f rest
  | .bool false, d, fuel, rest, _, hf, _ => by
    obtain ⟨f, rfl⟩ : ∃ f, fuel = f + 1 := ⟨fuel - 1, by simp only [needVal] at hf; omega⟩
    exact parseValue_false f rest
  | .num t, d, fuel, rest, hwf, hf, hrest => by
    obtain ⟨f, rfl⟩ : ∃ f, fuel = f + 1 := ⟨fuel - 1, by simp only [needVal] at hf; omega⟩
    exact parseValue_number f t rest hwf hrest
  | .int n, d, fuel, rest, _, hf, hrest => by
    obtain ⟨f, rfl⟩ : ∃ f, fuel = f + 1 := ⟨fuel - 1, by simp only [needVal] at hf; omega⟩
    exact parseValue_number f _ rest (numTok_intText n) hrest
  | .str s, d, fuel, rest, _, hf, _ => by
    obtain ⟨f, rfl⟩ : ∃ f, fuel = f + 1 := ⟨fuel - 1, by simp only [needVal] at hf; omega⟩
    exact parseValue_string f s rest
  | .arr .nil, d, fuel, rest, _, hf, _ => by
    obtain ⟨f, rfl⟩ : ∃ f, fuel = f + 1 := ⟨fuel - 1, by simp only [needVal] at hf; omega⟩
    exact parseValue_emptyArr f rest
  | .obj .nil, d, fuel, rest, _, hf, _ => by
    obtain ⟨f, rfl⟩ : ∃ f, fuel = f + 1 := ⟨fuel - 1, by simp only [needVal] at hf; omega⟩
    exact parseValue_emptyObj f rest
  | .arr (.cons v vs), d, fuel, rest, hwf, hf, hrest => by
    obtain ⟨f, rfl⟩ : ∃ f, fuel = f + 1 := ⟨fuel - 1, by simp only [needVal] at hf; omega⟩
    have hf2 : needVals (.cons v vs) ≤ f := by simp only [needVal] at hf; omega
    have hwf2 : WellFormedVals (.cons v vs) := by simpa only [WellFormed] using hwf
    have ih := parse_renderVals pre ind hnl (.cons v vs) (d + 1) d f rest (by simp) hwf2 hf2
    obtain ⟨c, x, hx, hw, hc⟩ := renderVals_head pre ind (d + 1) v vs hwf2.1
    have htext : renderVal pre ind d (.arr (.cons v vs)) ++ rest
        = '[' :: (newline pre ind (d + 1) ++ (renderVals pre ind (d + 1) (.cons v vs)
            ++ (newline pre ind d ++ ']' :: rest))) := by
      simp [renderVal]
    rw [htext, parseValue_arr f _ c (x ++ (newline pre ind d ++ ']' :: rest))
      (by rw [hnl, hx, List.cons_append, skipWs_keep _ _ hw]) hc, ← List.cons_append, ← hx, ih]
    simp [asTree]
  | .obj (.cons k v m), d, fuel, rest, hwf, hf, hrest => by
    obtain ⟨f, rfl⟩ : ∃ f, fuel = f + 1 := ⟨fuel - 1, by simp only [needVal] at hf; omega⟩
    have hf2 : needFields (.cons k v m) ≤ f := by simp only [needVal] at hf; omega
    have hwf2 : WellFormedFields (.cons k v m) := by simpa only [WellFormed] using hwf
    have ih := parse_renderFields pre ind hnl (.cons k v m) (d + 1) d f rest (by simp) hwf2 hf2
    obtain ⟨x, hx⟩ := renderFields_head pre ind (d + 1) k v m
    have htext : renderVal pre ind d (.obj (.cons k v m)) ++ rest
        = '{' :: (newline pre ind (d + 1) ++ (renderFields pre ind (d + 1) (.cons k v m)
            ++ (newline pre ind d ++ '}' :: rest))) := by
      simp [renderVal]
    rw [htext, parseValue_obj f _ '"' (x ++ (newline pre ind d ++ '}' :: rest))
      (by rw [hnl, hx, List.cons_append, skipWs_keep _ _ (by decide)]) (by decide),
      ← List.cons_append, ← hx, ih]
    simp [asTree]
/-- The parser reads the text of the elements of an array back. -/
theorem parse_renderVals (pre ind : Str)
    (hnl : ∀ d x, skipWs (newline pre ind d ++ x) = skipWs x) :
    ∀ (xs : GoVals) (d d2 fuel : Nat) (rest : Str), xs ≠ .nil → WellFormedVals xs →
      needVals xs ≤ fuel →
      parseElems fuel (renderVals pre ind d xs ++ (newline pre ind d2 ++ ']' :: rest))
        = some (asTrees xs, rest)
  | .nil, _, _, _, _, hne, _, _ => absurd rfl hne
  | .cons v .nil, d, d2, fuel, rest, _, hwf, hf => by
    obtain ⟨f, rfl⟩ : ∃ f, fuel = f + 1 := ⟨fuel - 1, by simp only [needVals] at hf; omega⟩
    have hf1 : needVal v ≤ f := by simp only [needVals] at hf; omega
    have ih := parse_renderVal pre ind hnl v d f (newline pre ind d2 ++ ']' :: rest) hwf.1 hf1
      (delim_newline pre ind d2 _)
    rw [parseElems_step]
    simp only [renderVals, ih, hnl, skipWs_keep ']' rest (by decide), asTrees]
  | .cons v (.cons v2 vs), d, d2, fuel, rest, _, hwf, hf => by
    obtain ⟨f, rfl⟩ : ∃ f, fuel = f + 1 := ⟨fuel - 1, by simp only [needVals] at hf; omega⟩
    have hf1 : needVal v ≤ f := by simp only [needVals] at hf; omega
    have hf2 : needVals (.cons v2 vs) ≤ f := by
      have : needVals (.cons v (.cons v2 vs))
          = max (needVal v) (needVals (.cons v2 vs)) + 1 := by rw [needVals]
      omega
    have ih1 := parse_renderVal pre ind hnl v d f
      (',' :: (newline pre ind d ++ (renderVals pre ind d (.cons v2 vs)
        ++ (newline pre ind d2 ++ ']' :: rest)))) hwf.1 hf1 (delim_comma _)
    have ih2 := parse_renderVals pre ind hnl (.cons v2 vs) d d2 f rest (by simp) hwf.2 hf2
    have htext : renderVals pre ind d (.cons v (.cons v2 vs))
          ++ (newline pre ind d2 ++ ']' :: rest)
        = renderVal pre ind d v ++ ',' :: (newline pre ind d
            ++ (renderVals pre ind d (.cons v2 vs) ++ (newline pre ind d2 ++ ']' :: rest))) := by
      rw [renderVals]; simp
    rw [htext, parseElems_step]
    simp only [ih1, skipWs_keep ',' _ (by decide)]
    rw [← parseElems_skip, hnl, parseElems_skip, ih2]
    simp [asTrees]
/-- The parser reads the text of the entries of a map back. -/
theorem parse_renderFields (pre ind : Str)
    (hnl : ∀ d x, skipWs (newline pre ind d ++ x) = skipWs x) :
    ∀ (m : GoFields) (d d2 fuel : Nat) (rest : Str), m ≠ .nil → WellFormedFields m →
      needFields m ≤ fuel →
      parseMembers fuel (renderFields pre ind d m ++ (newline pre ind d2 ++ '}' :: rest))
        = some (asTreeFields m, rest)
  | .nil, _, _, _, _, hne, _, _ => absurd rfl hne
  | .cons k v .nil, d, d2, fuel, rest, _, hwf, hf => by
    obtain ⟨f, rfl⟩ : ∃ f, fuel = f + 1 := ⟨fuel - 1, by simp only [needFields] at hf; omega⟩
    have hf1 : needVal v ≤ f := by simp only [needFields] at hf; omega
    have ih := parse_renderVal pre ind hnl v d f (newline pre ind d2 ++ '}' :: rest) hwf.1 hf1
      (delim_newline pre ind d2 _)
    have htext : renderFields pre ind d (.cons k v .nil) ++ (newline pre ind d2 ++ '}' :: rest)
        = quote k ++ ':' :: ' ' :: (renderVal pre ind d v
            ++ (newline pre ind d2 ++ '}' :: rest)) := by
      rw [renderFields]; simp
    rw [htext, parseMembers_entry]
    simp only [ih, hnl, skipWs_keep '}' rest (by decide), asTreeFields]
  | .cons k v (.cons k2 v2 m), d, d2, fuel, rest, _, hwf, hf => by
    obtain ⟨f, rfl⟩ : ∃ f, fuel = f + 1 := ⟨fuel - 1, by simp only [needFields] at hf; omega⟩
    have hf1 : needVal v ≤ f := by simp only [needFields] at hf; omega
    have hf2 : needFields (.cons k2 v2 m) ≤ f := by
      have : needFields (.cons k v (.cons k2 v2 m))
          = max (needVal v) (needFields (.cons k2 v2 m)) + 1 := by rw [needFields]
      omega
    have ih1 := parse_renderVal pre ind hnl v d f
      (',' :: (newline pre ind d ++ (renderFields pre ind d (.cons k2 v2 m)
        ++ (newline pre ind d2 ++ '}' :: rest)))) hwf.1 hf1 (delim_comma _)
    have ih2 := parse_renderFields pre ind hnl (.cons k2 v2 m) d d2 f rest (by simp) hwf.2 hf2
    have htext : renderFields pre ind d (.cons k v (.cons k2 v2 m))
          ++ (newline pre ind d2 ++ '}' :: rest)
        = quote k ++ ':' :: ' ' :: (renderVal pre ind d v ++ ',' :: (newline pre ind d
            ++ (renderFields pre ind d (.cons k2 v2 m)
              ++ (newline pre ind d2 ++ '}' :: rest)))) := by
      rw [renderFields]; simp
    rw [htext, parseMembers_entry]
    simp only [ih1, skipWs_keep ',' _ (by decide)]
    rw [← parseMembers_skip, hnl, parseMembers_skip, ih2]
    simp [asTreeFields]
end

/-! ## The text of a manifest read back -/

theorem numTok_length (t : Str) (h : NumTok t) : 1 ≤ t.length := by
  obtain ⟨⟨c, r, ht, _⟩, _, _⟩ := h
  rw [ht]; simp

theorem newline_length (pre ind : Str) (d : Nat) : 1 ≤ (newline pre ind d).length := by
  simp [newline]

theorem quote_length (s : Str) : 2 ≤ (quote s).length := by
  simp [quote]

mutual
/-- Parsing the text of a value takes no more recursion than the text is
long. -/
theorem needVal_le (pre ind : Str) : ∀ (v : GoVal) (d : Nat), WellFormed v →
    needVal v ≤ (renderVal pre ind d v).length
  | .null, _, _ => by simp [needVal, renderVal]
  | .bool true, _, _ => by simp [needVal, renderVal]
  | .bool false, _, _ => by simp [needVal, renderVal]
  | .num t, _, h => by simpa [needVal, renderVal] using numTok_length t h
  | .int n, _, _ => by simpa [needVal, renderVal] using numTok_length _ (numTok_intText n)
  | .str s, _, _ => by
    have := quote_length s
    simp only [needVal, renderVal]; omega
  | .arr .nil, _, _ => by simp [needVal, needVals, renderVal]
  | .obj .nil, _, _ => by simp [needVal, needFields, renderVal]
  | .arr (.cons v vs), d, h => by
    have ih := needVals_le pre ind (.cons v vs) (d + 1) (by simpa only [WellFormed] using h)
    have h1 := newline_length pre ind (d + 1)
    have h2 := newline_length pre ind d
    simp only [needVal, renderVal, List.length_cons, List.length_append, List.length_nil]
    omega
  | .obj (.cons k v m), d, h => by
    have ih := needFields_le pre ind (.cons k v m) (d + 1) (by simpa only [WellFormed] using h)
    have h1 := newline_length pre ind (d + 1)
    have h2 := newline_length pre ind d
    simp only [needVal, renderVal, List.length_cons, List.length_append, List.length_nil]
    omega
/-- The same for the elements of an array. -/
theorem needVals_le (pre ind : Str) : ∀ (xs : GoVals) (d : Nat), WellFormedVals xs →
    needVals xs ≤ (renderVals pre ind d xs).length + 1
  | .nil, _, _ => by simp [needVals]
  | .cons v .nil, d, h => by
    have ih := needVal_le pre ind v d h.1
    simp only [needVals, renderVals]
    omega
  | .cons v (.cons v2 vs), d, h => by
    have ih1 := needVal_le pre ind v d h.1
    have ih2 := needVals_le pre ind (.cons v2 vs) d h.2
    have h1 := newline_length pre ind d
    have e : needVals (.cons v (.cons v2 vs))
        = max (needVal v) (needVals (.cons v2 vs)) + 1 := by rw [needVals]
    rw [e, renderVals]
    simp only [List.length_cons, List.length_append]
    omega
/-- The same for the entries of a map. -/
theorem needFields_le (pre ind : Str) : ∀ (m : GoFields) (d : Nat), WellFormedFields m →
    needFields m ≤ (renderFields pre ind d m).length + 1
  | .nil, _, _ => by simp [needFields]
  | .cons k v .nil, d, h => by
    have ih := needVal_le pre ind v d h.1
    simp only [needFields, renderFields, List.length_cons, List.length_append]
    omega
  | .cons k v (.cons k2 v2 m), d, h => by
    have ih1 := needVal_le pre ind v d h.1
    have ih2 := needFields_le pre ind (.cons k2 v2 m) d h.2
    have e : needFields (.cons k v (.cons k2 v2 m))
        = max (needVal v) (needFields (.cons k2 v2 m)) + 1 := by rw [needFields]
    rw [e, renderFields]
    simp only [List.length_cons, List.length_append]
    omega
end

/-- The text that the encoder writes for a value is a JSON text, and its
tree is the tree of the value. -/
theorem parseJSON_renderVal (pre ind : Str) (hpre : ∀ c ∈ pre, isWs c = true)
    (hind : ∀ c ∈ ind, isWs c = true) (v : GoVal) (h : WellFormed v) :
    parseJSON (renderVal pre ind 0 v) = some (asTree v) := by
  have hfuel : needVal v ≤ 2 * (renderVal pre ind 0 v).length + 2 := by
    have := needVal_le pre ind v 0 h
    omega
  have := parse_renderVal pre ind (skipWs_newline pre ind hpre hind) v 0 _ [] h hfuel
    (by intro c r hc; cases hc)
  rw [List.append_nil] at this
  unfold parseJSON
  rw [this]
  rfl

theorem wf_set : ∀ (m : GoFields) (k : Str) (v : GoVal),
    WellFormedFields m → WellFormed v → WellFormedFields (m.set k v)
  | .nil, k, v, _, hv => by simpa [GoFields.set, WellFormedFields] using hv
  | .cons k2 v2 m, k, v, hm, hv => by
    unfold GoFields.set
    split
    · exact ⟨hv, hm.2⟩
    · exact ⟨hm.1, wf_set m k v hm.2 hv⟩

mutual
/-- The numbers of a decoded value are written as the parser reads them. -/
theorem wf_decodeVal : ∀ (v y : GoVal), decodeVal v = some y → WellFormed y
  | .null, y, h => by simp only [decodeVal, Option.some.injEq] at h; subst h; trivial
  | .bool b, y, h => by simp only [decodeVal, Option.some.injEq] at h; subst h; trivial
  | .int n, y, h => by simp only [decodeVal, Option.some.injEq] at h; subst h; trivial
  | .str s, y, h => by simp only [decodeVal, Option.some.injEq] at h; subst h; trivial
  | .num lit, y, h => by
    unfold decodeVal at h
    split at h
    · cases h
    · rename_i t ht
      cases h
      exact numTok_float64Text lit t ht
  | .arr xs, y, h => by
    unfold decodeVal at h
    split at h
    · cases h
    · rename_i ys hys
      cases h
      exact wf_decodeVals xs ys hys
  | .obj m, y, h => by
    unfold decodeVal at h
    split at h
    · cases h
    · rename_i m1 hm1
      cases h
      exact wf_decodeFields m .nil m1 hm1 trivial
/-- Element-wise. -/
theorem wf_decodeVals : ∀ (xs ys : GoVals), decodeVals xs = some ys → WellFormedVals ys
  | .nil, ys, h => by simp only [decodeVals, Option.some.injEq] at h; subst h; trivial
  | .cons v vs, ys, h => by
    unfold decodeVals at h
    split at h
    · rename_i y ys2 hy hys
      cases h
      exact ⟨wf_decodeVal v y hy, wf_decodeVals vs ys2 hys⟩
    · cases h
/-- Entry-wise, into a map that is well-formed already. -/
theorem wf_decodeFields : ∀ (m acc r : GoFields), decodeFields acc m = some r →
    WellFormedFields acc → WellFormedFields r
  | .nil, acc, r, h, hacc => by
    simp only [decodeFields, Option.some.injEq] at h; subst h; exact hacc
  | .cons k v m, acc, r, h, hacc => by
    unfold decodeFields at h
    split at h
    · cases h
    · rename_i y hy
      exact wf_decodeFields m _ r h (wf_set acc k y hacc (wf_decodeVal v y hy))
end

theorem wf_insertField (k : Str) (v : GoVal) (hv : WellFormed v) : ∀ (m : GoFields),
    WellFormedFields m → WellFormedFields (insertField k v m)
  | .nil, _ => ⟨hv, trivial⟩
  | .cons k2 v2 m, hm => by
    unfold insertField
    split
    · exact ⟨hv, hm.2⟩
    · split
      · exact ⟨hv, hm⟩
      · exact ⟨hm.1, wf_insertField k v hv m hm.2⟩

mutual
/-- Sorting the keys keeps the numbers as they are. -/
theorem wf_canonVal : ∀ (v : GoVal), WellFormed v → WellFormed (canonVal v)
  | .null, h => h
  | .bool _, h => h
  | .num _, h => h
  | .int _, h => h
  | .str _, h => h
  | .arr xs, h => by
    simp only [canonVal, WellFormed] at h ⊢
    exact wf_canonVals xs h
  | .obj m, h => by
    simp only [canonVal, WellFormed] at h ⊢
    exact wf_canonFields m h
/-- Element-wise. -/
theorem wf_canonVals : ∀ (xs : GoVals), WellFormedVals xs → WellFormedVals (canonVals xs)
  | .nil, h => h
  | .cons v vs, h => ⟨wf_canonVal v h.1, wf_canonVals vs h.2⟩
/-- Entry-wise. -/
theorem wf_canonFields : ∀ (m : GoFields), WellFormedFields m → WellFormedFields (canonFields m)
  | .nil, h => h
  | .cons k v m, h => by
    simp only [canonFields]
    exact wf_insertField k _ (wf_canonVal v h.1) _ (wf_canonFields m h.2)
end

theorem wf_geometry (a b c : Int) : WellFormed (geometry a b c) := by
  simp [geometry, WellFormed, WellFormedFields]

theorem wf_mergeManifest (m : GoFields) (r : GenerationResult) (h : WellFormedFields m) :
    WellFormedFields (mergeManifest m r) :=
  wf_set _ _ _ (wf_set _ _ _ h (wf_geometry _ _ _)) (wf_geometry _ _ _)

theorem keys_asTreeFields : ∀ (m : GoFields), (asTreeFields m).keys = m.keys
  | .nil => rfl
  | .cons k v m => by simp [asTreeFields, GoFields.keys, keys_asTreeFields m]

mutual
/-- The tree of a value has its keys in the order of the value. -/
theorem sorted_asTree : ∀ (v : GoVal), sortedVal (asTree v) = sortedVal v
  | .null => rfl
  | .bool _ => rfl
  | .num _ => rfl
  | .int _ => rfl
  | .str _ => rfl
  | .arr xs => by simp only [asTree, sortedVal]; exact sorted_asTrees xs
  | .obj m => by
    simp only [asTree, sortedVal, keys_asTreeFields]; rw [sorted_asTreeFields m]
/-- Element-wise. -/
theorem sorted_asTrees : ∀ (xs : GoVals), sortedVals (asTrees xs) = sortedVals xs
  | .nil => rfl
  | .cons v vs => by simp only [asTrees, sortedVals, sorted_asTree v, sorted_asTrees vs]
/-- Entry-wise. -/
theorem sorted_asTreeFields : ∀ (m : GoFields), sortedFields (asTreeFields m) = sortedFields m
  | .nil => rfl
  | .cons k v m => by
    simp only [asTreeFields, sortedFields, sorted_asTree v, sorted_asTreeFields m]
end

/-! ## The layout of what the encoder writes -/

theorem repeatStr_two (d : Nat) : repeatStr d [' ', ' '] = List.replicate (2 * d) ' ' := by
  induction d with
  | zero => rfl
  | succ d ih =>
    rw [repeatStr, ih, show 2 * (d + 1) = (2 * d + 1) + 1 by omega, List.replicate_succ,
      List.replicate_succ]
    rfl

theorem newline_two (d : Nat) (x : Str) :
    newline [] [' ', ' '] d ++ x = '\n' :: (List.replicate (2 * d) ' ' ++ x) := by
  simp [newline, repeatStr_two]

theorem takeWhile_spaces (k : Nat) (c : Char) (y : Str) (hc : c ≠ ' ') :
    (List.replicate k ' ' ++ c :: y).takeWhile (· = ' ') = List.replicate k ' '
      ∧ (List.replicate k ' ' ++ c :: y).dropWhile (· = ' ') = c :: y := by
  induction k with
  | zero =>
    simp only [List.replicate_zero, List.nil_append, List.takeWhile_cons, List.dropWhile_cons]
    have : decide (c = ' ') = false := by simpa using hc
    simp [this]
  | succ k ih =>
    simp only [List.replicate_succ, List.cons_append, List.takeWhile_cons, List.dropWhile_cons,
      decide_True, if_true, ih.1, ih.2, and_self]

theorem lineStart_spaces (width depth k : Nat) (c : Char) (y : Str) (hc : c ≠ ' ') :
    lineStart width depth (List.replicate k ' ' ++ c :: y)
      = if c = '}' ∨ c = ']' then decide (k = width * (depth - 1))
        else decide (k = width * depth) := by
  unfold lineStart
  obtain ⟨h1, h2⟩ := takeWhile_spaces k c y hc
  rw [h1, h2]
  simp only [List.length_replicate]

theorem scan_spaces (width depth k : Nat) (x : Str) :
    indentedBy width .outside depth (List.replicate k ' ' ++ x)
      = indentedBy width .outside depth x := by
  induction k with
  | zero => rfl
  | succ k ih =>
    rw [List.replicate_succ, List.cons_append, indentedBy]
    simp only [show (' ' : Char) ≠ '"' by decide, show ¬ ((' ' : Char) = '{' ∨ (' ' : Char) = '[') by decide,
      show ¬ ((' ' : Char) = '}' ∨ (' ' : Char) = ']') by decide, show (' ' : Char) ≠ '\n' by decide,
      show (' ' : Char) ≠ ',' by decide, if_false, ih]

/-- The line break in front of an element or an entry. -/
theorem scan_newline_open (d : Nat) (c : Char) (y : Str) (hc : c ≠ ' ')
    (hc2 : ¬ (c = '}' ∨ c = ']')) :
    indentedBy 2 .outside d (newline [] [' ', ' '] d ++ c :: y)
      = indentedBy 2 .outside d (c :: y) := by
  rw [newline_two, indentedBy]
  simp only [show ('\n' : Char) ≠ '"' by decide,
    show ¬ (('\n' : Char) = '{' ∨ ('\n' : Char) = '[') by decide,
    show ¬ (('\n' : Char) = '}' ∨ ('\n' : Char) = ']') by decide, if_false, if_true]
  rw [lineStart_spaces 2 d (2 * d) c y hc, if_neg hc2, scan_spaces]
  simp

/-- The line break in front of a closing bracket. -/
theorem scan_newline_close (d : Nat) (c : Char) (y : Str) (hc2 : c = '}' ∨ c = ']') :
    indentedBy 2 .outside (d + 1) (newline [] [' ', ' '] d ++ c :: y)
      = indentedBy 2 .outside d y := by
  have hc : c ≠ ' ' := by rcases hc2 with rfl | rfl <;> decide
  have hq : c ≠ '"' := by rcases hc2 with rfl | rfl <;> decide
  have ho : ¬ (c = '{' ∨ c = '[') := by rcases hc2 with rfl | rfl <;> decide
  rw [newline_two, indentedBy]
  simp only [show ('\n' : Char) ≠ '"' by decide,
    show ¬ (('\n' : Char) = '{' ∨ ('\n' : Char) = '[') by decide,
    show ¬ (('\n' : Char) = '}' ∨ ('\n' : Char) = ']') by decide, if_false, if_true]
  rw [lineStart_spaces 2 (d + 1) (2 * d) c y hc, if_pos hc2, scan_spaces, indentedBy]
  simp only [hq, ho, hc2, if_false, if_true, Nat.add_sub_cancel, decide_True, Bool.true_and]

theorem hexDigit_plain (k : Nat) (hk : k < 16) : hexDigit k ≠ '\\' ∧ hexDigit k ≠ '"' := by
  interval_cases k <;> decide

theorem scan_inString_char (width d : Nat) (c : Char) (x : Str) (h1 : c ≠ '\\') (h2 : c ≠ '"') :
    indentedBy width .inString d (c :: x) = indentedBy width .inString d x := by
  rw [indentedBy]
  simp only [h1, h2, if_false]

theorem scan_escape (width d : Nat) (c : Char) (x : Str) :
    indentedBy width .inString d ('\\' :: c :: x) = indentedBy width .inString d x := by
  rw [indentedBy]
  simp only [if_true]
  rw [indentedBy]

/-- One encoded character keeps the scan inside the string. -/
theorem scan_escapeChar (width d : Nat) (c : Char) (x : Str) :
    indentedBy width .inString d (escapeChar c ++ x) = indentedBy width .inString d x := by
  by_cases h1 : c = '"'
  · subst h1
    have : escapeChar '"' = ['\\', '"'] := by decide
    rw [this]; exact scan_escape width d _ x
  by_cases h2 : c = '\\'
  · subst h2
    have : escapeChar '\\' = ['\\', '\\'] := by decide
    rw [this]; exact scan_escape width d _ x
  by_cases h3 : c = '\n'
  · subst h3
    have : escapeChar '\n' = ['\\', 'n'] := by decide
    rw [this]; exact scan_escape width d _ x
  by_cases h4 : c = '\r'
  · subst h4
    have : escapeChar '\r' = ['\\', 'r'] := by decide
    rw [this]; exact scan_escape width d _ x
  by_cases h5 : c = '\t'
  · subst h5
    have : escapeChar '\t' = ['\\', 't'] := by decide
    rw [this]; exact scan_escape width d _ x
  by_cases h6 : c = Char.ofNat 8
  · subst h6
    have : escapeChar (Char.ofNat 8) = ['\\', 'b'] := by decide
    rw [this]; exact scan_escape width d _ x
  by_cases h7 : c = Char.ofNat 12
  · subst h7
    have : escapeChar (Char.ofNat 12) = ['\\', 'f'] := by decide
    rw [this]; exact scan_escape width d _ x
  by_cases h8 : c.toNat < 32 ∨ c = '<' ∨ c = '>' ∨ c = '&' ∨ c.toNat = 0x2028 ∨ c.toNat = 0x2029
  · have : escapeChar c = ['\\', 'u', hexDigit (c.toNat / 4096 % 16),
        hexDigit (c.toNat / 256 % 16), hexDigit (c.toNat / 16 % 16), hexDigit (c.toNat % 16)] := by
      unfold escapeChar
      simp only [h1, h2, h3, h4, h5, h6, h7, if_false, h8, if_true]
    rw [this]
    simp only [List.cons_append, List.nil_append]
    rw [scan_escape,
      scan_inString_char _ _ _ _ (hexDigit_plain _ (Nat.mod_lt _ (by decide))).1
        (hexDigit_plain _ (Nat.mod_lt _ (by decide))).2,
      scan_inString_char _ _ _ _ (hexDigit_plain _ (Nat.mod_lt _ (by decide))).1
        (hexDigit_plain _ (Nat.mod_lt _ (by decide))).2,
      scan_inString_char _ _ _ _ (hexDigit_plain _ (Nat.mod_lt _ (by decide))).1
        (hexDigit_plain _ (Nat.mod_lt _ (by decide))).2,
      scan_inString_char _ _ _ _ (hexDigit_plain _ (Nat.mod_lt _ (by decide))).1
        (hexDigit_plain _ (Nat.mod_lt _ (by decide))).2]
  · have : escapeChar c = [c] := by
      unfold escapeChar
      simp only [h1, h2, h3, h4, h5, h6, h7, if_false, h8]
    rw [this]
    exact scan_inString_char width d c x h2 h1

/-- An encoded string is passed over as a whole. -/
theorem scan_quote (width d : Nat) (s x : Str) :
    indentedBy width .outside d (quote s ++ x) = indentedBy width .outside d x := by
  unfold quote
  rw [List.cons_append, List.append_assoc, List.singleton_append, indentedBy]
  simp only [if_true]
  induction s with
  | nil =>
    simp only [List.flatMap_nil, List.nil_append]
    rw [indentedBy]
    simp only [show ('"' : Char) ≠ '\\' by decide, if_false, if_true]
  | cons c s ih =>
    rw [List.flatMap_cons, List.append_assoc, scan_escapeChar, ih]

theorem scan_plainChar (width d : Nat) (c : Char) (x : Str) (h : isPlainChar c = true) :
    indentedBy width .outside d (c :: x) = indentedBy width .outside d x := by
  unfold isPlainChar at h
  simp only [Bool.and_eq_true, bne_iff_ne, ne_eq] at h
  obtain ⟨⟨⟨⟨⟨⟨⟨h1, h2⟩, h3⟩, h4⟩, h5⟩, h6⟩, h7⟩, _⟩ := h
  rw [indentedBy]
  simp only [h1, h2, h3, h4, h5, h6, h7, if_false, or_self]

theorem scan_plain (width d : Nat) (a x : Str) (h : ∀ c ∈ a, isPlainChar c = true) :
    indentedBy width .outside d (a ++ x) = indentedBy width .outside d x := by
  induction a with
  | nil => rfl
  | cons c a ih =>
    rw [List.cons_append, scan_plainChar _ _ _ _ (h c (List.mem_cons_self _ _)),
      ih (fun e he => h e (List.mem_cons_of_mem _ he))]

/-- A comma with the line break behind it. -/
theorem scan_comma (d : Nat) (y : Str) :
    indentedBy 2 .outside d (',' :: (newline [] [' ', ' '] d ++ y))
      = indentedBy 2 .outside d (newline [] [' ', ' '] d ++ y) := by
  rw [indentedBy]
  simp only [show (',' : Char) ≠ '"' by decide,
    show ¬ ((',' : Char) = '{' ∨ (',' : Char) = '[') by decide,
    show ¬ ((',' : Char) = '}' ∨ (',' : Char) = ']') by decide,
    show (',' : Char) ≠ '\n' by decide, if_false, if_true]
  rw [newline_two]
  simp [atLineBreak]

theorem renderVal_head_open (d : Nat) (v : GoVal) (h : WellFormed v) :
    ∃ c x, renderVal [] [' ', ' '] d v = c :: x ∧ c ≠ ' ' ∧ ¬ (c = '}' ∨ c = ']') := by
  obtain ⟨c, x, hx, hw, h1, h2⟩ := renderVal_head [] [' ', ' '] d v h
  refine ⟨c, x, hx, ?_, ?_⟩
  · intro hc; subst hc; exact absurd hw (by decide)
  · rintro (hc | hc)
    · exact h2 hc
    · exact h1 hc

mutual
/-- The text of a value is indented by two spaces per level. -/
theorem scan_renderVal : ∀ (v : GoVal) (d : Nat) (x : Str), WellFormed v →
    indentedBy 2 .outside d (renderVal [] [' ', ' '] d v ++ x) = indentedBy 2 .outside d x
  | .null, d, x, _ => scan_plain 2 d "null".toList x (by decide)
  | .bool true, d, x, _ => scan_plain 2 d "true".toList x (by decide)
  | .bool false, d, x, _ => scan_plain 2 d "false".toList x (by decide)
  | .num t, d, x, h => scan_plain 2 d t x h.2.2
  | .int n, d, x, _ => scan_plain 2 d _ x (numTok_intText n).2.2
  | .str s, d, x, _ => scan_quote 2 d s x
  | .arr .nil, d, x, _ => by
    simp only [renderVal, String.toList, List.cons_append, List.nil_append]
    rw [indentedBy]
    simp only [show ('[' : Char) ≠ '"' by decide, if_false, or_true, if_true, afterOpen,
      Bool.true_and]
    rw [indentedBy]
    simp only [show (']' : Char) ≠ '"' by decide,
      show ¬ ((']' : Char) = '{' ∨ (']' : Char) = '[') by decide, if_false, or_true, if_true,
      Nat.add_sub_cancel]
  | .obj .nil, d, x, _ => by
    simp only [renderVal, List.cons_append, List.nil_append]
    rw [indentedBy]
    simp only [show ('{' : Char) ≠ '"' by decide, if_false, true_or, if_true, afterOpen,
      Bool.true_and]
    rw [indentedBy]
    simp only [show ('}' : Char) ≠ '"' by decide,
      show ¬ (('}' : Char) = '{' ∨ ('}' : Char) = '[') by decide, if_false, true_or, if_true,
      Nat.add_sub_cancel]
  | .arr (.cons v vs), d, x, h => by
    have hwf : WellFormedVals (.cons v vs) := by simpa only [WellFormed] using h
    have ih := scan_renderVals (.cons v vs) (d + 1)
      (newline [] [' ', ' '] d ++ ']' :: x) hwf
    obtain ⟨c, y, hy, hc, hc2⟩ : ∃ c y, renderVals [] [' ', ' '] (d + 1) (.cons v vs) = c :: y
        ∧ c ≠ ' ' ∧ ¬ (c = '}' ∨ c = ']') := by
      obtain ⟨c, y, hy, hc, hc2⟩ := renderVal_head_open (d + 1) v hwf.1
      cases vs with
      | nil => exact ⟨c, y, by simp [renderVals, hy], hc, hc2⟩
      | cons v2 vs =>
        exact ⟨c, y ++ ',' :: (newline [] [' ', ' '] (d + 1)
          ++ renderVals [] [' ', ' '] (d + 1) (.cons v2 vs)), by simp [renderVals, hy], hc, hc2⟩
    have htext : renderVal [] [' ', ' '] d (.arr (.cons v vs)) ++ x
        = '[' :: (newline [] [' ', ' '] (d + 1) ++ (renderVals [] [' ', ' '] (d + 1) (.cons v vs)
            ++ (newline [] [' ', ' '] d ++ ']' :: x))) := by
      simp [renderVal]
    rw [htext, indentedBy]
    simp only [show ('[' : Char) ≠ '"' by decide, if_false, or_true, if_true]
    rw [show afterOpen (newline [] [' ', ' '] (d + 1)
        ++ (renderVals [] [' ', ' '] (d + 1) (.cons v vs)
          ++ (newline [] [' ', ' '] d ++ ']' :: x))) = true by rw [newline_two]; rfl,
      Bool.true_and]
    rw [hy, List.cons_append, scan_newline_open (d + 1) c _ hc hc2, ← List.cons_append, ← hy, ih,
      scan_newline_close d ']' x (Or.inr rfl)]
  | .obj (.cons k v m), d, x, h => by
    have hwf : WellFormedFields (.cons k v m) := by simpa only [WellFormed] using h
    have ih := scan_renderFields (.cons k v m) (d + 1)
      (newline [] [' ', ' '] d ++ '}' :: x) hwf
    obtain ⟨y, hy⟩ := renderFields_head [] [' ', ' '] (d + 1) k v m
    have htext : renderVal [] [' ', ' '] d (.obj (.cons k v m)) ++ x
        = '{' :: (newline [] [' ', ' '] (d + 1) ++ (renderFields [] [' ', ' '] (d + 1) (.cons k v m)
            ++ (newline [] [' ', ' '] d ++ '}' :: x))) := by
      simp [renderVal]
    rw [htext, indentedBy]
    simp only [show ('{' : Char) ≠ '"' by decide, if_false, true_or, if_true]
    rw [show afterOpen (newline [] [' ', ' '] (d + 1)
        ++ (renderFields [] [' ', ' '] (d + 1) (.cons k v m)
          ++ (newline [] [' ', ' '] d ++ '}' :: x))) = true by rw [newline_two]; rfl,
      Bool.true_and]
    rw [hy, List.cons_append, scan_newline_open (d + 1) '"' _ (by decide) (by decide),
      ← List.cons_append, ← hy, ih, scan_newline_close d '}' x (Or.inl rfl)]
/-- The same for the elements of an array. -/
theorem scan_renderVals : ∀ (xs : GoVals) (d : Nat) (x : Str), WellFormedVals xs →
    indentedBy 2 .outside d (renderVals [] [' ', ' '] d xs ++ x) = indentedBy 2 .outside d x
  | .nil, d, x, _ => rfl
  | .cons v .nil, d, x, h => by
    simp only [renderVals]
    exact scan_renderVal v d x h.1
  | .cons v (.cons v2 vs), d, x, h => by
    have ih1 := scan_renderVal v d (',' :: (newline [] [' ', ' '] d
      ++ (renderVals [] [' ', ' '] d (.cons v2 vs) ++ x))) h.1
    have ih2 := scan_renderVals (.cons v2 vs) d x h.2
    obtain ⟨c, y, hy, hc, hc2⟩ : ∃ c y, renderVals [] [' ', ' '] d (.cons v2 vs) = c :: y
        ∧ c ≠ ' ' ∧ ¬ (c = '}' ∨ c = ']') := by
      obtain ⟨c, y, hy, hc, hc2⟩ := renderVal_head_open d v2 h.2.1
      cases vs with
      | nil => exact ⟨c, y, by simp [renderVals, hy], hc, hc2⟩
      | cons v3 vs =>
        exact ⟨c, y ++ ',' :: (newline [] [' ', ' '] d
          ++ renderVals [] [' ', ' '] d (.cons v3 vs)), by simp [renderVals, hy], hc, hc2⟩
    have htext : renderVals [] [' ', ' '] d (.cons v (.cons v2 vs)) ++ x
        = renderVal [] [' ', ' '] d v ++ ',' :: (newline [] [' ', ' '] d
            ++ (renderVals [] [' ', ' '] d (.cons v2 vs) ++ x)) := by
      rw [renderVals]; simp
    rw [htext, ih1, scan_comma, hy, List.cons_append,
      scan_newline_open d c _ hc hc2, ← List.cons_append, ← hy, ih2]
/-- The same for the entries of a map. -/
theorem scan_renderFields : ∀ (m : GoFields) (d : Nat) (x : Str), WellFormedFields m →
    indentedBy 2 .outside d (renderFields [] [' ', ' '] d m ++ x) = indentedBy 2 .outside d x
  | .nil, d, x, _ => rfl
  | .cons k v .nil, d, x, h => by
    have ih := scan_renderVal v d x h.1
    have htext : renderFields [] [' ', ' '] d (.cons k v .nil) ++ x
        = quote k ++ ':' :: (List.replicate 1 ' ' ++ (renderVal [] [' ', ' '] d v ++ x)) := by
      rw [renderFields]; simp
    rw [htext, scan_quote, scan_plainChar 2 d ':' _ (by decide), scan_spaces, ih]
  | .cons k v (.cons k2 v2 m), d, x, h => by
    have ih1 := scan_renderVal v d (',' :: (newline [] [' ', ' '] d
      ++ (renderFields [] [' ', ' '] d (.cons k2 v2 m) ++ x))) h.1
    have ih2 := scan_renderFields (.cons k2 v2 m) d x h.2
    obtain ⟨y, hy⟩ := renderFields_head [] [' ', ' '] d k2 v2 m
    have htext : renderFields [] [' ', ' '] d (.cons k v (.cons k2 v2 m)) ++ x
        = quote k ++ ':' :: (List.replicate 1 ' ' ++ (renderVal [] [' ', ' '] d v
            ++ ',' :: (newline [] [' ', ' '] d
              ++ (renderFields [] [' ', ' '] d (.cons k2 v2 m) ++ x)))) := by
      rw [renderFields]; simp
    rw [htext, scan_quote, scan_plainChar 2 d ':' _ (by decide), scan_spaces, ih1,
      scan_comma, hy, List.cons_append,
      scan_newline_open d '"' _ (by decide) (by decide), ← List.cons_append, ← hy, ih2]
end

/-- The text that the encoder writes for a value, with two spaces as the
indent, has every line indented by two spaces per level. -/
theorem indentedBy_renderVal (v : GoVal) (h : WellFormed v) :
    indentedBy 2 .outside 0 (renderVal [] [' ', ' '] 0 v) = true := by
  have := scan_renderVal v 0 [] h
  rw [List.append_nil] at this
  rw [this]
  rfl

/-! ## Key order of the encoder -/

theorem char_toNat_inj (a b : Char) (h : a.toNat = b.toNat) : a = b := by
  have := congrArg Char.ofNat h
  simpa using this

theorem strLt_total : ∀ (a b : Str), strLt a b = false → a ≠ b → strLt b a = true
  | [], [], _, h => absurd rfl h
  | [], _ :: _, h, _ => by simp [strLt] at h
  | _ :: _, [], _, _ => by simp [strLt]
  | a :: as, b :: bs, h, hne => by
    unfold strLt at h ⊢
    by_cases h1 : a.toNat < b.toNat
    · simp [h1] at h
    · by_cases h2 : a = b
      · subst h2
        have hlt : ¬ a.toNat < a.toNat := Nat.lt_irrefl _
        simp only [hlt, if_false, if_true] at h ⊢
        exact strLt_total as bs h (fun h3 => hne (by rw [h3]))
      · have h3 : b.toNat < a.toNat := by
          have : a.toNat ≠ b.toNat := fun h4 => h2 (char_toNat_inj a b h4)
          omega
        simp [h3]

theorem GoFields.induct {P : GoFields → Prop} (hnil : P .nil)
    (hcons : ∀ k v m, P m → P (.cons k v m)) : ∀ m, P m
  | .nil => hnil
  | .cons k v m => hcons k v m (GoFields.induct hnil hcons m)

theorem mem_keys_insertField (k : Str) (v : GoVal) (key : Str) (m : GoFields) :
    key ∈ (insertField k v m).keys ↔ key = k ∨ key ∈ m.keys := by
  induction m using GoFields.induct with
  | hnil => simp [insertField, GoFields.keys]
  | hcons k2 v2 m ih =>
    unfold insertField
    by_cases h1 : k = k2
    · subst h1; simp [GoFields.keys]
    · rw [if_neg h1]
      by_cases h2 : strLt k k2 = true
      · simp [h2, GoFields.keys]
      · simp only [h2, Bool.false_eq_true, if_false, GoFields.keys, List.mem_cons, ih]
        tauto

theorem mem_keys_canonFields (key : Str) (m : GoFields) :
    key ∈ (canonFields m).keys ↔ key ∈ m.keys := by
  induction m using GoFields.induct with
  | hnil => simp [canonFields, GoFields.keys]
  | hcons k v m ih => simp [canonFields, GoFields.keys, mem_keys_insertField, ih]

theorem mem_keys_set (k : Str) (v : GoVal) (key : Str) (m : GoFields) :
    key ∈ (m.set k v).keys ↔ key = k ∨ key ∈ m.keys := by
  induction m using GoFields.induct with
  | hnil => simp [GoFields.set, GoFields.keys]
  | hcons k2 v2 m ih =>
    unfold GoFields.set
    by_cases h1 : k = k2
    · subst h1; simp [GoFields.keys]
    · simp only [h1, if_false, GoFields.keys, List.mem_cons, ih]
      tauto

theorem mem_keys_decodeFields (key : Str) (m : GoFields) :
    ∀ acc r, decodeFields acc m = some r → (key ∈ r.keys ↔ key ∈ acc.keys ∨ key ∈ m.keys) := by
  induction m using GoFields.induct with
  | hnil =>
    intro acc r h
    simp only [decodeFields, Option.some.injEq] at h
    subst h
    simp [GoFields.keys]
  | hcons k v m ih =>
    intro acc r h
    unfold decodeFields at h
    split at h
    · cases h
    · rw [ih _ _ h, mem_keys_set]
      simp only [GoFields.keys, List.mem_cons]
      tauto

/-- The keys after an insertion: the new key in front, or the old first key
still in front. -/
theorem keys_insertField_head (k : Str) (v : GoVal) (m : GoFields) :
    (insertField k v m).keys.head? = some k ∨ (insertField k v m).keys.head? = m.keys.head? := by
  cases m with
  | nil => left; simp [insertField, GoFields.keys]
  | cons k2 v2 m =>
    unfold insertField
    by_cases h1 : k = k2
    · subst h1; left; simp [GoFields.keys]
    · rw [if_neg h1]
      by_cases h2 : strLt k k2 = true
      · left; simp [h2, GoFields.keys]
      · right; simp [h2, GoFields.keys]

theorem ascending_cons (a : Str) (l : List Str) (hl : ascending l = true)
    (hh : ∀ b, l.head? = some b → strLt a b = true) : ascending (a :: l) = true := by
  cases l with
  | nil => rfl
  | cons b rest =>
    simp only [ascending, Bool.and_eq_true]
    exact ⟨hh b rfl, hl⟩

theorem ascending_tail (a : Str) (l : List Str) (h : ascending (a :: l) = true) :
    ascending l = true ∧ ∀ b, l.head? = some b → strLt a b = true := by
  cases l with
  | nil => simp [ascending]
  | cons b rest =>
    simp only [ascending, Bool.and_eq_true] at h
    exact ⟨h.2, fun c hc => by simp at hc; subst hc; exact h.1⟩

theorem ascending_insertField (k : Str) (v : GoVal) (m : GoFields)
    (h : ascending m.keys = true) : ascending (insertField k v m).keys = true := by
  induction m using GoFields.induct with
  | hnil => simp [insertField, GoFields.keys, ascending]
  | hcons k2 v2 m ih =>
    have ht := ascending_tail k2 m.keys h
    unfold insertField
    by_cases h1 : k = k2
    · subst h1; simpa [GoFields.keys] using h
    · rw [if_neg h1]
      by_cases h2 : strLt k k2 = true
      · simp only [h2, if_true, GoFields.keys]
        exact ascending_cons _ _ h (fun b hb => by simp at hb; subst hb; exact h2)
      · simp only [h2, Bool.false_eq_true, if_false, GoFields.keys]
        apply ascending_cons _ _ (ih ht.1)
        intro b hb
        rcases keys_insertField_head k v m with h3 | h3
        · rw [h3] at hb
          cases hb
          exact strLt_total _ _ (by simpa using h2) h1
        · rw [h3] at hb
          exact ht.2 b hb

theorem sortedFields_insertField (k : Str) (v : GoVal) (m : GoFields)
    (hv : sortedVal v = true) (h : sortedFields m = true) :
    sortedFields (insertField k v m) = true := by
  induction m using GoFields.induct with
  | hnil => simp [insertField, sortedFields, hv]
  | hcons k2 v2 m ih =>
    simp only [sortedFields, Bool.and_eq_true] at h
    unfold insertField
    by_cases h1 : k = k2
    · simp [h1, sortedFields, hv, h.2]
    · rw [if_neg h1]
      by_cases h2 : strLt k k2 = true
      · simp [h2, sortedFields, hv, h.1, h.2]
      · simp [h2, sortedFields, h.1, ih h.2]

mutual
theorem sorted_canonVal : ∀ v : GoVal, sortedVal (canonVal v) = true
  | .null => rfl
  | .bool _ => rfl
  | .num _ => rfl
  | .int _ => rfl
  | .str _ => rfl
  | .arr xs => by
    simp only [canonVal, sortedVal]
    exact sorted_canonVals xs
  | .obj m => by
    simp only [canonVal, sortedVal, Bool.and_eq_true]
    exact sorted_canonFields m
theorem sorted_canonVals : ∀ vs : GoVals, sortedVals (canonVals vs) = true
  | .nil => rfl
  | .cons v vs => by
    simp only [canonVals, sortedVals, Bool.and_eq_true]
    exact ⟨sorted_canonVal v, sorted_canonVals vs⟩
theorem sorted_canonFields : ∀ m : GoFields,
    ascending (canonFields m).keys = true ∧ sortedFields (canonFields m) = true
  | .nil => ⟨rfl, rfl⟩
  | .cons k v m => by
    have ih := sorted_canonFields m
    have hv := sorted_canonVal v
    simp only [canonFields]
    exact ⟨ascending_insertField _ _ _ ih.1, sortedFields_insertField _ _ _ hv ih.2⟩
end

theorem jsonUnmarshal_some (info : Bytes) (m : GoFields)
    (h : jsonUnmarshal info = .ok (some m)) :
    ∃ raw, parseJSON info = some (.obj raw) ∧ decodeFields .nil raw = some m := by
  unfold jsonUnmarshal at h
  cases hp : parseJSON info with
  | none => rw [hp] at h; cases h
  | some tree =>
    rw [hp] at h
    simp only at h
    split at h
    · cases h
    · cases tree with
      | obj raw =>
        simp only at h
        cases hd : decodeFields .nil raw with
        | none => rw [hd] at h; cases h
        | some m1 =>
          rw [hd] at h
          cases h
          exact ⟨raw, rfl, hd⟩
      | null => cases h
      | bool b => cases h
      | num t => cases h
      | int n => cases h
      | str t => cases h
      | arr xs => cases h

theorem mem_keys_mergeManifest (key : Str) (m : GoFields) (r : GenerationResult) :
    key ∈ (mergeManifest m r).keys
      ↔ key = "map".toList ∨ key = "mini_map".toList ∨ key ∈ m.keys := by
  unfold mergeManifest
  rw [mem_keys_set, mem_keys_set]
  tauto

/-- What a successful write leaves at its path: a file with the data. -/
theorem writeFile_stat (fs fs1 : FS) (p : Str) (data : Bytes)
    (h : writeFile fs p data = .ok fs1) : ∃ perm, stat fs1 p = some (.file data perm) := by
  unfold writeFile at h
  cases hr : resolve fs p with
  | none => rw [hr] at h; cases h
  | some r =>
    rw [hr] at h
    simp only at h
    have hnl := resolveAux_not_link fs 41 p r hr
    have key : ∀ perm, fs1 = fs.put r (.file data perm) → stat fs1 p = some (.file data perm) := by
      intro perm hfs
      subst hfs
      unfold stat
      have : resolve (fs.put r (.file data perm)) p = resolve fs p := by
        apply resolve_congr
        intro q
        by_cases hq : q = r
        · subst hq
          exact Or.inr ⟨hnl, by intro t ht; rw [put_node_same] at ht; cases ht⟩
        · exact Or.inl (put_node_other _ _ _ _ hq)
      rw [this, hr]
      exact put_node_same _ _ _
    split at h
    · rename_i old perm hn
      split at h
      · cases h; exact ⟨perm, key perm rfl⟩
      · cases h
    · cases h
    · cases h
    · split at h
      · cases h
      · split at h
        · cases h
        · cases h; exact ⟨_, key _ rfl⟩

theorem writeFile_fileAt (fs fs1 : FS) (p : Str) (data : Bytes)
    (h : writeFile fs p data = .ok fs1) : fileAt fs1 p = data := by
  obtain ⟨perm, hs⟩ := writeFile_stat fs fs1 p data h
  unfold fileAt
  rw [hs]

/-- The manifest found in `info.json` and merged is written with its numbers
as the parser reads them. -/
theorem wf_manifest (info : Bytes) (m : GoFields) (r : GenerationResult)
    (h : jsonUnmarshal info = .ok (some m)) :
    WellFormed (canonVal (.obj (mergeManifest m r))) := by
  obtain ⟨raw, _, hm⟩ := jsonUnmarshal_some info m h
  apply wf_canonVal
  simp only [WellFormed]
  exact wf_mergeManifest m r (wf_decodeFields raw .nil m hm trivial)

theorem isWs_two_spaces : ∀ c ∈ [' ', ' '], isWs c = true := by decide

/-- The text written for a manifest, read back: its tree is the merged
manifest with the keys of every map in ascending order. -/
theorem parseJSON_manifest (info : Bytes) (m : GoFields) (r : GenerationResult)
    (h : jsonUnmarshal info = .ok (some m)) :
    parseJSON (renderVal [] [' ', ' '] 0 (canonVal (.obj (mergeManifest m r))))
      = some (asTree (canonVal (.obj (mergeManifest m r)))) :=
  parseJSON_renderVal [] [' ', ' '] (by simp) isWs_two_spaces _ (wf_manifest info m r h)

theorem fsOf_node_mem (cwd : Option Str) (entries : List (Str × Node)) (q : Str) (n : Node)
    (h : (fsOf cwd entries).node q = some n) : (q, n) ∈ entries := by
  simp only [fsOf, Option.map_eq_some'] at h
  obtain ⟨e, he, rfl⟩ := h
  have h1 := List.mem_of_find?_eq_some he
  have h2 := List.find?_some he
  simp only [decide_eq_true_eq] at h2
  rw [← h2]
  exact h1

/-- A file system without links has no path with a second name. -/
theorem unaliased_of_no_links (fs : FS) (h : ∀ q t, fs.node q ≠ some (.link t)) (p : Str) :
    Unaliased fs p :=
  fun r _ => ⟨fun t => h r t, fun q t hq => absurd hq (h q t)⟩

theorem sampleWorld_no_links : ∀ q t, sampleWorld.fs.node q ≠ some (.link t) := by
  intro q t h
  have := fsOf_node_mem _ _ _ _ h
  revert this
  simp [sampleEntries]

/-- The manifest of `annecy` in `sampleWorld` after the two assignments. -/
theorem sample_serialized :
    serialized (callsSince sampleWorld
        (processMap sampleEngine "annecy".toList false sampleWorld).2)
      = [(GoFields.cons "b".toList (.num "1.5".toList)
          (.cons "a".toList (.obj (.cons "z".toList (.bool true)
              (.cons "y".toList .null .nil)))
            (.cons "map".toList (geometry 4 2 5)
              (.cons "mini_map".toList (geometry 2 1 1) .nil))))] := by
  rfl

/-! # The claims -/

/-- C1: the manifest that `processMap` hands to `json.MarshalIndent` is the
manifest decoded from `info.json` with the keys `"map"` and `"mini_map"` set
to the geometry of the engine result: lookup of these two keys gives the
geometry objects, lookup of every other key gives what the decoded manifest
gives (present iff present there, with the same value). -/
theorem processMap_serializes_merged (G : Engine) (name : Str) (isTest : Bool) (w : World)
    (m2 : GoFields) (h : m2 ∈ serialized (callsSince w (processMap G name isTest w).2)) :
    ∃ cwd image info m r, inputCwd w = some cwd
      ∧ readFile w.fs (filepathJoin [inputRoot cwd isTest, name, "image.png".toList]) = .ok image
      ∧ readFile w.fs (filepathJoin [inputRoot cwd isTest, name, "info.json".toList]) = .ok info
      ∧ jsonUnmarshal info = .ok (some m)
      ∧ G { ImageBuffer := image, RemoveSmall := !isTest, Name := name } = .ok r
      ∧ ∀ key, m2.get key
          = if key = "map".toList then
              some (.obj (.cons "width".toList (.int r.MapWidth)
                (.cons "height".toList (.int r.MapHeight)
                  (.cons "num_land_tiles".toList (.int r.MapNumLandTiles) .nil))))
            else if key = "mini_map".toList then
              some (.obj (.cons "width".toList (.int r.MiniMapWidth)
                (.cons "height".toList (.int r.MiniMapHeight)
                  (.cons "num_land_tiles".toList (.int r.MiniMapNumLandTiles) .nil))))
            else m.get key := by
  have hrun := processMap_run G name isTest w
  generalize processMap G name isTest w = out at hrun h ⊢
  cases hrun with
  | noCwd h0 => simp [callsSince_append, serialized] at h
  | noInputCwd out h0 h0b => simp [callsSince_append, serialized] at h
  | noImage out cwd e h0 h0b h1 => simp [callsSince_append, serialized] at h
  | noInfo out cwd image e h0 h0b h1 h2 => simp [callsSince_append, serialized] at h
  | badInfo out cwd image info e h0 h0b h1 h2 h3 => simp [callsSince_append, serialized, loadCalls] at h
  | engineError out cwd image info manifest e h0 h0b h1 h2 h3 h4 =>
    simp [callsSince_append, serialized, loadCalls] at h
  | nilManifest out cwd image info r h0 h0b h1 h2 h3 h4 =>
    simp [callsSince_append, serialized, loadCalls] at h
  | output out cwd image info m r o fs1 cs h0 h0b h1 h2 h3 h4 h5 =>
    have hm : m2 = mergeManifest m r := by
      cases h5 <;> simp [callsSince_append, serialized, loadCalls] at h <;> exact h
    subst hm
    exact ⟨cwd, image, info, m, r, h0b, h1, h2, h3, h4, fun key => get_mergeManifest m r key⟩

/-- C1 at `annecy` in `sampleWorld`, whose manifest holds the number `1.50`. -/
theorem processMap_serializes_merged_witness :
    (GoFields.cons "b".toList (.num "1.5".toList)
        (.cons "a".toList (.obj (.cons "z".toList (.bool true) (.cons "y".toList .null .nil)))
          (.cons "map".toList (geometry 4 2 5) (.cons "mini_map".toList (geometry 2 1 1) .nil))))
      ∈ serialized (callsSince sampleWorld
          (processMap sampleEngine "annecy".toList false sampleWorld).2)
    ∧ (∃ cwd image info m r, inputCwd sampleWorld = some cwd
      ∧ readFile sampleWorld.fs (filepathJoin [inputRoot cwd false, "annecy".toList, "image.png".toList]) = .ok image
      ∧ readFile sampleWorld.fs (filepathJoin [inputRoot cwd false, "annecy".toList, "info.json".toList]) = .ok info
      ∧ jsonUnmarshal info = .ok (some m)
      ∧ sampleEngine { ImageBuffer := image, RemoveSmall := !false, Name := "annecy".toList } = .ok r
      ∧ ∀ key, (GoFields.cons "b".toList (.num "1.5".toList)
        (.cons "a".toList (.obj (.cons "z".toList (.bool true) (.cons "y".toList .null .nil)))
          (.cons "map".toList (geometry 4 2 5) (.cons "mini_map".toList (geometry 2 1 1) .nil)))).get key
          = if key = "map".toList then
              some (.obj (.cons "width".toList (.int r.MapWidth)
                (.cons "height".toList (.int r.MapHeight)
                  (.cons "num_land_tiles".toList (.int r.MapNumLandTiles) .nil))))
            else if key = "mini_map".toList then
              some (.obj (.cons "width".toList (.int r.MiniMapWidth)
                (.cons "height".toList (.int r.MiniMapHeight)
                  (.cons "num_land_tiles".toList (.int r.MiniMapNumLandTiles) .nil))))
            else m.get key) :=
  ⟨by rw [sample_serialized]; exact List.mem_singleton.mpr rfl,
   processMap_serializes_merged sampleEngine "annecy".toList false sampleWorld _
     (by rw [sample_serialized]; exact List.mem_singleton.mpr rfl)⟩

/-- C2: whenever `processMap` reaches the terrain engine, it calls it exactly
once, with the bytes read from `<input_root>/<name>/image.png`, with
`RemoveSmall = !isTest` and with the map name. -/
theorem processMap_engine_call (G : Engine) (name : Str) (isTest : Bool) (w : World)
    (h : engineCalls (callsSince w (processMap G name isTest w).2) ≠ []) :
    ∃ cwd image, inputCwd w = some cwd
      ∧ readFile w.fs (filepathJoin [inputRoot cwd isTest, name, "image.png".toList]) = .ok image
      ∧ engineCalls (callsSince w (processMap G name isTest w).2)
          = [{ ImageBuffer := image, RemoveSmall := !isTest, Name := name }] := by
  have hrun := processMap_run G name isTest w
  generalize processMap G name isTest w = out at hrun h ⊢
  cases hrun with
  | noCwd h0 => simp [callsSince_append, engineCalls] at h
  | noInputCwd out h0 h0b => simp [callsSince_append, engineCalls] at h
  | noImage out cwd e h0 h0b h1 => simp [callsSince_append, engineCalls] at h
  | noInfo out cwd image e h0 h0b h1 h2 => simp [callsSince_append, engineCalls] at h
  | badInfo out cwd image info e h0 h0b h1 h2 h3 => simp [callsSince_append, engineCalls, loadCalls] at h
  | engineError out cwd image info manifest e h0 h0b h1 h2 h3 h4 =>
    exact ⟨cwd, image, h0b, h1, by simp [callsSince_append, engineCalls, loadCalls, engineArgs]⟩
  | nilManifest out cwd image info r h0 h0b h1 h2 h3 h4 =>
    exact ⟨cwd, image, h0b, h1, by simp [callsSince_append, engineCalls, loadCalls, engineArgs]⟩
  | output out cwd image info m r o fs1 cs h0 h0b h1 h2 h3 h4 h5 =>
    refine ⟨cwd, image, h0b, h1, ?_⟩
    cases h5 <;> simp [callsSince_append, engineCalls, loadCalls, engineArgs]

/-- C2 at the test map `plains` in `sampleWorld`: one engine call, without
island removal. -/
theorem processMap_engine_call_witness :
    engineCalls (callsSince sampleWorld
        (processMap sampleEngine "plains".toList true sampleWorld).2) ≠ []
    ∧ (∃ cwd image, inputCwd sampleWorld = some cwd
      ∧ readFile sampleWorld.fs (filepathJoin [inputRoot cwd true, "plains".toList, "image.png".toList]) = .ok image
      ∧ engineCalls (callsSince sampleWorld (processMap sampleEngine "plains".toList true sampleWorld).2)
          = [{ ImageBuffer := image, RemoveSmall := !true, Name := "plains".toList }]) :=
  ⟨by decide,
   processMap_engine_call sampleEngine "plains".toList true sampleWorld (by decide)⟩

/-- C3: `loadTerrainMaps` is fail-fast.  If the entry at index `i` is the
first whose `processMap` does not return `nil` (the entries before it return
`nil`, each called in the world left by its predecessors), the loop ends with
exactly that outcome (for a returned error: that error) in the world left by
the entries `0..i`: nothing has been done for a later entry.  It returns `nil`
iff every entry does. -/
theorem loadTerrainMaps_fail_fast (G : Engine) (catalog : List MapItem) (w : World) :
    (∀ (i : Nat) (o : Outcome), (∀ j < i, outcomeAt G catalog w j = some .ok) →
        outcomeAt G catalog w i = some o → o ≠ .ok →
        loadTerrainMapsOver G catalog w = (o, worldAfter G (catalog.take (i + 1)) w))
    ∧ ((loadTerrainMapsOver G catalog w).1 = .ok
        ↔ ∀ i < catalog.length, outcomeAt G catalog w i = some .ok)
    ∧ (loadTerrainMaps G w = loadTerrainMapsOver G maps w) :=
  ⟨loadTerrainMapsOver_stop G catalog w, loadTerrainMapsOver_ok G catalog w, rfl⟩

/-- C3 at the catalog `maps` in `sampleWorld`: `annecy` succeeds, `paris`
fails, and `loadTerrainMaps` returns that error in the world left by these
two entries; `plains` is not looked at. -/
theorem loadTerrainMaps_fail_fast_witness :
    (∀ j < 1, outcomeAt sampleEngine maps sampleWorld j = some .ok)
    ∧ outcomeAt sampleEngine maps sampleWorld 1 = some (.err parisError)
    ∧ loadTerrainMapsOver sampleEngine maps sampleWorld
        = (.err parisError, worldAfter sampleEngine (maps.take (1 + 1)) sampleWorld) :=
  ⟨by decide, by decide,
   (loadTerrainMaps_fail_fast sampleEngine maps sampleWorld).1 1 (.err parisError)
     (by decide) (by decide) (by decide)⟩

/-- C4: the roots are `<cwd>/assets/maps` and `<cwd>/../resources/maps`, for a
test map `<cwd>/assets/test_maps` and `<cwd>/../tests/testdata/maps` (as
cleaned paths), `cwd` being what `os.Getwd` answers to the function; both
functions fail iff the working directory cannot be determined at their call;
`processMap` reads only `<input_root>/<name>/image.png` and
`<input_root>/<name>/info.json`, creates only the directory
`<output_root>/<name>` and writes only the four output files in it, the roots
being what `outputMapDir` and, called after it, `inputMapDir` return. -/
theorem path_resolution (G : Engine) (name : Str) (isTest : Bool) (w : World) :
    (∀ cwd, w.fs.cwdAt w.calls.length = some cwd → cwd ≠ [] →
        (inputMapDir false w).1 = .ok (filepathClean (cwd ++ "/assets/maps".toList))
        ∧ (outputMapDir false w).1 = .ok (filepathClean (cwd ++ "/../resources/maps".toList))
        ∧ (inputMapDir true w).1 = .ok (filepathClean (cwd ++ "/assets/test_maps".toList))
        ∧ (outputMapDir true w).1
            = .ok (filepathClean (cwd ++ "/../tests/testdata/maps".toList)))
    ∧ ((∃ e, (inputMapDir isTest w).1 = .error e) ↔ w.fs.cwdAt w.calls.length = none)
    ∧ ((∃ e, (outputMapDir isTest w).1 = .error e) ↔ w.fs.cwdAt w.calls.length = none)
    ∧ (∀ p ∈ readPaths (callsSince w (processMap G name isTest w).2),
        ∃ inRoot, (inputMapDir isTest (outputMapDir isTest w).2).1 = .ok inRoot
          ∧ (p = filepathClean (inRoot ++ '/' :: (name ++ "/image.png".toList))
            ∨ p = filepathClean (inRoot ++ '/' :: (name ++ "/info.json".toList))))
    ∧ (∀ p ∈ writePaths (callsSince w (processMap G name isTest w).2),
        ∃ outRoot, (outputMapDir isTest w).1 = .ok outRoot
          ∧ ∃ f ∈ outputNames, p = childPath (filepathClean (outRoot ++ '/' :: name)) f)
    ∧ (∀ p ∈ mkdirPaths (callsSince w (processMap G name isTest w).2),
        ∃ outRoot, (outputMapDir isTest w).1 = .ok outRoot
          ∧ p = filepathClean (outRoot ++ '/' :: name)) := by
  obtain ⟨hr, hw, hm⟩ := processMap_paths G name isTest w
  refine ⟨?_, inputMapDir_error_iff isTest w, outputMapDir_error_iff isTest w, ?_, ?_, ?_⟩
  · intro cwd h0 hne
    refine ⟨?_, ?_, ?_, ?_⟩
    · rw [inputMapDir_ok false w cwd h0, inputRoot_false cwd hne]
    · rw [outputMapDir_ok false w cwd h0, outputRoot_false cwd hne]
    · rw [inputMapDir_ok true w cwd h0, inputRoot_true cwd hne]
    · rw [outputMapDir_ok true w cwd h0, outputRoot_true cwd hne]
  · intro p hp
    obtain ⟨cwd, h0, h⟩ := hr p hp
    refine ⟨inputRoot cwd isTest, inputMapDir_second isTest w cwd h0, ?_⟩
    rcases h with h | h
    · left; rw [h, imagePath_clean]
    · right; rw [h, infoPath_clean]
  · intro p hp
    obtain ⟨cwd, h0, f, hf, h⟩ := hw p hp
    exact ⟨outputRoot cwd isTest, outputMapDir_ok isTest w cwd h0, f, hf,
      by rw [h, outputFile_child _ _ _ _ (outputNames_no_sep f hf)]⟩
  · intro p hp
    obtain ⟨cwd, h0, h⟩ := hm p hp
    exact ⟨outputRoot cwd isTest, outputMapDir_ok isTest w cwd h0, by rw [h, mapDirOf_clean]⟩

/-- C4 in `sampleWorld`, whose working directory is `/w/map-generator`. -/
theorem path_resolution_witness :
    sampleWorld.fs.cwdAt sampleWorld.calls.length = some "/w/map-generator".toList
    ∧ "/w/map-generator".toList ≠ []
    ∧ (inputMapDir false sampleWorld).1 = .ok "/w/map-generator/assets/maps".toList
    ∧ (outputMapDir false sampleWorld).1 = .ok "/w/resources/maps".toList
    ∧ (inputMapDir true sampleWorld).1 = .ok "/w/map-generator/assets/test_maps".toList
    ∧ (outputMapDir true sampleWorld).1 = .ok "/w/tests/testdata/maps".toList :=
  ⟨rfl, by decide,
   (path_resolution sampleEngine "annecy".toList false sampleWorld).1
     "/w/map-generator".toList rfl (by decide)⟩

/-- C5 (amended): after a call of `processMap` that returns `nil`, made where
no link gives one of the four output paths a second name (neither the path
nor a directory above it is a link or the end of a link), the output
directory `<output_root>/<name>` is a directory and holds `map.bin`,
`mini_map.bin`, `thumbnail.webp` with the engine's artifacts and
`manifest.json` with the text that `json.MarshalIndent` gives for the merged
manifest with two spaces as indent, whatever these paths named before: a JSON
text whose tree is the merged manifest with the keys of every map in
ascending order, laid out in lines that are indented by two spaces per level.
Every other path names what it named before, or a directory created on the
way to the output directory, and stands for a file after the call iff it did
before, the same one. -/
theorem processMap_output_bundle (G : Engine) (name : Str) (isTest : Bool) (w : World)
    (hok : (processMap G name isTest w).1 = .ok)
    (hlink : ∀ out, outputCwd w = some out → ∀ f ∈ outputNames,
      Unaliased w.fs (childPath (filepathJoin [outputRoot out isTest, name]) f)) :
    ∃ out cwd image info m r text, outputCwd w = some out ∧ inputCwd w = some cwd
      ∧ readFile w.fs (filepathJoin [inputRoot cwd isTest, name, "image.png".toList]) = .ok image
      ∧ readFile w.fs (filepathJoin [inputRoot cwd isTest, name, "info.json".toList]) = .ok info
      ∧ jsonUnmarshal info = .ok (some m)
      ∧ G { ImageBuffer := image, RemoveSmall := !isTest, Name := name } = .ok r
      ∧ jsonMarshalIndent ((m.set "map".toList
            (geometry r.MapWidth r.MapHeight r.MapNumLandTiles)).set "mini_map".toList
            (geometry r.MiniMapWidth r.MiniMapHeight r.MiniMapNumLandTiles)) [] [' ', ' ']
          = .ok text
      ∧ parseJSON text = some (asTree (canonVal (.obj ((m.set "map".toList
            (geometry r.MapWidth r.MapHeight r.MapNumLandTiles)).set "mini_map".toList
            (geometry r.MiniMapWidth r.MiniMapHeight r.MiniMapNumLandTiles)))))
      ∧ indentedBy 2 .outside 0 text = true
      ∧ (∃ perm, stat (processMap G name isTest w).2.fs
          (filepathJoin [outputRoot out isTest, name]) = some (.dir perm))
      ∧ (∃ perm, (processMap G name isTest w).2.fs.node
          (childPath (filepathJoin [outputRoot out isTest, name]) "map.bin".toList)
          = some (.file r.Map perm))
      ∧ (∃ perm, (processMap G name isTest w).2.fs.node
          (childPath (filepathJoin [outputRoot out isTest, name]) "mini_map.bin".toList)
          = some (.file r.MiniMap perm))
      ∧ (∃ perm, (processMap G name isTest w).2.fs.node
          (childPath (filepathJoin [outputRoot out isTest, name]) "thumbnail.webp".toList)
          = some (.file r.Thumbnail perm))
      ∧ (∃ perm, (processMap G name isTest w).2.fs.node
          (childPath (filepathJoin [outputRoot out isTest, name]) "manifest.json".toList)
          = some (.file text perm))
      ∧ (∀ p, (∀ f ∈ outputNames,
            p ≠ childPath (filepathJoin [outputRoot out isTest, name]) f) →
          ((processMap G name isTest w).2.fs.node p = w.fs.node p
            ∨ (w.fs.node p = none
              ∧ ∃ perm, (processMap G name isTest w).2.fs.node p = some (.dir perm)))
          ∧ ∀ data perm, stat (processMap G name isTest w).2.fs p = some (.file data perm)
              ↔ stat w.fs p = some (.file data perm)) := by
  have hrun := processMap_run G name isTest w
  generalize processMap G name isTest w = res at hrun hok ⊢
  cases hrun with
  | noCwd h0 => cases hok
  | noInputCwd out h0 h0b => cases hok
  | noImage out cwd e h0 h0b h1 => cases hok
  | noInfo out cwd image e h0 h0b h1 h2 => cases hok
  | badInfo out cwd image info e h0 h0b h1 h2 h3 => cases hok
  | engineError out cwd image info manifest e h0 h0b h1 h2 h3 h4 => cases hok
  | nilManifest out cwd image info r h0 h0b h1 h2 h3 h4 => cases hok
  | output out cwd image info m r o fs1 cs h0 h0b h1 h2 h3 h4 h5 =>
    cases h5 with
    | mkdirFails e2 h7 => cases hok
    | mapFails fs7 e2 h7 h8 => cases hok
    | miniMapFails fs7 fs8 e2 h7 h8 h9 => cases hok
    | thumbnailFails fs7 fs8 fs9 e2 h7 h8 h9 h10 => cases hok
    | manifestFails fs7 fs8 fs9 fs10 text e2 h7 h8 h9 h10 h11 h12 => cases hok
    | done fs7 fs8 fs9 fs10 fs11 text h7 h8 h9 h10 h11 h12 =>
      have hu : ∀ f ∈ outputNames, NoLinkTo w.fs
          (childPath (filepathJoin [outputRoot out isTest, name]) f) :=
        fun f hf => unaliased_noLinkTo _ _ (hlink out h0 f hf)
      have hdir : filepathJoin [outputRoot out isTest, name]
          = filepathClean (outputRoot out isTest ++ '/' :: name) := mapDirOf_clean out name isTest
      rw [hdir] at hu
      rw [mapDirOf_clean] at h7 h8 h9 h10 h12
      obtain ⟨_, _, hd, ⟨q1, f1, _⟩, ⟨q2, f2, _⟩, ⟨q3, f3, _⟩, ⟨q4, f4, _⟩, hrest⟩ :=
        emit_done_fs _ r w.fs fs7 fs8 fs9 fs10 fs1 text (fun f hf => (hu f hf).1) h7 h8 h9 h10 h12
      have hout : ∀ f ∈ outputNames, ∀ t,
          fs1.node (childPath (filepathClean (outputRoot out isTest ++ '/' :: name)) f)
            ≠ some (.link t) := by
        intro f hf t ht
        simp only [outputNames, List.mem_cons, List.mem_singleton, List.not_mem_nil,
          or_false] at hf
        rcases hf with rfl | rfl | rfl | rfl
        · rw [f1] at ht; cases ht
        · rw [f2] at ht; cases ht
        · rw [f3] at ht; cases ht
        · rw [f4] at ht; cases ht
      have htext : text = renderVal [] [' ', ' '] 0 (canonVal (.obj (mergeManifest m r))) := by
        cases h11; rfl
      have hwf := wf_manifest info m r h3
      refine ⟨out, cwd, image, info, m, r, text, h0, h0b, h1, h2, h3, h4, h11, ?_, ?_, ?_⟩
      · rw [htext]; exact parseJSON_manifest info m r h3
      · rw [htext]; exact indentedBy_renderVal _ hwf
      · rw [hdir]
        refine ⟨hd, ⟨q1, f1⟩, ⟨q2, f2⟩, ⟨q3, f3⟩, ⟨q4, f4⟩, ?_⟩
        intro p hp
        exact ⟨hrest p hp, fun data perm =>
          stat_file_unchanged w.fs fs1 _ hu hout hrest p hp data perm⟩

set_option maxRecDepth 100000 in
/-- C5 (amended) at `annecy` in `sampleWorld`, together with the text of the
`manifest.json` that the call leaves. -/
theorem processMap_output_bundle_witness :
    (processMap sampleEngine "annecy".toList false sampleWorld).1 = .ok
    ∧ (∀ out, outputCwd sampleWorld = some out → ∀ f ∈ outputNames,
      Unaliased sampleWorld.fs (childPath (filepathJoin [outputRoot out false, "annecy".toList]) f))
    ∧ (∃ out cwd image info m r text, outputCwd sampleWorld = some out ∧ inputCwd sampleWorld = some cwd
      ∧ readFile sampleWorld.fs (filepathJoin [inputRoot cwd false, "annecy".toList, "image.png".toList]) = .ok image
      ∧ readFile sampleWorld.fs (filepathJoin [inputRoot cwd false, "annecy".toList, "info.json".toList]) = .ok info
      ∧ jsonUnmarshal info = .ok (some m)
      ∧ sampleEngine { ImageBuffer := image, RemoveSmall := !false, Name := "annecy".toList } = .ok r
      ∧ jsonMarshalIndent ((m.set "map".toList
            (geometry r.MapWidth r.MapHeight r.MapNumLandTiles)).set "mini_map".toList
            (geometry r.MiniMapWidth r.MiniMapHeight r.MiniMapNumLandTiles)) [] [' ', ' ']
          = .ok text
      ∧ parseJSON text = some (asTree (canonVal (.obj ((m.set "map".toList
            (geometry r.MapWidth r.MapHeight r.MapNumLandTiles)).set "mini_map".toList
            (geometry r.MiniMapWidth r.MiniMapHeight r.MiniMapNumLandTiles)))))
      ∧ indentedBy 2 .outside 0 text = true
      ∧ (∃ perm, stat (processMap sampleEngine "annecy".toList false sampleWorld).2.fs
          (filepathJoin [outputRoot out false, "annecy".toList]) = some (.dir perm))
      ∧ (∃ perm, (processMap sampleEngine "annecy".toList false sampleWorld).2.fs.node
          (childPath (filepathJoin [outputRoot out false, "annecy".toList]) "map.bin".toList)
          = some (.file r.Map perm))
      ∧ (∃ perm, (processMap sampleEngine "annecy".toList false sampleWorld).2.fs.node
          (childPath (filepathJoin [outputRoot out false, "annecy".toList]) "mini_map.bin".toList)
          = some (.file r.MiniMap perm))
      ∧ (∃ perm, (processMap sampleEngine "annecy".toList false sampleWorld).2.fs.node
          (childPath (filepathJoin [outputRoot out false, "annecy".toList]) "thumbnail.webp".toList)
          = some (.file r.Thumbnail perm))
      ∧ (∃ perm, (processMap sampleEngine "annecy".toList false sampleWorld).2.fs.node
          (childPath (filepathJoin [outputRoot out false, "annecy".toList]) "manifest.json".toList)
          = some (.file text perm))
      ∧ (∀ p, (∀ f ∈ outputNames,
            p ≠ childPath (filepathJoin [outputRoot out false, "annecy".toList]) f) →
          ((processMap sampleEngine "annecy".toList false sampleWorld).2.fs.node p = sampleWorld.fs.node p
            ∨ (sampleWorld.fs.node p = none
              ∧ ∃ perm, (processMap sampleEngine "annecy".toList false sampleWorld).2.fs.node p = some (.dir perm)))
          ∧ ∀ data perm, stat (processMap sampleEngine "annecy".toList false sampleWorld).2.fs p = some (.file data perm)
              ↔ stat sampleWorld.fs p = some (.file data perm)))
    ∧ fileAt (processMap sampleEngine "annecy".toList false sampleWorld).2.fs
        "/w/resources/maps/annecy/manifest.json".toList
        = "\x7b\n  \"a\": \x7b\n    \"y\": null,\n    \"z\": true\n  \x7d,\n  \"b\": 1.5,\n  \"map\": \x7b\n    \"height\": 2,\n    \"num_land_tiles\": 5,\n    \"width\": 4\n  \x7d,\n  \"mini_map\": \x7b\n    \"height\": 1,\n    \"num_land_tiles\": 1,\n    \"width\": 2\n  \x7d\n\x7d".toList :=
  ⟨by decide, fun _ _ f _ => unaliased_of_no_links _ sampleWorld_no_links _,
   processMap_output_bundle sampleEngine "annecy".toList false sampleWorld (by decide)
     (fun _ _ f _ => unaliased_of_no_links _ sampleWorld_no_links _),
   by decide⟩

set_option maxRecDepth 100000 in
/-- C5, counterexample: with `map.bin` a link to the image of `annecy`, the
call returns `nil` and has changed `image.png`, which is none of the four
output files. -/
theorem processMap_output_bundle_counterexample :
    (processMap sampleEngine "annecy".toList false linkWorld).1 = .ok
    ∧ "/w/map-generator/assets/maps/annecy/image.png".toList
        ∉ outputNames.map (childPath "/w/resources/maps/annecy".toList)
    ∧ readFile linkWorld.fs "/w/map-generator/assets/maps/annecy/image.png".toList
        = .ok "PNG-annecy".toList
    ∧ readFile (processMap sampleEngine "annecy".toList false linkWorld).2.fs
        "/w/map-generator/assets/maps/annecy/image.png".toList = .ok "MPNG-annecy".toList := by
  decide

/-- C6 (amended): with the engine a function of its arguments, a call of
`processMap` that returns `nil` leaves a file system on which the same call
returns `nil` again and changes nothing, and the inputs `image.png` and
`info.json` are as the first call found them, provided that no link gives one
of the four output paths a second name (neither the path nor a directory
above it is a link or the end of a link), that the umask leaves the owner's
write bit on the files that the call creates, and that `os.Getwd` answers to
the second call what it answered to the first. -/
theorem processMap_idempotent (G : Engine) (name : Str) (isTest : Bool) (w : World)
    (hok : (processMap G name isTest w).1 = .ok)
    (hlink : ∀ out, outputCwd w = some out → ∀ f ∈ outputNames,
      Unaliased w.fs (childPath (filepathJoin [outputRoot out isTest, name]) f))
    (humask : w.fs.umask.write = false)
    (hcwd : outputCwd (processMap G name isTest w).2 = outputCwd w
      ∧ inputCwd (processMap G name isTest w).2 = inputCwd w) :
    (processMap G name isTest (processMap G name isTest w).2).1 = .ok
      ∧ (processMap G name isTest (processMap G name isTest w).2).2.fs
          = (processMap G name isTest w).2.fs
      ∧ ∃ cwd, inputCwd w = some cwd
          ∧ (processMap G name isTest w).2.fs.node
                (filepathJoin [inputRoot cwd isTest, name, "image.png".toList])
              = w.fs.node (filepathJoin [inputRoot cwd isTest, name, "image.png".toList])
          ∧ (processMap G name isTest w).2.fs.node
                (filepathJoin [inputRoot cwd isTest, name, "info.json".toList])
              = w.fs.node (filepathJoin [inputRoot cwd isTest, name, "info.json".toList])
          ∧ readFile (processMap G name isTest w).2.fs
                (filepathJoin [inputRoot cwd isTest, name, "image.png".toList])
              = readFile w.fs (filepathJoin [inputRoot cwd isTest, name, "image.png".toList])
          ∧ readFile (processMap G name isTest w).2.fs
                (filepathJoin [inputRoot cwd isTest, name, "info.json".toList])
              = readFile w.fs (filepathJoin [inputRoot cwd isTest, name, "info.json".toList]) := by
  have hrun := processMap_run G name isTest w
  generalize processMap G name isTest w = res at hrun hok hcwd ⊢
  cases hrun with
  | noCwd h0 => cases hok
  | noInputCwd out h0 h0b => cases hok
  | noImage out cwd e h0 h0b h1 => cases hok
  | noInfo out cwd image e h0 h0b h1 h2 => cases hok
  | badInfo out cwd image info e h0 h0b h1 h2 h3 => cases hok
  | engineError out cwd image info manifest e h0 h0b h1 h2 h3 h4 => cases hok
  | nilManifest out cwd image info r h0 h0b h1 h2 h3 h4 => cases hok
  | output out cwd image info m r o fs1 cs h0 h0b h1 h2 h3 h4 h5 =>
    cases h5 with
    | mkdirFails e2 h7 => cases hok
    | mapFails fs7 e2 h7 h8 => cases hok
    | miniMapFails fs7 fs8 e2 h7 h8 h9 => cases hok
    | thumbnailFails fs7 fs8 fs9 e2 h7 h8 h9 h10 => cases hok
    | manifestFails fs7 fs8 fs9 fs10 text e2 h7 h8 h9 h10 h11 h12 => cases hok
    | done fs7 fs8 fs9 fs10 fs11 text h7 h8 h9 h10 h11 h12 =>
      cases h11
      have hu : ∀ f ∈ outputNames, NoLinkTo w.fs
          (childPath (filepathJoin [outputRoot out isTest, name]) f) :=
        fun f hf => unaliased_noLinkTo _ _ (hlink out h0 f hf)
      have hdir : filepathJoin [outputRoot out isTest, name]
          = filepathClean (outputRoot out isTest ++ '/' :: name) := mapDirOf_clean out name isTest
      rw [hdir] at hu
      rw [mapDirOf_clean] at h7 h8 h9 h10 h12
      obtain ⟨hc, hum, ⟨pd, hd⟩, ⟨q1, f1, k1⟩, ⟨q2, f2, k2⟩, ⟨q3, f3, k3⟩, ⟨q4, f4, k4⟩, hrest⟩ :=
        emit_done_fs _ r w.fs fs7 fs8 fs9 fs10 fs1 _ (fun f hf => (hu f hf).1) h7 h8 h9 h10 h12
      have hout : ∀ f ∈ outputNames, ∀ t,
          fs1.node (childPath (filepathClean (outputRoot out isTest ++ '/' :: name)) f)
            ≠ some (.link t) := by
        intro f hf t ht
        simp only [outputNames, List.mem_cons, List.mem_singleton, List.not_mem_nil,
          or_false] at hf
        rcases hf with rfl | rfl | rfl | rfl
        · rw [f1] at ht; cases ht
        · rw [f2] at ht; cases ht
        · rw [f3] at ht; cases ht
        · rw [f4] at ht; cases ht
      have himg : fs1.node (imagePath cwd name isTest) = w.fs.node (imagePath cwd name isTest) := by
        rcases hrest _ (imagePath_not_output cwd name isTest _) with h | ⟨hn, _⟩
        · exact h
        · exact absurd hn (readFile_ok_node _ _ _ h1)
      have hinf : fs1.node (infoPath cwd name isTest) = w.fs.node (infoPath cwd name isTest) := by
        rcases hrest _ (infoPath_not_output cwd name isTest _) with h | ⟨hn, _⟩
        · exact h
        · exact absurd hn (readFile_ok_node _ _ _ h2)
      have h1b : readFile fs1 (imagePath cwd name isTest) = .ok image :=
        readFile_unchanged w.fs fs1 _ hu hout hrest _ (imagePath_not_output cwd name isTest _) _ h1
      have h2b : readFile fs1 (infoPath cwd name isTest) = .ok info :=
        readFile_unchanged w.fs fs1 _ hu hout hrest _ (infoPath_not_output cwd name isTest _) _ h2
      have key := processMap_done G name isTest
        { fs := fs1,
          calls := w.calls ++ (loadCalls cwd name isTest info
            ++ .generateMap (engineArgs image name isTest)
              :: [.mkdirAll (mapDirOf out name isTest),
                  .writeFile (filepathJoin [mapDirOf out name isTest, "map.bin".toList]) r.Map,
                  .writeFile (filepathJoin [mapDirOf out name isTest, "mini_map.bin".toList])
                    r.MiniMap,
                  .writeFile (filepathJoin [mapDirOf out name isTest, "thumbnail.webp".toList])
                    r.Thumbnail,
                  .marshalIndent (mergeManifest m r) [] [' ', ' '],
                  .writeFile (filepathJoin [mapDirOf out name isTest, "manifest.json".toList])
                    (renderVal [] [' ', ' '] 0 (canonVal (.obj (mergeManifest m r))))]) }
        out cwd image info m r fs1 fs1 fs1 fs1 fs1 (hcwd.1.trans h0) (hcwd.2.trans h0b) h1b h2b
        h3 h4
        (by rw [mapDirOf_clean]; exact mkdirAll_dir _ _ pd hd)
        (by
          rw [mapDirOf_clean]
          exact writeFile_again fs1 _ _ _ q1 plain_mapBin f1 (newFilePerm_write _ _ humask k1))
        (by
          rw [mapDirOf_clean]
          exact writeFile_again fs1 _ _ _ q2 plain_miniMapBin f2 (newFilePerm_write _ _ humask k2))
        (by
          rw [mapDirOf_clean]
          exact writeFile_again fs1 _ _ _ q3 plain_thumbnail f3 (newFilePerm_write _ _ humask k3))
        (by
          rw [mapDirOf_clean]
          exact writeFile_again fs1 _ _ _ q4 plain_manifest f4 (newFilePerm_write _ _ humask k4))
      exact ⟨key.1, key.2, cwd, h0b, himg, hinf, h1b.trans h1.symm, h2b.trans h2.symm⟩

set_option maxRecDepth 100000 in
/-- C6 (amended) at the test map `plains` in `sampleWorld`. -/
theorem processMap_idempotent_witness :
    (processMap sampleEngine "plains".toList true sampleWorld).1 = .ok
    ∧ (∀ out, outputCwd sampleWorld = some out → ∀ f ∈ outputNames,
      Unaliased sampleWorld.fs (childPath (filepathJoin [outputRoot out true, "plains".toList]) f))
    ∧ sampleWorld.fs.umask.write = false
    ∧ (outputCwd (processMap sampleEngine "plains".toList true sampleWorld).2
        = outputCwd sampleWorld
      ∧ inputCwd (processMap sampleEngine "plains".toList true sampleWorld).2
        = inputCwd sampleWorld)
    ∧ ((processMap sampleEngine "plains".toList true (processMap sampleEngine "plains".toList true sampleWorld).2).1 = .ok
      ∧ (processMap sampleEngine "plains".toList true (processMap sampleEngine "plains".toList true sampleWorld).2).2.fs
          = (processMap sampleEngine "plains".toList true sampleWorld).2.fs
      ∧ ∃ cwd, inputCwd sampleWorld = some cwd
          ∧ (processMap sampleEngine "plains".toList true sampleWorld).2.fs.node
                (filepathJoin [inputRoot cwd true, "plains".toList, "image.png".toList])
              = sampleWorld.fs.node (filepathJoin [inputRoot cwd true, "plains".toList, "image.png".toList])
          ∧ (processMap sampleEngine "plains".toList true sampleWorld).2.fs.node
                (filepathJoin [inputRoot cwd true, "plains".toList, "info.json".toList])
              = sampleWorld.fs.node (filepathJoin [inputRoot cwd true, "plains".toList, "info.json".toList])
          ∧ readFile (processMap sampleEngine "plains".toList true sampleWorld).2.fs
                (filepathJoin [inputRoot cwd true, "plains".toList, "image.png".toList])
              = readFile sampleWorld.fs (filepathJoin [inputRoot cwd true, "plains".toList, "image.png".toList])
          ∧ readFile (processMap sampleEngine "plains".toList true sampleWorld).2.fs
                (filepathJoin [inputRoot cwd true, "plains".toList, "info.json".toList])
              = readFile sampleWorld.fs (filepathJoin [inputRoot cwd true, "plains".toList, "info.json".toList])) :=
  ⟨by decide, fun _ _ f _ => unaliased_of_no_links _ sampleWorld_no_links _, rfl,
   ⟨by decide, by decide⟩,
   processMap_idempotent sampleEngine "plains".toList true sampleWorld (by decide)
     (fun _ _ f _ => unaliased_of_no_links _ sampleWorld_no_links _) rfl
     ⟨by decide, by decide⟩⟩

set_option maxRecDepth 100000 in
/-- C6, counterexample: with `map.bin` a link to the image of `annecy`, the
first call overwrites its input `image.png`, and the second call, which also
returns `nil`, writes another `map.bin`; and under a umask that clears the
owner's write bit, the second call fails on the files that the first call
created. -/
theorem processMap_idempotent_counterexample :
    ((processMap sampleEngine "annecy".toList false linkWorld).1 = .ok
      ∧ (processMap sampleEngine "annecy".toList false
          (processMap sampleEngine "annecy".toList false linkWorld).2).1 = .ok
      ∧ fileAt linkWorld.fs "/w/map-generator/assets/maps/annecy/image.png".toList
          = "PNG-annecy".toList
      ∧ fileAt (processMap sampleEngine "annecy".toList false linkWorld).2.fs
          "/w/map-generator/assets/maps/annecy/image.png".toList = "MPNG-annecy".toList
      ∧ fileAt (processMap sampleEngine "annecy".toList false linkWorld).2.fs
          "/w/resources/maps/annecy/map.bin".toList = "MPNG-annecy".toList
      ∧ fileAt (processMap sampleEngine "annecy".toList false
          (processMap sampleEngine "annecy".toList false linkWorld).2).2.fs
          "/w/resources/maps/annecy/map.bin".toList = "MMPNG-annecy".toList)
    ∧ ((processMap sampleEngine "annecy".toList false readOnlyUmaskWorld).1 = .ok
      ∧ (processMap sampleEngine "annecy".toList false
          (processMap sampleEngine "annecy".toList false readOnlyUmaskWorld).2).1
        = .err (.wrap "failed to write combined binary for annecy: ".toList
            (.lib (.permission "/w/resources/maps/annecy/map.bin".toList)))) := by
  decide

/-- C7 (amended): every error that `processMap` returns is the error of the
call that failed, wrapped with a text fixed by the stage, the stage being
counted by the calls made.  A failure of `os.Getwd` is wrapped as
`failed to get working directory: ` and then as `failed to get map directory: `
(in `outputMapDir`) or `failed to get input map directory: ` (in
`inputMapDir`), without the map name; a failure of a read as
`failed to read map file <path>: ` or `failed to read info file <path>: ` (the
attempted path, in which a name that is a single path element can be read); a
failure of parsing, of the engine, of `os.MkdirAll` and of each `os.WriteFile`
with a text that contains the map name.  Two returned errors with the same
text come from the same stage, except that the writes of `map.bin` and of
`mini_map.bin` share their text. -/
theorem processMap_error_text (G : Engine) (name : Str) (isTest : Bool) (w : World)
    (e : GoError) (h : (processMap G name isTest w).1 = .err e) :
    (((callsSince w (processMap G name isTest w).2).length = 1
          ∧ ∃ c, (osGetwd w).1 = .error c
            ∧ e = .wrap "failed to get map directory: ".toList
                (.wrap "failed to get working directory: ".toList c))
      ∨ ((callsSince w (processMap G name isTest w).2).length = 2
          ∧ ∃ c, (osGetwd (osGetwd w).2).1 = .error c
            ∧ e = .wrap "failed to get input map directory: ".toList
                (.wrap "failed to get working directory: ".toList c))
      ∨ ((callsSince w (processMap G name isTest w).2).length = 3
          ∧ ∃ cwd c, inputCwd w = some cwd
            ∧ readFile w.fs (filepathJoin [inputRoot cwd isTest, name, "image.png".toList])
                = .error c
            ∧ e = .wrap ("failed to read map file ".toList
                ++ filepathJoin [inputRoot cwd isTest, name, "image.png".toList] ++ ": ".toList) c)
      ∨ ((callsSince w (processMap G name isTest w).2).length = 4
          ∧ ∃ cwd c, inputCwd w = some cwd
            ∧ readFile w.fs (filepathJoin [inputRoot cwd isTest, name, "info.json".toList])
                = .error c
            ∧ e = .wrap ("failed to read info file ".toList
                ++ filepathJoin [inputRoot cwd isTest, name, "info.json".toList] ++ ": ".toList) c)
      ∨ ((callsSince w (processMap G name isTest w).2).length = 5
          ∧ ∃ cwd info c, inputCwd w = some cwd
            ∧ readFile w.fs (filepathJoin [inputRoot cwd isTest, name, "info.json".toList])
                = .ok info
            ∧ jsonUnmarshal info = .error c
            ∧ e = .wrap ("failed to parse info.json for ".toList ++ name ++ ": ".toList) c)
      ∨ ((callsSince w (processMap G name isTest w).2).length = 6
          ∧ ∃ cwd image c, inputCwd w = some cwd
            ∧ readFile w.fs (filepathJoin [inputRoot cwd isTest, name, "image.png".toList])
                = .ok image
            ∧ G { ImageBuffer := image, RemoveSmall := !isTest, Name := name } = .error c
            ∧ e = .wrap ("failed to generate map for ".toList ++ name ++ ": ".toList) c)
      ∨ ((callsSince w (processMap G name isTest w).2).length = 7
          ∧ ∃ out c, outputCwd w = some out
            ∧ (mkdirAll w.fs (filepathJoin [outputRoot out isTest, name])).1 = some c
            ∧ e = .wrap ("failed to create output directory for ".toList ++ name
                ++ ": ".toList) c)
      ∨ ((callsSince w (processMap G name isTest w).2).length = 8
          ∧ ∃ out data c, outputCwd w = some out
            ∧ (callsSince w (processMap G name isTest w).2).getLast?
                = some (.writeFile (filepathJoin [filepathJoin [outputRoot out isTest, name],
                    "map.bin".toList]) data)
            ∧ writeFile (processMap G name isTest w).2.fs
                (filepathJoin [filepathJoin [outputRoot out isTest, name], "map.bin".toList]) data
                = .error c
            ∧ e = .wrap ("failed to write combined binary for ".toList ++ name ++ ": ".toList) c)
      ∨ ((callsSince w (processMap G name isTest w).2).length = 9
          ∧ ∃ out data c, outputCwd w = some out
            ∧ (callsSince w (processMap G name isTest w).2).getLast?
                = some (.writeFile (filepathJoin [filepathJoin [outputRoot out isTest, name],
                    "mini_map.bin".toList]) data)
            ∧ writeFile (processMap G name isTest w).2.fs
                (filepathJoin [filepathJoin [outputRoot out isTest, name], "mini_map.bin".toList]) data
                = .error c
            ∧ e = .wrap ("failed to write combined binary for ".toList ++ name ++ ": ".toList) c)
      ∨ ((callsSince w (processMap G name isTest w).2).length = 10
          ∧ ∃ out data c, outputCwd w = some out
            ∧ (callsSince w (processMap G name isTest w).2).getLast?
                = some (.writeFile (filepathJoin [filepathJoin [outputRoot out isTest, name],
                    "thumbnail.webp".toList]) data)
            ∧ writeFile (processMap G name isTest w).2.fs
                (filepathJoin [filepathJoin [outputRoot out isTest, name], "thumbnail.webp".toList]) data
                = .error c
            ∧ e = .wrap ("failed to write thumbnail for ".toList ++ name ++ ": ".toList) c)
      ∨ ((callsSince w (processMap G name isTest w).2).length = 12
          ∧ ∃ out data c, outputCwd w = some out
            ∧ (callsSince w (processMap G name isTest w).2).getLast?
                = some (.writeFile (filepathJoin [filepathJoin [outputRoot out isTest, name],
                    "manifest.json".toList]) data)
            ∧ writeFile (processMap G name isTest w).2.fs
                (filepathJoin [filepathJoin [outputRoot out isTest, name], "manifest.json".toList]) data
                = .error c
            ∧ e = .wrap ("failed to write manifest for ".toList ++ name ++ ": ".toList) c))
    ∧ (5 ≤ (callsSince w (processMap G name isTest w).2).length → name <:+: e.added)
    ∧ (Plain name → 3 ≤ (callsSince w (processMap G name isTest w).2).length →
        name <:+: e.added)
    ∧ ∀ (G2 : Engine) (name2 : Str) (isTest2 : Bool) (w2 : World) (e2 : GoError),
        (processMap G2 name2 isTest2 w2).1 = .err e2 → e2.added = e.added →
        (callsSince w2 (processMap G2 name2 isTest2 w2).2).length
            = (callsSince w (processMap G name isTest w).2).length
          ∨ (((callsSince w2 (processMap G2 name2 isTest2 w2).2).length = 8
                ∨ (callsSince w2 (processMap G2 name2 isTest2 w2).2).length = 9)
              ∧ ((callsSince w (processMap G name isTest w).2).length = 8
                ∨ (callsSince w (processMap G name isTest w).2).length = 9)) := by
  obtain ⟨htag, htab⟩ := processMap_error_cases G name isTest w e h
  refine ⟨htab, ?_, ?_, ?_⟩
  · intro hn
    rcases htab with h1 | h1 | h1 | h1 | h1 | h1 | h1 | h1 | h1 | h1 | h1
    · omega
    · omega
    · omega
    · omega
    · obtain ⟨_, _, _, _, _, _, _, rfl⟩ := h1; exact infix_mid _ _ _
    · obtain ⟨_, _, _, _, _, _, _, rfl⟩ := h1; exact infix_mid _ _ _
    · obtain ⟨_, _, _, _, _, rfl⟩ := h1; exact infix_mid _ _ _
    · obtain ⟨_, _, _, _, _, _, _, rfl⟩ := h1; exact infix_mid _ _ _
    · obtain ⟨_, _, _, _, _, _, _, rfl⟩ := h1; exact infix_mid _ _ _
    · obtain ⟨_, _, _, _, _, _, _, rfl⟩ := h1; exact infix_mid _ _ _
    · obtain ⟨_, _, _, _, _, _, _, rfl⟩ := h1; exact infix_mid _ _ _
  · intro hp hn
    rcases htab with h1 | h1 | h1 | h1 | h1 | h1 | h1 | h1 | h1 | h1 | h1
    · omega
    · omega
    · obtain ⟨_, cwd, _, _, _, rfl⟩ := h1
      exact infix_wrap _ _ _ _ (name_infix_imagePath cwd name isTest hp)
    · obtain ⟨_, cwd, _, _, _, rfl⟩ := h1
      exact infix_wrap _ _ _ _ (name_infix_infoPath cwd name isTest hp)
    · obtain ⟨_, _, _, _, _, _, _, rfl⟩ := h1; exact infix_mid _ _ _
    · obtain ⟨_, _, _, _, _, _, _, rfl⟩ := h1; exact infix_mid _ _ _
    · obtain ⟨_, _, _, _, _, rfl⟩ := h1; exact infix_mid _ _ _
    · obtain ⟨_, _, _, _, _, _, _, rfl⟩ := h1; exact infix_mid _ _ _
    · obtain ⟨_, _, _, _, _, _, _, rfl⟩ := h1; exact infix_mid _ _ _
    · obtain ⟨_, _, _, _, _, _, _, rfl⟩ := h1; exact infix_mid _ _ _
    · obtain ⟨_, _, _, _, _, _, _, rfl⟩ := h1; exact infix_mid _ _ _
  · intro G2 name2 isTest2 w2 e2 h2 heq
    obtain ⟨htag2, _⟩ := processMap_error_cases G2 name2 isTest2 w2 e2 h2
    exact stageWords_inj _ htag2 _ htag (by simp only [heq])

/-- C7 (amended) at `annecy` in `lostCwdWorld`, where the second call of
`os.Getwd` fails. -/
theorem processMap_error_text_witness :
    (processMap sampleEngine "annecy".toList false lostCwdWorld).1 = .err lostCwdError
    ∧ ((((callsSince lostCwdWorld (processMap sampleEngine "annecy".toList false lostCwdWorld).2).length = 1
          ∧ ∃ c, (osGetwd lostCwdWorld).1 = .error c
            ∧ lostCwdError = .wrap "failed to get map directory: ".toList
                (.wrap "failed to get working directory: ".toList c))
      ∨ ((callsSince lostCwdWorld (processMap sampleEngine "annecy".toList false lostCwdWorld).2).length = 2
          ∧ ∃ c, (osGetwd (osGetwd lostCwdWorld).2).1 = .error c
            ∧ lostCwdError = .wrap "failed to get input map directory: ".toList
                (.wrap "failed to get working directory: ".toList c))
      ∨ ((callsSince lostCwdWorld (processMap sampleEngine "annecy".toList false lostCwdWorld).2).length = 3
          ∧ ∃ cwd c, inputCwd lostCwdWorld = some cwd
            ∧ readFile lostCwdWorld.fs (filepathJoin [inputRoot cwd false, "annecy".toList, "image.png".toList])
                = .error c
            ∧ lostCwdError = .wrap ("failed to read map file ".toList
                ++ filepathJoin [inputRoot cwd false, "annecy".toList, "image.png".toList] ++ ": ".toList) c)
      ∨ ((callsSince lostCwdWorld (processMap sampleEngine "annecy".toList false lostCwdWorld).2).length = 4
          ∧ ∃ cwd c, inputCwd lostCwdWorld = some cwd
            ∧ readFile lostCwdWorld.fs (filepathJoin [inputRoot cwd false, "annecy".toList, "info.json".toList])
                = .error c
            ∧ lostCwdError = .wrap ("failed to read info file ".toList
                ++ filepathJoin [inputRoot cwd false, "annecy".toList, "info.json".toList] ++ ": ".toList) c)
      ∨ ((callsSince lostCwdWorld (processMap sampleEngine "annecy".toList false lostCwdWorld).2).length = 5
          ∧ ∃ cwd info c, inputCwd lostCwdWorld = some cwd
            ∧ readFile lostCwdWorld.fs (filepathJoin [inputRoot cwd false, "annecy".toList, "info.json".toList])
                = .ok info
            ∧ jsonUnmarshal info = .error c
            ∧ lostCwdError = .wrap ("failed to parse info.json for ".toList ++ "annecy".toList ++ ": ".toList) c)
      ∨ ((callsSince lostCwdWorld (processMap sampleEngine "annecy".toList false lostCwdWorld).2).length = 6
          ∧ ∃ cwd image c, inputCwd lostCwdWorld = some cwd
            ∧ readFile lostCwdWorld.fs (filepathJoin [inputRoot cwd false, "annecy".toList, "image.png".toList])
                = .ok image
            ∧ sampleEngine { ImageBuffer := image, RemoveSmall := !false, Name := "annecy".toList } = .error c
            ∧ lostCwdError = .wrap ("failed to generate map for ".toList ++ "annecy".toList ++ ": ".toList) c)
      ∨ ((callsSince lostCwdWorld (processMap sampleEngine "annecy".toList false lostCwdWorld).2).length = 7
          ∧ ∃ out c, outputCwd lostCwdWorld = some out
            ∧ (mkdirAll lostCwdWorld.fs (filepathJoin [outputRoot out false, "annecy".toList])).1 = some c
            ∧ lostCwdError = .wrap ("failed to create output directory for ".toList ++ "annecy".toList
                ++ ": ".toList) c)
      ∨ ((callsSince lostCwdWorld (processMap sampleEngine "annecy".toList false lostCwdWorld).2).length = 8
          ∧ ∃ out data c, outputCwd lostCwdWorld = some out
            ∧ (callsSince lostCwdWorld (processMap sampleEngine "annecy".toList false lostCwdWorld).2).getLast?
                = some (.writeFile (filepathJoin [filepathJoin [outputRoot out false, "annecy".toList],
                    "map.bin".toList]) data)
            ∧ writeFile (processMap sampleEngine "annecy".toList false lostCwdWorld).2.fs
                (filepathJoin [filepathJoin [outputRoot out false, "annecy".toList], "map.bin".toList]) data
                = .error c
            ∧ lostCwdError = .wrap ("failed to write combined binary for ".toList ++ "annecy".toList ++ ": ".toList) c)
      ∨ ((callsSince lostCwdWorld (processMap sampleEngine "annecy".toList false lostCwdWorld).2).length = 9
          ∧ ∃ out data c, outputCwd lostCwdWorld = some out
            ∧ (callsSince lostCwdWorld (processMap sampleEngine "annecy".toList false lostCwdWorld).2).getLast?
                = some (.writeFile (filepathJoin [filepathJoin [outputRoot out false, "annecy".toList],
                    "mini_map.bin".toList]) data)
            ∧ writeFile (processMap sampleEngine "annecy".toList false lostCwdWorld).2.fs
                (filepathJoin [filepathJoin [outputRoot out false, "annecy".toList], "mini_map.bin".toList]) data
                = .error c
            ∧ lostCwdError = .wrap ("failed to write combined binary for ".toList ++ "annecy".toList ++ ": ".toList) c)
      ∨ ((callsSince lostCwdWorld (processMap sampleEngine "annecy".toList false lostCwdWorld).2).length = 10
          ∧ ∃ out data c, outputCwd lostCwdWorld = some out
            ∧ (callsSince lostCwdWorld (processMap sampleEngine "annecy".toList false lostCwdWorld).2).getLast?
                = some (.writeFile (filepathJoin [filepathJoin [outputRoot out false, "annecy".toList],
                    "thumbnail.webp".toList]) data)
            ∧ writeFile (processMap sampleEngine "annecy".toList false lostCwdWorld).2.fs
                (filepathJoin [filepathJoin [outputRoot out false, "annecy".toList], "thumbnail.webp".toList]) data
                = .error c
            ∧ lostCwdError = .wrap ("failed to write thumbnail for ".toList ++ "annecy".toList ++ ": ".toList) c)
      ∨ ((callsSince lostCwdWorld (processMap sampleEngine "annecy".toList false lostCwdWorld).2).length = 12
          ∧ ∃ out data c, outputCwd lostCwdWorld = some out
            ∧ (callsSince lostCwdWorld (processMap sampleEngine "annecy".toList false lostCwdWorld).2).getLast?
                = some (.writeFile (filepathJoin [filepathJoin [outputRoot out false, "annecy".toList],
                    "manifest.json".toList]) data)
            ∧ writeFile (processMap sampleEngine "annecy".toList false lostCwdWorld).2.fs
                (filepathJoin [filepathJoin [outputRoot out false, "annecy".toList], "manifest.json".toList]) data
                = .error c
            ∧ lostCwdError = .wrap ("failed to write manifest for ".toList ++ "annecy".toList ++ ": ".toList) c))
    ∧ (5 ≤ (callsSince lostCwdWorld (processMap sampleEngine "annecy".toList false lostCwdWorld).2).length → "annecy".toList <:+: lostCwdError.added)
    ∧ (Plain "annecy".toList → 3 ≤ (callsSince lostCwdWorld (processMap sampleEngine "annecy".toList false lostCwdWorld).2).length →
        "annecy".toList <:+: lostCwdError.added)
    ∧ ∀ (G2 : Engine) (name2 : Str) (isTest2 : Bool) (w2 : World) (e2 : GoError),
        (processMap G2 name2 isTest2 w2).1 = .err e2 → e2.added = lostCwdError.added →
        (callsSince w2 (processMap G2 name2 isTest2 w2).2).length
            = (callsSince lostCwdWorld (processMap sampleEngine "annecy".toList false lostCwdWorld).2).length
          ∨ (((callsSince w2 (processMap G2 name2 isTest2 w2).2).length = 8
                ∨ (callsSince w2 (processMap G2 name2 isTest2 w2).2).length = 9)
              ∧ ((callsSince lostCwdWorld (processMap sampleEngine "annecy".toList false lostCwdWorld).2).length = 8
                ∨ (callsSince lostCwdWorld (processMap sampleEngine "annecy".toList false lostCwdWorld).2).length = 9))) :=
  ⟨by decide,
   processMap_error_text sampleEngine "annecy".toList false lostCwdWorld lostCwdError (by decide)⟩

set_option maxRecDepth 100000 in
/-- C7, counterexample: when the working directory cannot be determined,
`processMap` returns for the map `annecy` an error whose added text is
`failed to get map directory: `, which does not contain the map name; and the
failures of the writes of `map.bin` and of `mini_map.bin` are wrapped with
the same text, which does not tell the one stage from the other. -/
theorem processMap_error_text_counterexample :
    ((processMap sampleEngine "annecy".toList false noCwdWorld).1 = .err noCwdError
      ∧ noCwdError.added = "failed to get map directory: ".toList
      ∧ ¬ ("annecy".toList <:+: noCwdError.added))
    ∧ ((processMap sampleEngine "annecy".toList false mapBinDirWorld).1
          = .err (.wrap "failed to write combined binary for annecy: ".toList
              (.lib (.isDir "/w/resources/maps/annecy/map.bin".toList)))
      ∧ (processMap sampleEngine "annecy".toList false miniMapDirWorld).1
          = .err (.wrap "failed to write combined binary for annecy: ".toList
              (.lib (.isDir "/w/resources/maps/annecy/mini_map.bin".toList)))
      ∧ writePaths (callsSince mapBinDirWorld
            (processMap sampleEngine "annecy".toList false mapBinDirWorld).2)
          = ["/w/resources/maps/annecy/map.bin".toList]
      ∧ writePaths (callsSince miniMapDirWorld
            (processMap sampleEngine "annecy".toList false miniMapDirWorld).2)
          = ["/w/resources/maps/annecy/map.bin".toList,
              "/w/resources/maps/annecy/mini_map.bin".toList]) := by
  decide

/-- C8, the code at the failing input: `null` as `info.json` is decoded
without error to the nil map, the engine is called, and the assignment
`manifest["map"] = ...` panics. -/
theorem processMap_null_manifest_panics :
    (match jsonUnmarshal "null".toList with
      | .ok none => true
      | _ => false) = true
    ∧ (processMap sampleEngine "annecy".toList false nullInfoWorld).1
        = .panic "assignment to entry in nil map".toList
    ∧ engineCalls (callsSince nullInfoWorld
        (processMap sampleEngine "annecy".toList false nullInfoWorld).2)
        = [{ ImageBuffer := "PNG-annecy".toList, RemoveSmall := true, Name := "annecy".toList }] := by
  decide

/-- C9 (amended): the `manifest.json` written by a call of `processMap` that
returns `nil` is a JSON text in which the keys of every object are in
ascending byte-wise order, each key once, whatever their order in
`info.json`; its top-level keys are `map`, `mini_map` and the keys of
`info.json`. -/
theorem manifest_keys_sorted (G : Engine) (name : Str) (isTest : Bool) (w : World)
    (hok : (processMap G name isTest w).1 = .ok) :
    ∃ out cwd info tree, outputCwd w = some out ∧ inputCwd w = some cwd
      ∧ readFile w.fs (filepathJoin [inputRoot cwd isTest, name, "info.json".toList]) = .ok info
      ∧ parseJSON (fileAt (processMap G name isTest w).2.fs
          (filepathJoin [filepathJoin [outputRoot out isTest, name], "manifest.json".toList]))
          = some tree
      ∧ sortedVal tree = true
      ∧ ∀ key, key ∈ objectKeys (fileAt (processMap G name isTest w).2.fs
            (filepathJoin [filepathJoin [outputRoot out isTest, name], "manifest.json".toList]))
          ↔ key = "map".toList ∨ key = "mini_map".toList ∨ key ∈ objectKeys info := by
  have hrun := processMap_run G name isTest w
  generalize processMap G name isTest w = res at hrun hok ⊢
  cases hrun with
  | noCwd h0 => cases hok
  | noInputCwd out h0 h0b => cases hok
  | noImage out cwd e h0 h0b h1 => cases hok
  | noInfo out cwd image e h0 h0b h1 h2 => cases hok
  | badInfo out cwd image info e h0 h0b h1 h2 h3 => cases hok
  | engineError out cwd image info manifest e h0 h0b h1 h2 h3 h4 => cases hok
  | nilManifest out cwd image info r h0 h0b h1 h2 h3 h4 => cases hok
  | output out cwd image info m r o fs1 cs h0 h0b h1 h2 h3 h4 h5 =>
    cases h5 with
    | mkdirFails e2 h7 => cases hok
    | mapFails fs7 e2 h7 h8 => cases hok
    | miniMapFails fs7 fs8 e2 h7 h8 h9 => cases hok
    | thumbnailFails fs7 fs8 fs9 e2 h7 h8 h9 h10 => cases hok
    | manifestFails fs7 fs8 fs9 fs10 text e2 h7 h8 h9 h10 h11 h12 => cases hok
    | done fs7 fs8 fs9 fs10 fs11 text h7 h8 h9 h10 h11 h12 =>
      cases h11
      have hfile := writeFile_fileAt _ _ _ _ h12
      unfold mapDirOf at hfile
      obtain ⟨raw, hraw, hm⟩ := jsonUnmarshal_some info m h3
      have hparse := parseJSON_manifest info m r h3
      refine ⟨out, cwd, info, asTree (canonVal (.obj (mergeManifest m r))), h0, h0b, h2,
        ?_, ?_, ?_⟩
      · simp only [hfile]
        exact hparse
      · rw [sorted_asTree]
        exact sorted_canonVal _
      · intro key
        simp only [hfile]
        have hk : objectKeys (renderVal [] [' ', ' '] 0 (canonVal (.obj (mergeManifest m r))))
            = (canonFields (mergeManifest m r)).keys := by
          unfold objectKeys
          rw [hparse]
          simp only [canonVal, asTree, keys_asTreeFields]
        rw [hk, mem_keys_canonFields, mem_keys_mergeManifest]
        have : key ∈ m.keys ↔ key ∈ objectKeys info := by
          rw [mem_keys_decodeFields key raw .nil m hm]
          simp [objectKeys, hraw, GoFields.keys]
        rw [this]

set_option maxRecDepth 100000 in
/-- C9 (amended) at `annecy` in `sampleWorld`. -/
theorem manifest_keys_sorted_witness :
    (processMap sampleEngine "annecy".toList false sampleWorld).1 = .ok
    ∧ (∃ out cwd info tree, outputCwd sampleWorld = some out ∧ inputCwd sampleWorld = some cwd
      ∧ readFile sampleWorld.fs (filepathJoin [inputRoot cwd false, "annecy".toList, "info.json".toList]) = .ok info
      ∧ parseJSON (fileAt (processMap sampleEngine "annecy".toList false sampleWorld).2.fs
          (filepathJoin [filepathJoin [outputRoot out false, "annecy".toList], "manifest.json".toList]))
          = some tree
      ∧ sortedVal tree = true
      ∧ ∀ key, key ∈ objectKeys (fileAt (processMap sampleEngine "annecy".toList false sampleWorld).2.fs
            (filepathJoin [filepathJoin [outputRoot out false, "annecy".toList], "manifest.json".toList]))
          ↔ key = "map".toList ∨ key = "mini_map".toList ∨ key ∈ objectKeys info) :=
  ⟨by decide,
   manifest_keys_sorted sampleEngine "annecy".toList false sampleWorld (by decide)⟩

set_option maxRecDepth 100000 in
/-- C9, counterexample: `info.json` lists `b` before `a`, the `manifest.json`
written for it lists `a` before `b`. -/
theorem manifest_order_counterexample :
    (processMap sampleEngine "annecy".toList false sampleWorld).1 = .ok
    ∧ passthroughKeys (fileAt sampleWorld.fs
        "/w/map-generator/assets/maps/annecy/info.json".toList) = ["b".toList, "a".toList]
    ∧ passthroughKeys (fileAt (processMap sampleEngine "annecy".toList false sampleWorld).2.fs
        "/w/resources/maps/annecy/manifest.json".toList) = ["a".toList, "b".toList] := by
  decide

/-- C10: when `processMap` returns an error and the call that failed is
`os.Getwd`, `os.ReadFile`, `json.Unmarshal` or `GenerateMap`, the file system
is as before and neither `os.MkdirAll` nor `os.WriteFile` has been called; and
when the failing call is one of the first three, the engine has not been
called. -/
theorem processMap_early_failure (G : Engine) (name : Str) (isTest : Bool) (w : World)
    (e : GoError) (herr : (processMap G name isTest w).1 = .err e)
    (hstage : lastStage (callsSince w (processMap G name isTest w).2) = some .getwd
      ∨ lastStage (callsSince w (processMap G name isTest w).2) = some .readFile
      ∨ lastStage (callsSince w (processMap G name isTest w).2) = some .unmarshal
      ∨ lastStage (callsSince w (processMap G name isTest w).2) = some .generateMap) :
    (processMap G name isTest w).2.fs = w.fs
      ∧ mkdirPaths (callsSince w (processMap G name isTest w).2) = []
      ∧ writePaths (callsSince w (processMap G name isTest w).2) = []
      ∧ (lastStage (callsSince w (processMap G name isTest w).2) ≠ some .generateMap →
          engineCalls (callsSince w (processMap G name isTest w).2) = []) := by
  have hrun := processMap_run G name isTest w
  generalize processMap G name isTest w = out at hrun herr hstage ⊢
  cases hrun with
  | noCwd h0 => simp [callsSince_append, mkdirPaths, writePaths, engineCalls]
  | noInputCwd out h0 h0b => simp [callsSince_append, mkdirPaths, writePaths, engineCalls]
  | noImage out cwd e h0 h0b h1 => simp [callsSince_append, mkdirPaths, writePaths, engineCalls]
  | noInfo out cwd image e h0 h0b h1 h2 => simp [callsSince_append, mkdirPaths, writePaths, engineCalls]
  | badInfo out cwd image info e h0 h0b h1 h2 h3 =>
    simp [callsSince_append, mkdirPaths, writePaths, engineCalls, loadCalls]
  | engineError out cwd image info manifest e h0 h0b h1 h2 h3 h4 =>
    simp [callsSince_append, mkdirPaths, writePaths, engineCalls, loadCalls, lastStage,
      Call.stage]
  | nilManifest out cwd image info r h0 h0b h1 h2 h3 h4 => simp at herr
  | output out cwd image info m r o fs1 cs h0 h0b h1 h2 h3 h4 h5 =>
    exfalso
    cases h5 <;>
      simp [callsSince_append, loadCalls, lastStage, Call.stage, List.getLast?_append,
        List.getLast?_cons_cons] at hstage

/-- C10 at `paris` in `sampleWorld`, whose `image.png` cannot be read. -/
theorem processMap_early_failure_witness :
    (processMap sampleEngine "paris".toList false sampleWorld).1 = .err parisError
    ∧ lastStage (callsSince sampleWorld
        (processMap sampleEngine "paris".toList false sampleWorld).2) = some .readFile
    ∧ ((processMap sampleEngine "paris".toList false sampleWorld).2.fs = sampleWorld.fs
      ∧ mkdirPaths (callsSince sampleWorld (processMap sampleEngine "paris".toList false sampleWorld).2) = []
      ∧ writePaths (callsSince sampleWorld (processMap sampleEngine "paris".toList false sampleWorld).2) = []
      ∧ (lastStage (callsSince sampleWorld (processMap sampleEngine "paris".toList false sampleWorld).2) ≠ some .generateMap →
          engineCalls (callsSince sampleWorld (processMap sampleEngine "paris".toList false sampleWorld).2) = [])) :=
  ⟨by decide, by decide,
   processMap_early_failure sampleEngine "paris".toList false sampleWorld parisError
     (by decide) (Or.inr (Or.inl (by decide)))⟩

end MapGenerator
